import Mathlib

/-!
# help80: parameter registry, command-line parser and help-menu layout

A shallow embedding of `src/Parameters.hpp` and `src/Parameters.cpp`.

* `std::string` is `String`, one character for each `char`: `String.length` is
  `std::string::length()` and the positions of `at` and `substr` are positions of
  characters. This is the `std::string` of the code for texts of ASCII characters
  (`ascii`), one byte per character; the general statements on the layout of a text
  assume `ascii` of that text.
* `std::size_t` is 64 bits wide: mixed `int`/`size_t` expressions are evaluated
  modulo `2 ^ 64` after converting the `int` operand (`toSizeT`, `szAdd`, `szSub`).
* `std::map` is an association list in insertion order; `std::map::insert` keeps an
  existing entry. No function of the class depends on the iteration order of the
  name-keyed maps.
* `std::cout` and `std::cerr` are explicit values threaded through the functions.
* A `throw` is a `Failure.thrown`; an operation whose behaviour the language leaves
  undefined is a `Failure.undefined`.
-/

namespace Help80

/-! ## Platform model -/

/-- Smallest value of `int`. -/
def INT_MIN : Int := -2147483648

/-- Largest value of `int`. -/
def INT_MAX : Int := 2147483647

/-- Conversion of an `int` operand to `std::size_t` (usual arithmetic conversions). -/
def toSizeT (x : Int) : Nat := (x % (18446744073709551616 : Int)).toNat

/-- Addition of two `std::size_t` values. -/
def szAdd (a b : Nat) : Nat := (a + b) % 18446744073709551616

/-- Subtraction of two `std::size_t` values (wraps around below zero). -/
def szSub (a b : Nat) : Nat :=
  (a % 18446744073709551616 + 18446744073709551616 - b % 18446744073709551616)
    % 18446744073709551616

/-- The characters `isspace` accepts in the C locale. -/
def isSpaceC (c : Char) : Bool :=
  c = ' ' || c = '\t' || c = '\n' || c = '\x0b' || c = '\x0c' || c = '\r'

/-- Value of a decimal digit character. -/
def digitVal (c : Char) : Nat := c.toNat - 48

/-- Value of a sequence of decimal digits, most significant first. -/
def decimalNat (ds : List Char) : Nat := ds.foldl (fun a c => 10 * a + digitVal c) 0

/-- The sign and the rest of the text after an optional `+` or `-`. -/
def splitSign : List Char → Bool × List Char
  | [] => (false, [])
  | c :: r => if c = '-' then (true, r) else if c = '+' then (false, r) else (false, c :: r)

/-- Model of `std::stoi(str)` (C++ standard library, `strtol` in base 10): leading
white space is skipped, an optional sign and the longest run of digits are read,
the rest of the text is ignored. `none` stands for the exception it throws
(`std::invalid_argument` when there is no digit, `std::out_of_range` when the value
does not fit an `int`). -/
def stoi (s : String) : Option Int :=
  let cs := s.data.dropWhile isSpaceC
  let sr := splitSign cs
  let ds := sr.2.takeWhile Char.isDigit
  if ds.isEmpty then none
  else
    let v : Int := if sr.1 then - (decimalNat ds : Int) else (decimalNat ds : Int)
    if INT_MIN ≤ v ∧ v ≤ INT_MAX then some v else none

/-- A token written as an optional `-` followed by decimal digits only, with the
integer it denotes when that integer is a value of `int`. -/
def decimalInt (s : String) : Option Int :=
  match s.data with
  | [] => none
  | c :: r =>
    let body : List Char := if c = '-' then r else c :: r
    if body.isEmpty || !(body.all Char.isDigit) then none
    else
      let v : Int := if c = '-' then - (decimalNat body : Int) else (decimalNat body : Int)
      if INT_MIN ≤ v ∧ v ≤ INT_MAX then some v else none

/-- The floating-point part of the platform: the types `double` and `long double`
and the library conversions `std::stod` and `std::stold` (`none` stands for the
exception they throw), and the text `operator<<` prints for a value. -/
structure FloatLib where
  Dbl : Type
  LDbl : Type
  stod : String → Option Dbl
  stold : String → Option LDbl
  showDbl : Dbl → String
  showLDbl : LDbl → String

/-- A platform instance for evaluating examples: floating-point values are
integers and the conversions read a decimal integer. -/
def FloatLib.integral : FloatLib where
  Dbl := Int
  LDbl := Int
  stod := stoi
  stold := stoi
  showDbl := fun x => toString x
  showLDbl := fun x => toString x

/-! ## Failures -/

/-- Operations whose behaviour is undefined. -/
inductive Undefined where
  /-- A `std::string` built from `argv[i]` with `i = argc`, a null pointer. -/
  | argv_null (i : Nat)
  /-- The subscript `values[i]` of a vector with `size` elements, `size ≤ i`. -/
  | vector_index (i : Nat) (size : Nat)
  /-- A member access through the null result of a failed `dynamic_cast`. -/
  | null_cast
  /-- A read of a member the constructor leaves uninitialised. -/
  | uninitialised
  /-- An `int` counter incremented past `INT_MAX`. -/
  | int_overflow
  deriving DecidableEq, Repr

/-- Ways in which a call does not return normally. -/
inductive Failure where
  /-- The statement `throw std::string(msg)`. -/
  | thrown (msg : String)
  /-- The exception `std::out_of_range` raised by the standard library. -/
  | std_out_of_range
  /-- Undefined behaviour. -/
  | undefined (what : Undefined)
  /-- The iteration bound of a loop model was too small. -/
  | out_of_fuel
  deriving DecidableEq, Repr

/-! ## Data model -/

/-- The enumeration `Parameters::LANG`. -/
inductive LANG where
  | lang_fr
  | lang_us
  deriving DecidableEq, Repr

/-- The structure `Parameters::config`. -/
structure config where
  terminal_width : Int
  param_to_desc_len : Int
  desc_indent_len : Int
  params_indent_len : Int
  choice_indent_len : Int
  lang : LANG
  deriving DecidableEq, Repr

/-- The values `typeid(T).name()` the code compares against. -/
inductive TypeName where
  | bool
  | int
  | double
  | long_double
  | string
  deriving DecidableEq, Repr

/-- The members `values` and `def_values` of `Param<T>`, for each `T`. -/
inductive Store (F : FloatLib) where
  | bool (values def_values : List Bool)
  | int (values def_values : List Int)
  | double (values def_values : List F.Dbl)
  | long_double (values def_values : List F.LDbl)
  | string (values def_values : List String)

/-- The default values handed to `define_num_str_param<T>`, for each `T`. -/
inductive Defaults (F : FloatLib) where
  | int (l : List Int)
  | double (l : List F.Dbl)
  | long_double (l : List F.LDbl)
  | string (l : List String)

/-- A `Param<T>` object seen through its base class `ParamHolder`. -/
structure ParamHolder (F : FloatLib) where
  name : String
  description : String
  nb_values : Nat
  values_names : List String
  display_default_value : Bool
  is_defined : Bool
  store : Store F

/-- The member `type_name`: every constructor of `Param<T>` passes
`typeid(T).name()`, so it is determined by the dynamic type of the object. -/
def ParamHolder.type_name {F : FloatLib} (p : ParamHolder F) : TypeName :=
  match p.store with
  | .bool _ _ => .bool
  | .int _ _ => .int
  | .double _ _ => .double
  | .long_double _ _ => .long_double
  | .string _ _ => .string

/-- Number of elements of the vector `values`. -/
def Store.size {F : FloatLib} : Store F → Nat
  | .bool v _ => v.length
  | .int v _ => v.length
  | .double v _ => v.length
  | .long_double v _ => v.length
  | .string v _ => v.length

/-- Number of elements of the vector `def_values`. -/
def Store.def_size {F : FloatLib} : Store F → Nat
  | .bool _ d => d.length
  | .int _ d => d.length
  | .double _ d => d.length
  | .long_double _ d => d.length
  | .string _ d => d.length

/-- The constructor `Param<T>(name, description, values_names, default_values,
display_default_value)`. -/
def Param.withValues {F : FloatLib} (p_name p_description : String)
    (p_values_names : List String) (p_default_values : Defaults F)
    (p_display_default_value : Bool) : ParamHolder F where
  name := p_name
  description := p_description ++ " "
  nb_values := p_values_names.length
  values_names := p_values_names
  display_default_value := p_display_default_value
  is_defined := false
  store := match p_default_values with
    | .int l => .int l l
    | .double l => .double l l
    | .long_double l => .long_double l l
    | .string l => .string l l

/-- The constructor `Param<bool>(name, description)`. -/
def Param.flag {F : FloatLib} (p_name p_description : String) : ParamHolder F where
  name := p_name
  description := p_description ++ " "
  nb_values := 0
  values_names := []
  display_default_value := false
  is_defined := false
  store := .bool [] []

/-- The operation `std::map::find`, as an optional value. -/
def mapFind {κ β : Type} [DecidableEq κ] : List (κ × β) → κ → Option β
  | [], _ => none
  | (k', v) :: r, k => if k' = k then some v else mapFind r k

/-- The operation `std::map::count`. -/
def mapCount {κ β : Type} [DecidableEq κ] (m : List (κ × β)) (k : κ) : Nat :=
  match mapFind m k with
  | some _ => 1
  | none => 0

/-- The operation `std::map::insert`: an existing entry is kept. -/
def mapInsert {κ β : Type} [DecidableEq κ] (m : List (κ × β)) (k : κ) (v : β) :
    List (κ × β) :=
  match mapFind m k with
  | some _ => m
  | none => m ++ [(k, v)]

/-- A write through the pointer stored under key `k`. -/
def mapAssign {κ β : Type} [DecidableEq κ] : List (κ × β) → κ → β → List (κ × β)
  | [], _, _ => []
  | (k', v') :: r, k, v => if k' = k then (k', v) :: r else (k', v') :: mapAssign r k v

/-- The operation `std::set::insert`. -/
def setInsert (s : List String) (k : String) : List String :=
  if k ∈ s then s else s ++ [k]

/-- The type `Parameters::vec_choices`. -/
abbrev vec_choices := List (String × String)

/-- The state of a `Parameters` object. `argc` is the length of `argv`; the
constructor does not initialise `usage_is_set`, which is `none` until `set_usage`
assigns it. -/
structure Parameters (F : FloatLib) where
  argv : List String
  terminal_width : Int
  param_to_desc_len : Int
  desc_indent_len : Int
  params_indent_len : Int
  choice_indent_len : Int
  desc_indent : String
  choice_indent : String
  params_indent : String
  lang : LANG
  description : String
  description_is_set : Bool
  usage : String
  usage_is_set : Option Bool
  subsections : List String
  subs_indexes : List Nat
  params : List (String × ParamHolder F)
  order : List (Nat × String)
  choices : List (String × vec_choices)
  choices_params : List String

/-- The member `argc`. -/
def Parameters.argc {F : FloatLib} (s : Parameters F) : Nat := s.argv.length

/-- A string of `n` spaces, as built by `for(int i=0 ; i<n ; i++) s += " "`. -/
def spaces (n : Int) : String := String.mk (List.replicate n.toNat ' ')

/-- The constructor `Parameters::Parameters(argc, argv, config)`. -/
def Parameters.init (F : FloatLib) (p_argv : List String) (p_c : config) : Parameters F where
  argv := p_argv
  terminal_width := p_c.terminal_width
  param_to_desc_len := p_c.param_to_desc_len
  desc_indent_len := p_c.desc_indent_len
  params_indent_len := p_c.params_indent_len
  choice_indent_len := p_c.choice_indent_len
  desc_indent := spaces p_c.desc_indent_len
  choice_indent := spaces p_c.choice_indent_len
  params_indent := spaces p_c.params_indent_len
  lang := p_c.lang
  description := ""
  description_is_set := false
  usage := ""
  usage_is_set := none
  subsections := []
  subs_indexes := []
  params := []
  order := []
  choices := []
  choices_params := []

/-- The function `Parameters::set_program_description`. -/
def set_program_description {F : FloatLib} (p_description : String) (s : Parameters F) :
    Parameters F :=
  { s with description := p_description ++ " ", description_is_set := true }

/-- The function `Parameters::set_usage`. -/
def set_usage {F : FloatLib} (p_usage : String) (s : Parameters F) : Parameters F :=
  { s with usage := p_usage, usage_is_set := some true }

/-! ## Building the menu -/

/-- The function `Parameters::insert_subsection`. -/
def insert_subsection {F : FloatLib} (subsection_title : String) (s : Parameters F) :
    Parameters F :=
  { s with subsections := s.subsections ++ [subsection_title],
           subs_indexes := s.subs_indexes ++ [s.params.length] }

/-- The text thrown when a parameter of the same name exists. -/
def msg_duplicate : LANG → String
  | .lang_fr => "erreur : un paramètre de même nom existe déjà"
  | .lang_us => "error: a parameter with the same name already exists"

/-- The function `Parameters::define_param`: the outcome of the call and the state
of the object after it. -/
def define_param {F : FloatLib} (param_name param_desc : String) (s : Parameters F) :
    Except Failure Unit × Parameters F :=
  if mapCount s.params ("--" ++ param_name) ≠ 0 then
    (.error (.thrown (msg_duplicate s.lang)), s)
  else
    let p : ParamHolder F := Param.flag ("--" ++ param_name) param_desc
    (.ok (), { s with
      order := mapInsert s.order s.params.length ("--" ++ param_name),
      params := mapInsert s.params ("--" ++ param_name) p })

/-- The function `Parameters::define_num_str_param<T>`. -/
def define_num_str_param {F : FloatLib} (param_name : String) (values_names : List String)
    (default_param_values : Defaults F) (param_desc : String)
    (display_default_value : Bool) (s : Parameters F) :
    Except Failure Unit × Parameters F :=
  if mapCount s.params ("--" ++ param_name) ≠ 0 then
    (.error (.thrown (msg_duplicate s.lang)), s)
  else
    let p : ParamHolder F := Param.withValues ("--" ++ param_name) param_desc values_names
      default_param_values display_default_value
    (.ok (), { s with
      order := mapInsert s.order s.params.length ("--" ++ param_name),
      params := mapInsert s.params ("--" ++ param_name) p })

/-- The function `Parameters::define_choice_param`. -/
def define_choice_param {F : FloatLib} (param_name value_name default_choice : String)
    (p_choices : vec_choices) (param_desc : String) (display_default_value : Bool)
    (s : Parameters F) : Except Failure Unit × Parameters F :=
  if mapCount s.params ("--" ++ param_name) ≠ 0 then
    (.error (.thrown (msg_duplicate s.lang)), s)
  else
    let p_choices : vec_choices := p_choices.map (fun p => (p.1, p.2 ++ " "))
    let p : ParamHolder F := Param.withValues ("--" ++ param_name) param_desc [value_name]
      (.string [default_choice]) display_default_value
    (.ok (), { s with
      order := mapInsert s.order s.params.length ("--" ++ param_name),
      params := mapInsert s.params ("--" ++ param_name) p,
      choices := mapInsert s.choices ("--" ++ param_name) p_choices,
      choices_params := setInsert s.choices_params ("--" ++ param_name) })

/-! ## Using the parameters -/

/-- Diagnostic of `parse_params` for a value token that does not convert (written
without `std::endl`; the same text is used for the three numeric types). -/
def msg_type (lang : LANG) (line_param arg_value : String) : String :=
  match lang with
  | .lang_fr => "le paramètre \"" ++ line_param ++ "\" attend une valeur entière, et a reçu \""
      ++ arg_value ++ "\""
  | .lang_us => "parameter \"" ++ line_param ++ "\" expects an integer value, received \""
      ++ arg_value ++ "\""

/-- Diagnostic of `parse_params` for a parameter with too few value tokens. -/
def msg_arity (lang : LANG) (line_param : String) (nb_values : Nat) : String :=
  match lang with
  | .lang_fr => "erreur : le paramètre \"" ++ line_param ++ "\" attend " ++ toString nb_values
      ++ " valeurs\n"
  | .lang_us => "error: parameter \"" ++ line_param ++ "\" expects " ++ toString nb_values
      ++ " values\n"

/-- Diagnostic of `parse_params` for a token that is no registered name. -/
def msg_unknown (lang : LANG) (line_param : String) : String :=
  match lang with
  | .lang_fr => "erreur : paramètre \"--" ++ line_param ++ "\" inconnu\n"
  | .lang_us => "unknown parameter \"" ++ line_param ++ "\"\n"

/-- The body of `if(++i<=argc)` in `parse_params` once `arg_value` is read: the
conversion of `arg_value` by the type of `p` and the assignment to `values[j]`, or
the diagnostic of the `catch` clause. -/
def store_value {F : FloatLib} (lang : LANG) (line_param : String) (p : ParamHolder F)
    (j : Nat) (arg_value : String) (cerr : List String) :
    Except Failure (ParamHolder F × List String) :=
  match p.store with
  | .int values defs =>
    match stoi arg_value with
    | some v =>
      if j < values.length then .ok ({ p with store := .int (values.set j v) defs }, cerr)
      else .error (.undefined (.vector_index j values.length))
    | none => .ok (p, cerr ++ [msg_type lang line_param arg_value])
  | .double values defs =>
    match F.stod arg_value with
    | some v =>
      if j < values.length then .ok ({ p with store := .double (values.set j v) defs }, cerr)
      else .error (.undefined (.vector_index j values.length))
    | none => .ok (p, cerr ++ [msg_type lang line_param arg_value])
  | .long_double values defs =>
    match F.stold arg_value with
    | some v =>
      if j < values.length then
        .ok ({ p with store := .long_double (values.set j v) defs }, cerr)
      else .error (.undefined (.vector_index j values.length))
    | none => .ok (p, cerr ++ [msg_type lang line_param arg_value])
  | .string values defs =>
    if j < values.length then
      .ok ({ p with store := .string (values.set j arg_value) defs }, cerr)
    else .error (.undefined (.vector_index j values.length))
  | .bool _ _ => .ok (p, cerr)

/-- The inner loop `for(int j=0 ; j<p->nb_values ; j++)` of `parse_params`. The first
argument is the number of iterations left, `j` the slot, `i` the index of the last
token read. The result is the final `i`, the parameter and `std::cerr`. -/
def read_values {F : FloatLib} (lang : LANG) (argv : List String) (line_param : String)
    (nb_values : Nat) :
    Nat → Nat → Nat → ParamHolder F → List String →
      Except Failure (Nat × ParamHolder F × List String)
  | 0, _, i, p, cerr => .ok (i, p, cerr)
  | n + 1, j, i, p, cerr =>
    if i + 1 ≤ argv.length then
      match argv.get? (i + 1) with
      | none => .error (.undefined (.argv_null (i + 1)))
      | some arg_value =>
        match store_value lang line_param p j arg_value cerr with
        | .error e => .error e
        | .ok (p', cerr') => read_values lang argv line_param nb_values n (j + 1) (i + 1) p' cerr'
    else
      read_values lang argv line_param nb_values n (j + 1) (i + 1) p
        (cerr ++ [msg_arity lang line_param nb_values])

/-- One iteration of the outer loop of `parse_params` at token index `i < argc`:
the index reached at the end of the body (before `i++`), the parameters and
`std::cerr`. -/
def parse_step {F : FloatLib} (lang : LANG) (argv : List String) (i : Nat)
    (params : List (String × ParamHolder F)) (cerr : List String) :
    Except Failure (Nat × List (String × ParamHolder F) × List String) :=
  match argv.get? i with
  | none => .error (.undefined (.argv_null i))
  | some line_param =>
    match mapFind params line_param with
    | some p =>
      match read_values lang argv line_param p.nb_values p.nb_values 0 i p cerr with
      | .error e => .error e
      | .ok (i', p', cerr') =>
        .ok (i', mapAssign params line_param { p' with is_defined := true }, cerr')
    | none => .ok (i, params, cerr ++ [msg_unknown lang line_param])

/-- The outer loop `for(int i=1 ; i<argc ; i++)` of `parse_params`, with a bound on
the number of iterations. -/
def parse_loop {F : FloatLib} (lang : LANG) (argv : List String) :
    Nat → Nat → List (String × ParamHolder F) → List String →
      Except Failure (List (String × ParamHolder F) × List String)
  | 0, i, params, cerr => if i < argv.length then .error .out_of_fuel else .ok (params, cerr)
  | fuel + 1, i, params, cerr =>
    if i < argv.length then
      match parse_step lang argv i params cerr with
      | .error e => .error e
      | .ok (i', params', cerr') => parse_loop lang argv fuel (i' + 1) params' cerr'
    else .ok (params, cerr)

/-- The function `Parameters::parse_params`: the state of the object after the call
and the text written to `std::cerr`. Every iteration advances `i`, so `argc`
iterations are enough. -/
def parse_params {F : FloatLib} (s : Parameters F) :
    Except Failure (Parameters F × List String) :=
  match parse_loop s.lang s.argv s.argv.length 1 s.params [] with
  | .error e => .error e
  | .ok (params', cerr) => .ok ({ s with params := params' }, cerr)

/-- The text thrown by `is_def` for an unknown name. -/
def msg_unknown_is_def (lang : LANG) (param_name : String) : String :=
  match lang with
  | .lang_fr => "erreur : paramètre \"--" ++ param_name ++ "\" inconnu"
  | .lang_us => "error: unknown parameter \"--" ++ param_name ++ "\""

/-- The function `Parameters::is_def`. -/
def is_def {F : FloatLib} (s : Parameters F) (param_name : String) : Except Failure Bool :=
  match mapFind s.params ("--" ++ param_name) with
  | some p => .ok p.is_defined
  | none => .error (.thrown (msg_unknown_is_def s.lang param_name))

/-- The text thrown by `str_val`, `cho_val` and `num_val` for an unknown name. -/
def msg_unknown_name (param_name : String) : String :=
  "error: unknown parameter \"--" ++ param_name ++ "\""

/-- The text thrown by `str_val` and `num_val` for a value number above `nb_values`. -/
def msg_only_has (param_name : String) (nb_values : Nat) : String :=
  "parameter \"--" ++ param_name ++ "\" only has " ++ toString nb_values ++ " values"

/-- The subscript `values[k]` of a `std::vector`. -/
def vectorAt {α : Type} (values : List α) (k : Nat) : Except Failure α :=
  match values.get? k with
  | some v => .ok v
  | none => .error (.undefined (.vector_index k values.length))

/-- The function `Parameters::str_val`. The test `value_number>p->nb_values` compares
an `int` with a `std::size_t`. -/
def str_val {F : FloatLib} (s : Parameters F) (param_name : String) (value_number : Int) :
    Except Failure String :=
  match mapFind s.params ("--" ++ param_name) with
  | some p =>
    if toSizeT value_number > p.nb_values then
      .error (.thrown (msg_only_has param_name p.nb_values))
    else
      match p.store with
      | .string values _ => vectorAt values (toSizeT (value_number - 1))
      | _ => .error (.undefined .null_cast)
  | none => .error (.thrown (msg_unknown_name param_name))

/-- The function `Parameters::cho_val`. -/
def cho_val {F : FloatLib} (s : Parameters F) (param_name : String) : Except Failure String :=
  match mapFind s.params ("--" ++ param_name) with
  | some p =>
    match p.store with
    | .string values _ => vectorAt values 0
    | _ => .error (.undefined .null_cast)
  | none => .error (.thrown (msg_unknown_name param_name))

/-- A stored numeric value, before `num_val<T>` converts it to the type `T` the
caller asks for. -/
inductive Num (F : FloatLib) where
  | int (v : Int)
  | double (v : F.Dbl)
  | long_double (v : F.LDbl)

/-- The function `Parameters::num_val<T>`. -/
def num_val {F : FloatLib} (s : Parameters F) (param_name : String) (value_number : Int) :
    Except Failure (Num F) :=
  match mapFind s.params ("--" ++ param_name) with
  | some p =>
    if toSizeT value_number > p.nb_values then
      .error (.thrown (msg_only_has param_name p.nb_values))
    else
      match p.store with
      | .int values _ => (vectorAt values (toSizeT (value_number - 1))).map Num.int
      | .double values _ => (vectorAt values (toSizeT (value_number - 1))).map Num.double
      | .long_double values _ =>
        (vectorAt values (toSizeT (value_number - 1))).map Num.long_double
      | _ => .error (.thrown "type not supported yet")
  | none => .error (.thrown (msg_unknown_name param_name))

/-! ## Displaying the help menu -/

/-- The stream `std::cout`: the lines ended by `std::endl`, in order, and the text
written since the last `std::endl`. -/
structure Cout where
  lines : List String
  cur : String
  deriving DecidableEq, Repr

/-- The empty stream. -/
def Cout.empty : Cout := ⟨[], ""⟩

/-- The statement `std::cout << s`. -/
def Cout.put (o : Cout) (s : String) : Cout := { o with cur := o.cur ++ s }

/-- The statement `std::cout << std::endl`. -/
def Cout.endl (o : Cout) : Cout := { lines := o.lines ++ [o.cur], cur := "" }

/-- The call `s.substr(0, count)`. -/
def substr_to (s : String) (count : Nat) : String := String.mk (s.data.take count)

/-- The call `s.substr(pos)`, which throws `std::out_of_range` when `pos > s.size()`. -/
def substr_from (s : String) (pos : Nat) : Except Failure String :=
  if pos > s.length then .error .std_out_of_range else .ok (String.mk (s.data.drop pos))

/-- The local variables of the loop of `print_description`, with `std::cout`. -/
structure DescState where
  line : String
  word : String
  first_word : Bool
  out : Cout
  deriving DecidableEq, Repr

/-- The body of the loop of `print_description` for the character `c`. The lengths are
numbers of characters: those of `line.length()` and `word.length()` for an ASCII
description (`ascii`). -/
def print_description_step (terminal_width : Int) (st : DescState) (c : Char) : DescState :=
  if c ≠ ' ' then { st with word := st.word.push c }
  else if szAdd (szAdd st.line.length st.word.length) 1 ≤ toSizeT terminal_width then
    if st.first_word then { st with line := st.word, first_word := false, word := "" }
    else { st with line := st.line ++ (" " ++ st.word), word := "" }
  else
    { st with out := (st.out.put st.line).endl, line := st.word, word := "" }

/-- The function `Parameters::print_description`. -/
def print_description {F : FloatLib} (s : Parameters F) (out : Cout) : Cout :=
  let st := s.description.data.foldl (print_description_step s.terminal_width)
    { line := "", word := "", first_word := true, out := out.endl }
  (st.out.put st.line).endl

/-- The function `Parameters::print_usage`. -/
def print_usage {F : FloatLib} (s : Parameters F) (out : Cout) : Cout :=
  let out := match s.lang with
    | .lang_fr => ((out.put "UTILISATION :").endl).endl
    | .lang_us => ((out.put "USAGE:").endl).endl
  (((out.put s.params_indent).put s.usage).endl).endl

/-- The local variables of a wrap loop of `print_parameters`, with `std::cout`. -/
structure WrapState where
  line : String
  word : String
  first_l : Bool
  first_word : Bool
  out : Cout
  deriving DecidableEq, Repr

/-- Outcome of a piece of printing code: the value it ends with, or the failure that
interrupts it with the stream at that moment. -/
inductive Printed (α : Type) where
  | next (a : α)
  | raised (e : Failure) (out : Cout)
  deriving DecidableEq, Repr

/-- The body of the description loop of `print_parameters` (lines 157-189) for the
character `c`. The lengths and the split position are numbers of characters: those of
the code for an ASCII description (`ascii`). -/
def param_desc_step (terminal_width desc_indent_len : Int) (desc_indent : String)
    (desc_on_new_line : Bool) (st : WrapState) (c : Char) : Printed WrapState :=
  if c ≠ ' ' ∧ szAdd (toSizeT desc_indent_len) st.word.length < toSizeT terminal_width then
    .next { st with word := st.word.push c }
  else if szAdd (szAdd (szAdd (toSizeT desc_indent_len) st.line.length) st.word.length) 1
      ≤ toSizeT terminal_width then
    if st.first_word then .next { st with line := st.word, first_word := false, word := "" }
    else .next { st with line := st.line ++ (" " ++ st.word), word := "" }
  else
    let out := if !st.first_l || desc_on_new_line then st.out.put desc_indent else st.out
    if szAdd (toSizeT desc_indent_len) st.word.length < toSizeT terminal_width then
      .next { st with first_l := false, out := (out.put st.line).endl, line := st.word,
                      word := "" }
    else
      let out := if st.line ≠ "" then (out.put st.line).put " " else out
      let line_len : Nat := if st.line ≠ "" then szAdd st.line.length 1 else 0
      let n : Nat := szSub (toSizeT terminal_width) (szAdd (toSizeT desc_indent_len) line_len)
      let out := (out.put (substr_to st.word n)).endl
      match substr_from st.word n with
      | .error e => .raised e out
      | .ok rest =>
        .next { line := "", word := rest.push c, first_l := false, first_word := true,
                out := out }

/-- A loop over the characters of a text with a body that may fail. -/
def wrap_loop (step : WrapState → Char → Printed WrapState) :
    List Char → WrapState → Printed WrapState
  | [], st => .next st
  | c :: cs, st =>
    match step st c with
    | .next st' => wrap_loop step cs st'
    | .raised e out => .raised e out

/-- The block "print description" of `print_parameters` (lines 151-193): the loop
over `description` and the print of the last line. -/
def print_param_description (terminal_width desc_indent_len : Int) (desc_indent : String)
    (desc_on_new_line : Bool) (description : String) (out : Cout) : Printed Cout :=
  match wrap_loop (param_desc_step terminal_width desc_indent_len desc_indent desc_on_new_line)
      description.data
      { line := "", word := "", first_l := true, first_word := true, out := out } with
  | .raised e out => .raised e out
  | .next st =>
    let out := if !st.first_l || desc_on_new_line then st.out.put desc_indent else st.out
    .next ((out.put st.line).endl)

/-- The body of the choice-description loop of `print_parameters` (lines 211-243)
for the character `c`; `other_len` and `spaces` are the locals of that name. -/
def choice_desc_step (terminal_width desc_indent_len choice_indent_len : Int) (other_len : Nat)
    (spaces : String) (desc_on_new_line : Bool) (st : WrapState) (c : Char) :
    Printed WrapState :=
  if c ≠ ' ' ∧ szAdd (szAdd (toSizeT (desc_indent_len + choice_indent_len)) other_len)
      st.word.length < toSizeT terminal_width then
    .next { st with word := st.word.push c }
  else if szAdd (szAdd (szAdd (szAdd (toSizeT (desc_indent_len + choice_indent_len)) other_len)
      st.line.length) st.word.length) 1 ≤ toSizeT terminal_width then
    if st.first_word then .next { st with line := st.word, first_word := false, word := "" }
    else .next { st with line := st.line ++ (" " ++ st.word), word := "" }
  else
    let out := if !st.first_l || desc_on_new_line then st.out.put spaces else st.out
    if szAdd (szAdd (toSizeT (desc_indent_len + choice_indent_len)) other_len) st.word.length
        < toSizeT terminal_width then
      .next { st with first_l := false, out := (out.put st.line).endl, line := st.word,
                      word := "" }
    else
      let out := if st.line ≠ "" then (out.put st.line).put " " else out
      let line_len : Nat := if st.line ≠ "" then szAdd st.line.length 1 else 0
      let n : Nat := szSub (toSizeT terminal_width)
        (szAdd (szAdd (toSizeT (desc_indent_len + choice_indent_len)) other_len) line_len)
      let out := (out.put (substr_to st.word n)).endl
      match substr_from st.word n with
      | .error e => .raised e out
      | .ok rest =>
        .next { line := "", word := rest.push c, first_l := false, first_word := true,
                out := out }

/-- The body of the loop over the choices of a parameter in `print_parameters`
(lines 198-247) for the choice `p`. -/
def print_choice {F : FloatLib} (s : Parameters F) (desc_on_new_line : Bool)
    (p : String × String) (out : Cout) : Printed Cout :=
  let out := match s.lang with
    | .lang_fr => ((((out.put s.desc_indent).put s.choice_indent).put "\"").put p.1).put "\" : "
    | .lang_us => ((((out.put s.desc_indent).put s.choice_indent).put "\"").put p.1).put "\": "
  let other_len : Nat := match s.lang with
    | .lang_fr => szAdd 5 p.1.length
    | .lang_us => szAdd 4 p.1.length
  let spaces : String := s.desc_indent ++ s.choice_indent ++ String.mk (List.replicate other_len ' ')
  match wrap_loop (choice_desc_step s.terminal_width s.desc_indent_len s.choice_indent_len
      other_len spaces desc_on_new_line) p.2.data
      { line := "", word := "", first_l := true, first_word := true, out := out } with
  | .raised e out => .raised e out
  | .next st =>
    let out := if !st.first_l || desc_on_new_line then st.out.put spaces else st.out
    .next ((out.put st.line).endl)

/-- The loop `for(const std::pair<...>& p: choices.at(p->name))`. -/
def print_choices {F : FloatLib} (s : Parameters F) (desc_on_new_line : Bool) :
    List (String × String) → Cout → Printed Cout
  | [], out => .next out
  | p :: ps, out =>
    match print_choice s desc_on_new_line p out with
    | .next out' => print_choices s desc_on_new_line ps out'
    | .raised e out' => .raised e out'

/-- The loop `for(std::size_t j=0 ; j<p->nb_values ; j++)` of the default-value block:
`item` is the text printed for a value and `sep` the text printed when
`j<p->nb_values-1`. The first argument is the number of iterations left. -/
def print_def_values {α : Type} (item : α → String) (sep : String) (nb_values : Nat)
    (def_values : List α) : Nat → Nat → Cout → Printed Cout
  | 0, _, out => .next out
  | n + 1, j, out =>
    match def_values.get? j with
    | none => .raised (.undefined (.vector_index j def_values.length)) out
    | some v =>
      let out := out.put (item v)
      let out := if j < szSub nb_values 1 then out.put sep else out
      print_def_values item sep nb_values def_values n (j + 1) out

/-- The text printed before the default values. -/
def msg_default : LANG → String
  | .lang_fr => "Défaut :"
  | .lang_us => "Default:"

/-- The block "print default value" of `print_parameters` (lines 251-290). -/
def print_default {F : FloatLib} (s : Parameters F) (p : ParamHolder F) (out : Cout) :
    Printed Cout :=
  if p.display_default_value then
    match p.store with
    | .int _ def_values =>
      match print_def_values (fun v => " " ++ toString v) "," p.nb_values def_values
          p.nb_values 0 ((out.put s.desc_indent).put (msg_default s.lang)) with
      | .next out => .next out.endl
      | .raised e out => .raised e out
    | .double _ def_values =>
      match print_def_values (fun v => " " ++ F.showDbl v) "," p.nb_values def_values
          p.nb_values 0 ((out.put s.desc_indent).put (msg_default s.lang)) with
      | .next out => .next out.endl
      | .raised e out => .raised e out
    | .long_double _ def_values =>
      match print_def_values (fun v => " " ++ F.showLDbl v) "," p.nb_values def_values
          p.nb_values 0 ((out.put s.desc_indent).put (msg_default s.lang)) with
      | .next out => .next out.endl
      | .raised e out => .raised e out
    | .string _ def_values =>
      match print_def_values (fun v => " \"" ++ v ++ "\"") "\"," p.nb_values def_values
          p.nb_values 0 ((out.put s.desc_indent).put (msg_default s.lang)) with
      | .next out => .next out.endl
      | .raised e out => .raised e out
    | .bool _ _ => .next out
  else .next out

/-- The loop that prints the subsections recorded at position `i` (lines 123-128). -/
def print_subsections (lang : LANG) (i : Nat) : List String → List Nat → Cout → Cout
  | title :: ts, k :: ks, out =>
    let out := if k = i then
        match lang with
        | .lang_fr => ((((out.endl).put title).put " :").endl).endl
        | .lang_us => ((((out.endl).put title).put ":").endl).endl
      else out
    print_subsections lang i ts ks out
  | _, _, out => out

/-- The string `use` of `print_parameters` (lines 133-134). Its length in the test on
`param_to_desc_len` and in the padding is a number of characters: `use.length()` for
ASCII names (`ascii`). -/
def use_string {F : FloatLib} (s : Parameters F) (p : ParamHolder F) : String :=
  p.values_names.foldl (fun use value_name => use ++ (" <" ++ value_name ++ ">"))
    (s.params_indent ++ p.name)

/-- The body of the loop of `print_parameters` for the index `i` (lines 122-293). -/
def print_parameter {F : FloatLib} (s : Parameters F) (i : Nat) (out : Cout) : Printed Cout :=
  let out := print_subsections s.lang i s.subsections s.subs_indexes out
  match mapFind s.order i with
  | none => .raised .std_out_of_range out
  | some key =>
    match mapFind s.params key with
    | none => .raised .std_out_of_range out
    | some p =>
      let use := use_string s p
      let desc_on_new_line : Bool :=
        decide (szAdd use.length (toSizeT s.param_to_desc_len) > toSizeT s.desc_indent_len)
      let pad : Nat := szSub (toSizeT s.desc_indent_len) use.length
      if !desc_on_new_line ∧ pad > INT_MAX.toNat then
        .raised (.undefined .int_overflow) out
      else
        let out := if desc_on_new_line then (out.put use).endl
          else (out.put use).put (String.mk (List.replicate pad ' '))
        match print_param_description s.terminal_width s.desc_indent_len s.desc_indent
            desc_on_new_line p.description out with
        | .raised e out => .raised e out
        | .next out =>
          let printed : Printed Cout := if p.name ∈ s.choices_params then
              match mapFind s.choices p.name with
              | none => .raised .std_out_of_range out
              | some cs => print_choices s desc_on_new_line cs out
            else .next out
          match printed with
          | .raised e out => .raised e out
          | .next out =>
            match print_default s p out with
            | .raised e out => .raised e out
            | .next out => .next out.endl

/-- The loop `for(std::size_t i=0 ; i<params.size() ; i++)` of `print_parameters`,
over the indices still to print. -/
def print_parameters_from {F : FloatLib} (s : Parameters F) : List Nat → Cout → Printed Cout
  | [], out => .next out
  | i :: is, out =>
    match print_parameter s i out with
    | .next out' => print_parameters_from s is out'
    | .raised e out' => .raised e out'

/-- The function `Parameters::print_parameters`. -/
def print_parameters {F : FloatLib} (s : Parameters F) (out : Cout) : Printed Cout :=
  print_parameters_from s (List.range s.params.length) out

/-- The function `Parameters::print_help`. -/
def print_help {F : FloatLib} (s : Parameters F) (p_print_usage p_print_description : Bool)
    (out : Cout) : Printed Cout :=
  let out := if s.description_is_set && p_print_description then print_description s out
    else out
  match s.usage_is_set with
  | none => .raised (.undefined .uninitialised) out
  | some usage_is_set =>
    let out := if usage_is_set && p_print_usage then print_usage s out.endl else out
    print_parameters s out

/-- The lines a piece of printing code has ended with `std::endl`, whether it
returns or is interrupted. -/
def Printed.lines : Printed Cout → List String
  | .next out => out.lines
  | .raised _ out => out.lines

/-- The words of a text: its maximal runs of characters other than the space. -/
def words (s : String) : List String :=
  ((s.data.splitOn ' ').filter (fun w => !w.isEmpty)).map String.mk

/-- The characters of a list of lines that are not spaces, in order. -/
def nonSpaces (ls : List String) : List Char :=
  (ls.map (fun l => l.data.filter (fun c => c ≠ ' '))).flatten

/-- The object after a write to the parameter stored under `key`. -/
def Parameters.with_param {F : FloatLib} (s : Parameters F) (key : String)
    (p : ParamHolder F) : Parameters F :=
  { s with params := mapAssign s.params key p }

/-! ## Relations between registries -/

/-- Two stores of the same type with the same default values and as many current
values. -/
def Store.same_shape {F : FloatLib} : Store F → Store F → Prop
  | .bool v d, .bool v' d' => d = d' ∧ v.length = v'.length
  | .int v d, .int v' d' => d = d' ∧ v.length = v'.length
  | .double v d, .double v' d' => d = d' ∧ v.length = v'.length
  | .long_double v d, .long_double v' d' => d = d' ∧ v.length = v'.length
  | .string v d, .string v' d' => d = d' ∧ v.length = v'.length
  | _, _ => False

/-- Two holders that agree on every member other than `values` and `is_defined`:
name, description, number of values, names of the values, display flag, type and
default values; they hold as many current values. -/
def ParamHolder.same_static {F : FloatLib} (p q : ParamHolder F) : Prop :=
  p.name = q.name ∧ p.description = q.description ∧ p.nb_values = q.nb_values ∧
    p.values_names = q.values_names ∧ p.display_default_value = q.display_default_value ∧
    p.store.same_shape q.store

/-- The current values of a store are its default values. -/
def Store.at_default {F : FloatLib} : Store F → Prop
  | .bool v d => v = d
  | .int v d => v = d
  | .double v d => v = d
  | .long_double v d => v = d
  | .string v d => v = d

/-- An entry `e` of the parameter map before `parse_params` and the entry `e'` at the
same place after it, for the tokens `toks` after the program name: same key, same
members apart from `values` and `is_defined`, and the same holder when the key is
none of the tokens. -/
def frame_entry {F : FloatLib} (toks : List String) (e e' : String × ParamHolder F) : Prop :=
  e'.1 = e.1 ∧ e.2.same_static e'.2 ∧ (e.1 ∉ toks → e'.2 = e.2)

/-- Number of default values handed to `define_num_str_param`. -/
def Defaults.length {F : FloatLib} : Defaults F → Nat
  | .int l => l.length
  | .double l => l.length
  | .long_double l => l.length
  | .string l => l.length

/-- A call that builds the menu or sets the texts of the program. -/
inductive BuildOp (F : FloatLib) where
  | set_program_description (p_description : String)
  | set_usage (p_usage : String)
  | insert_subsection (subsection_title : String)
  | define_param (param_name param_desc : String)
  | define_num_str_param (param_name : String) (values_names : List String)
      (default_param_values : Defaults F) (param_desc : String) (display_default_value : Bool)
  | define_choice_param (param_name value_name default_choice : String)
      (p_choices : vec_choices) (param_desc : String) (display_default_value : Bool)

/-- The object after the call `op`; a define call that throws leaves it as it was. -/
def BuildOp.apply {F : FloatLib} : BuildOp F → Parameters F → Parameters F
  | .set_program_description d, s => Help80.set_program_description d s
  | .set_usage u, s => Help80.set_usage u s
  | .insert_subsection t, s => Help80.insert_subsection t s
  | .define_param n d, s => (Help80.define_param n d s).2
  | .define_num_str_param n names defaults d disp, s =>
    (Help80.define_num_str_param n names defaults d disp s).2
  | .define_choice_param n vn dc ch d disp, s =>
    (Help80.define_choice_param n vn dc ch d disp s).2

/-- The object after a sequence of build calls. -/
def build {F : FloatLib} (ops : List (BuildOp F)) (s : Parameters F) : Parameters F :=
  ops.foldl (fun s op => op.apply s) s

/-- Every call is allowed. -/
def BuildOp.any {F : FloatLib} (_ : BuildOp F) : Prop := True

/-- A call of `define_num_str_param` is given as many default values as names of
values. -/
def BuildOp.balanced {F : FloatLib} : BuildOp F → Prop
  | .define_num_str_param _ names defaults _ _ => names.length = defaults.length
  | _ => True

/-- A call of `define_choice_param` is given a default choice that is the first
component of one of the choices. -/
def BuildOp.default_listed {F : FloatLib} : BuildOp F → Prop
  | .define_choice_param _ _ dc ch _ _ => dc ∈ ch.map Prod.fst
  | _ => True

/-- The states of a `Parameters` object reachable from its construction by build
calls that satisfy `allowed` and by calls of `parse_params` that return. -/
inductive Reachable {F : FloatLib} (allowed : BuildOp F → Prop) : Parameters F → Prop
  | init (argv : List String) (c : config) : Reachable allowed (Parameters.init F argv c)
  | build (op : BuildOp F) {s : Parameters F} :
      allowed op → Reachable allowed s → Reachable allowed (op.apply s)
  | parse {s s' : Parameters F} {cerr : List String} :
      Reachable allowed s → parse_params s = .ok (s', cerr) → Reachable allowed s'

/-- The entry a define call inserts in the parameter map when the name is new. -/
def BuildOp.entry {F : FloatLib} : BuildOp F → Option (String × ParamHolder F)
  | .define_param n d => some ("--" ++ n, Param.flag ("--" ++ n) d)
  | .define_num_str_param n names defaults d disp =>
    some ("--" ++ n, Param.withValues ("--" ++ n) d names defaults disp)
  | .define_choice_param n vn dc _ d disp =>
    some ("--" ++ n, Param.withValues ("--" ++ n) d [vn] (.string [dc]) disp)
  | _ => none

/-- The state of a choice parameter stored under `key`: a text holder of arity 1 with
one name of value, one current value and the default choice `d`, and its table of
choices, with `P d table`. -/
def choice_state {F : FloatLib} (P : String → vec_choices → Prop) (s : Parameters F)
    (key : String) : Prop :=
  ∃ (p : ParamHolder F) (table : vec_choices) (v d : String),
    mapFind s.params key = some p ∧ mapFind s.choices key = some table ∧
    p.nb_values = 1 ∧ p.values_names.length = 1 ∧ p.store = .string [v] [d] ∧ P d table

/-! ## Text written after a stream -/

/-- The stream `a` followed by the text of the stream `b`. -/
def Cout.append (a b : Cout) : Cout :=
  match b.lines with
  | [] => { lines := a.lines, cur := a.cur ++ b.cur }
  | l :: ls => { lines := a.lines ++ (a.cur ++ l) :: ls, cur := b.cur }

/-- An outcome of printing code with its stream moved after the stream `a`. -/
def Printed.after (a : Cout) : Printed Cout → Printed Cout
  | .next out => .next (a.append out)
  | .raised e out => .raised e (a.append out)

/-- The locals of the loop of `print_description` with the stream moved after `a`. -/
def DescState.after (a : Cout) (st : DescState) : DescState :=
  { st with out := a.append st.out }

/-- The locals of a wrap loop with the stream moved after `a`. -/
def WrapState.after (a : Cout) (st : WrapState) : WrapState :=
  { st with out := a.append st.out }

/-- An outcome of a wrap loop with its stream moved after the stream `a`. -/
def Printed.after_state (a : Cout) : Printed WrapState → Printed WrapState
  | .next st => .next (st.after a)
  | .raised e out => .raised e (a.append out)

/-! ## The help menu as a sequence of headers and blocks -/

/-- The text printed for one subsection title (lines 125-126). -/
def print_header (lang : LANG) (out : Cout) (title : String) : Cout :=
  match lang with
  | .lang_fr => ((((out.endl).put title).put " :").endl).endl
  | .lang_us => ((((out.endl).put title).put ":").endl).endl

/-- The block of the parameter `p`: the part of the body of the loop of
`print_parameters` after the object was retrieved (lines 132-293). -/
def print_param_block {F : FloatLib} (s : Parameters F) (p : ParamHolder F) (out : Cout) :
    Printed Cout :=
  let use := use_string s p
  let desc_on_new_line : Bool :=
    decide (szAdd use.length (toSizeT s.param_to_desc_len) > toSizeT s.desc_indent_len)
  let pad : Nat := szSub (toSizeT s.desc_indent_len) use.length
  if !desc_on_new_line ∧ pad > INT_MAX.toNat then
    .raised (.undefined .int_overflow) out
  else
    let out := if desc_on_new_line then (out.put use).endl
      else (out.put use).put (String.mk (List.replicate pad ' '))
    match print_param_description s.terminal_width s.desc_indent_len s.desc_indent
        desc_on_new_line p.description out with
    | .raised e out => .raised e out
    | .next out =>
      let printed : Printed Cout := if p.name ∈ s.choices_params then
          match mapFind s.choices p.name with
          | none => .raised .std_out_of_range out
          | some cs => print_choices s desc_on_new_line cs out
        else .next out
      match printed with
      | .raised e out => .raised e out
      | .next out =>
        match print_default s p out with
        | .raised e out => .raised e out
        | .next out => .next out.endl

/-- A menu: the parameters in the order of their definition, each with the titles of
the subsections inserted since the definition before it, in the order of their
insertion. -/
abbrev Menu (F : FloatLib) := List (List String × ParamHolder F)

/-- The text of a menu: for each parameter in turn the headers of its subsections, then
its block; a block that is interrupted ends the text. -/
def print_layout {F : FloatLib} (s : Parameters F) : Menu F → Cout → Printed Cout
  | [], out => .next out
  | (titles, p) :: rest, out =>
    match print_param_block s p (titles.foldl (print_header s.lang) out) with
    | .next out' => print_layout s rest out'
    | .raised e out' => .raised e out'

/-- The positions recorded for the subsections of a menu whose first parameter has
index `k`. -/
def markers {F : FloatLib} : Menu F → Nat → List Nat
  | [], _ => []
  | (titles, _) :: rest, k => List.replicate titles.length k ++ markers rest (k + 1)

/-- The object `s` was built by calls that give the menu `L` followed by the
subsection titles `T`, inserted after the last definition. -/
inductive Built {F : FloatLib} : Menu F → List String → Parameters F → Prop
  | init (argv : List String) (c : config) : Built [] [] (Parameters.init F argv c)
  | set_program_description {L : Menu F} {T : List String} {s : Parameters F} (d : String) :
      Built L T s → Built L T (set_program_description d s)
  | set_usage {L : Menu F} {T : List String} {s : Parameters F} (u : String) :
      Built L T s → Built L T (set_usage u s)
  | insert_subsection {L : Menu F} {T : List String} {s : Parameters F} (t : String) :
      Built L T s → Built L (T ++ [t]) (insert_subsection t s)
  | define {L : Menu F} {T : List String} {s : Parameters F} (op : BuildOp F)
      (e : String × ParamHolder F) :
      Built L T s → op.entry = some e → mapFind s.params e.1 = none →
      Built (L ++ [(T, e.2)]) [] (op.apply s)
  | rejected {L : Menu F} {T : List String} {s : Parameters F} (op : BuildOp F)
      (e : String × ParamHolder F) (p0 : ParamHolder F) :
      Built L T s → op.entry = some e → mapFind s.params e.1 = some p0 →
      Built L T (op.apply s)

/-! ## The forced split of a wrap loop -/

/-- The three tests of the body of a wrap loop at indent `indent` fail for the
character `c`: the body reaches its last branch, which splits the word (lines 177-187,
and 231-241 for a choice). -/
def takes_forced_split (terminal_width indent : Int) (st : WrapState) (c : Char) : Prop :=
  ¬ (c ≠ ' ' ∧ szAdd (toSizeT indent) st.word.length < toSizeT terminal_width) ∧
  ¬ (szAdd (szAdd (szAdd (toSizeT indent) st.line.length) st.word.length) 1
      ≤ toSizeT terminal_width) ∧
  ¬ (szAdd (toSizeT indent) st.word.length < toSizeT terminal_width)

/-- The offset `terminal_width-(desc_indent_len+line_len)` at which the last branch
splits the word, as the `std::size_t` handed to `substr`. -/
def split_offset (terminal_width indent : Int) (st : WrapState) : Nat :=
  szSub (toSizeT terminal_width)
    (szAdd (toSizeT indent) (if st.line ≠ "" then szAdd st.line.length 1 else 0))

/-- The stream after the prints of the last branch of the body of a wrap loop. -/
def forced_split_out (terminal_width indent : Int) (desc_indent : String)
    (desc_on_new_line : Bool) (st : WrapState) : Cout :=
  let out := if !st.first_l || desc_on_new_line then st.out.put desc_indent else st.out
  let out := if st.line ≠ "" then (out.put st.line).put " " else out
  (out.put (substr_to st.word (split_offset terminal_width indent st))).endl

/-- Bounds on the locals of a wrap loop at indent `indent`: the line and the word fit
in the width, except for a word one character too long next to an empty line. -/
def WrapState.bounded (terminal_width indent : Int) (st : WrapState) : Prop :=
  indent + st.line.length ≤ terminal_width ∧
  indent + st.word.length ≤ terminal_width + 1 ∧
  (indent + st.word.length = terminal_width + 1 → st.line = "")

/-! ## The text held by a wrap loop -/

/-- The text the loop of `print_description` holds in its locals: the word when no word
was committed to the line, else the line, a space and the word. -/
def DescState.consumed (st : DescState) : List Char :=
  if st.first_word then st.word.data else st.line.data ++ ' ' :: st.word.data

/-- The text a wrap loop of `print_parameters` holds in its locals: the word when no
word was committed to the line, else the line, a space and the word. -/
def WrapState.consumed (st : WrapState) : List Char :=
  if st.first_word then st.word.data else st.line.data ++ ' ' :: st.word.data

/-! ## The two wrap loops side by side -/

/-- Every maximal run of characters other than the space in `cs`, the first one
counted with the `cur` characters that precede `cs`, is shorter than `n`. -/
def runs_below (n : Nat) : List Char → Nat → Prop
  | [], cur => cur < n
  | c :: cs, cur => if c = ' ' then cur < n ∧ runs_below n cs 0 else runs_below n cs (cur + 1)

/-- The locals of the loop of `print_description` as locals of a wrap loop of
`print_parameters`. -/
def DescState.toWrap (ds : DescState) (first_l : Bool) : WrapState where
  line := ds.line
  word := ds.word
  first_l := first_l
  first_word := ds.first_word
  out := ds.out

/-! ## The lines of a description and their indentation -/

/-- The lines of a description as they are printed: the first one after `desc_indent`
when the description starts on a new line, each later one after `desc_indent`. -/
def indent_lines (desc_indent : String) (desc_on_new_line : Bool) : List String → List String
  | [] => []
  | l :: ls =>
    ((if desc_on_new_line then desc_indent else "") ++ l) :: ls.map (fun x => desc_indent ++ x)

/-- A stream with its lines indented as the lines of a description. -/
def Cout.indent (desc_indent : String) (desc_on_new_line : Bool) (b : Cout) : Cout :=
  { lines := indent_lines desc_indent desc_on_new_line b.lines, cur := b.cur }

/-- An outcome of printing code with the lines of its stream indented. -/
def Printed.indent (desc_indent : String) (desc_on_new_line : Bool) :
    Printed Cout → Printed Cout
  | .next b => .next (b.indent desc_indent desc_on_new_line)
  | .raised e b => .raised e (b.indent desc_indent desc_on_new_line)

/-- The locals of a wrap loop with the lines of the stream indented. -/
def WrapState.indent (desc_indent : String) (desc_on_new_line : Bool) (st : WrapState) :
    WrapState :=
  { st with out := st.out.indent desc_indent desc_on_new_line }

/-- An outcome of the body of a wrap loop with the lines of its stream indented. -/
def Printed.indent_state (desc_indent : String) (desc_on_new_line : Bool) :
    Printed WrapState → Printed WrapState
  | .next st => .next (st.indent desc_indent desc_on_new_line)
  | .raised e b => .raised e (b.indent desc_indent desc_on_new_line)

/-- The end of the block of the parameter `p`, after its description: the choices, the
default values and the empty line (lines 195-293). -/
def print_block_rest {F : FloatLib} (s : Parameters F) (p : ParamHolder F)
    (desc_on_new_line : Bool) : Printed Cout → Printed Cout
  | .raised e out => .raised e out
  | .next out =>
    let printed : Printed Cout := if p.name ∈ s.choices_params then
        match mapFind s.choices p.name with
        | none => .raised .std_out_of_range out
        | some cs => print_choices s desc_on_new_line cs out
      else .next out
    match printed with
    | .raised e out => .raised e out
    | .next out =>
      match print_default s p out with
      | .raised e out => .raised e out
      | .next out => .next out.endl

/-- The stream of a wrap loop started on the empty stream, between two characters: no
line is begun, and no line is ended as long as `first_l` is set. -/
def WrapState.fresh (st : WrapState) : Prop :=
  st.out.cur = "" ∧ (st.first_l = true ↔ st.out.lines = [])

/-! ## Texts of ASCII characters and pieces of a text -/

/-- A text of ASCII characters: each character is one `char` of the `std::string`, so
the lengths and positions of the model are those of the code. -/
@[reducible]
def ascii (s : String) : Prop := ∀ c ∈ s.data, c.toNat < 128

/-- The locals `first_word`, `line` and `word` of a wrap loop hold the end of the text
`t` read so far: the word, before anything is committed to the line, or the line, a
space and the word. -/
def held (first_word : Bool) (line word : String) (t : List Char) : Prop :=
  (first_word = true ∧ line = "" ∧ word.data <:+ t) ∨
    ∃ pre, t = pre ++ line.data ++ ' ' :: word.data

/-- The stream of a wrap loop run without indentation on the text `t` read so far: no
line is begun and every line is a piece of `t`. -/
def pieces (out : Cout) (t : List Char) : Prop :=
  out.cur = "" ∧ ∀ l ∈ out.lines, l.data <:+: t

/-! ## Examples of registries -/

/-- A layout of 80 columns with messages in English. -/
def cfg80 : config where
  terminal_width := 80
  param_to_desc_len := 2
  desc_indent_len := 20
  params_indent_len := 2
  choice_indent_len := 2
  lang := .lang_us

/-- A registry over `argv` with the one integer parameter `--count`, default `0`. -/
def countRegistry (argv : List String) : Parameters FloatLib.integral :=
  (define_num_str_param "count" ["n"] (.int [0]) "number of items" false
    (Parameters.init FloatLib.integral argv cfg80)).2

/-- A registry over `argv` with the integer parameter `--pair` of two slots, defaults
`1` and `2`. -/
def pairRegistry (argv : List String) : Parameters FloatLib.integral :=
  (define_num_str_param "pair" ["a", "b"] (.int [1, 2]) "two numbers" false
    (Parameters.init FloatLib.integral argv cfg80)).2

/-- A registry over `argv` with the flag `--help` and the integer parameter `--count`. -/
def flagRegistry (argv : List String) : Parameters FloatLib.integral :=
  (define_num_str_param "count" ["n"] (.int [0]) "number of items" false
    (define_param "help" "print this menu"
      (Parameters.init FloatLib.integral argv cfg80)).2).2

/-- A layout of 7 columns with the descriptions at column 2. -/
def cfg7 : config where
  terminal_width := 7
  param_to_desc_len := 2
  desc_indent_len := 2
  params_indent_len := 0
  choice_indent_len := 0
  lang := .lang_us

/-- A registry in the layout `cfg7` with one flag `--x` of description `desc`. -/
def narrowRegistry (desc : String) : Parameters FloatLib.integral :=
  (define_param "x" desc (Parameters.init FloatLib.integral [] cfg7)).2

/-- An object of terminal width 5 with the program description `desc`. -/
def describedProgram (desc : String) : Parameters FloatLib.integral :=
  set_program_description desc
    (Parameters.init FloatLib.integral [] { cfg80 with terminal_width := 5 })

/-- A registry with the one text parameter `--name`, default `"x"`. -/
def textRegistry : Parameters FloatLib.integral :=
  (define_num_str_param "name" ["s"] (.string ["x"]) "a name" false
    (Parameters.init FloatLib.integral [] cfg80)).2

/-- A registry over `argv` with the choice parameter `--mode`, choices `fast` and
`slow`, default `fast`. -/
def modeRegistry (argv : List String) : Parameters FloatLib.integral :=
  (define_choice_param "mode" "m" "fast" [("fast", "go fast"), ("slow", "go slow")]
    "the mode" false (Parameters.init FloatLib.integral argv cfg80)).2

/-- A registry over `argv` in which `define_num_str_param` was given two names of
values and one default value for the integer parameter `--pair`. -/
def unbalancedRegistry (argv : List String) : Parameters FloatLib.integral :=
  (define_num_str_param "pair" ["a", "b"] (.int [1]) "two numbers" false
    (Parameters.init FloatLib.integral argv cfg80)).2

/-- A registry in which `define_choice_param` was given the default choice `turbo`,
which is none of the choices `fast` and `slow`. -/
def turboRegistry : Parameters FloatLib.integral :=
  (define_choice_param "mode" "m" "turbo" [("fast", "go fast"), ("slow", "go slow")]
    "the mode" true (Parameters.init FloatLib.integral [] cfg80)).2

/-- A layout of 40 columns with messages in French. -/
def cfg40fr : config where
  terminal_width := 40
  param_to_desc_len := 1
  desc_indent_len := 12
  params_indent_len := 1
  choice_indent_len := 4
  lang := .lang_fr

/-- A registry with the flags `--zeta` and `--alpha`, defined in this order. -/
def zetaAlphaRegistry : Parameters FloatLib.integral :=
  (define_param "alpha" "first letter"
    (define_param "zeta" "last letter" (Parameters.init FloatLib.integral [] cfg80)).2).2

/-- A registry in the layout `cfg7` with the flag `--x` of description `"ab cd efghi"`,
then the subsection `More`, then the flag `--y`. -/
def interruptedRegistry : Parameters FloatLib.integral :=
  (define_param "y" "ok"
    (insert_subsection "More"
      (define_param "x" "ab cd efghi" (Parameters.init FloatLib.integral [] cfg7)).2)).2

/-- A registry with the flag `--help`, then the subsections `Input` and `Files`, then
the flag `--in`. -/
def sectionsRegistry : Parameters FloatLib.integral :=
  (define_param "in" "input file"
    (insert_subsection "Files"
      (insert_subsection "Input"
        (define_param "help" "print this menu"
          (Parameters.init FloatLib.integral [] cfg80)).2))).2

/-- A registry with the text parameter `--names` of defaults `a` and `b`, the integer
parameter `--pair` of defaults `0` and `7`, both with the default values displayed,
and the flag `--help`. -/
def defaultsRegistry : Parameters FloatLib.integral :=
  (define_param "help" "print this menu"
    (define_num_str_param "pair" ["x", "y"] (.int [0, 7]) "two numbers" true
      (define_num_str_param "names" ["a", "b"] (.string ["a", "b"]) "two names" true
        (Parameters.init FloatLib.integral [] cfg80)).2).2).2

/-- The registry of `--zeta` and `--alpha` with a program description and a usage. -/
def usageRegistry : Parameters FloatLib.integral :=
  set_usage "prog [options]" (set_program_description "Two letters." zetaAlphaRegistry)

/-- A layout of 12 columns with the descriptions at column 2. -/
def cfg12 : config where
  terminal_width := 12
  param_to_desc_len := 2
  desc_indent_len := 2
  params_indent_len := 0
  choice_indent_len := 0
  lang := .lang_us

/-- A registry in the layout `cfg12` with the choice parameter `--m` whose one choice
`a` has the description `desc`. -/
def narrowChoiceRegistry (desc : String) : Parameters FloatLib.integral :=
  (define_choice_param "m" "v" "a" [("a", desc)] "d" false
    (Parameters.init FloatLib.integral [] cfg12)).2

/-- The locals of the description loop with the line `line` and the word `word`, on
the first output line of the description, after the first word was committed. -/
def pendingState (line word : String) : WrapState where
  line := line
  word := word
  first_l := true
  first_word := false
  out := Cout.empty

/-- A registry with the choice parameter `--compression-mode`, choices `fast` and
`slow`: its use string is longer than the description column of `cfg80`. -/
def longNameRegistry : Parameters FloatLib.integral :=
  (define_choice_param "compression-mode" "m" "fast" [("fast", "go fast"), ("slow", "go slow")]
    "the mode" false (Parameters.init FloatLib.integral [] cfg80)).2

/-- An object in the layout `cfg80` with the program description `desc`. -/
def wideProgram (desc : String) : Parameters FloatLib.integral :=
  set_program_description desc (Parameters.init FloatLib.integral [] cfg80)

/-- A registry in the layout `cfg80` with one flag `--x` of description `desc`. -/
def wideRegistry (desc : String) : Parameters FloatLib.integral :=
  (define_param "x" desc (Parameters.init FloatLib.integral [] cfg80)).2

/-! ## Lemmas on the platform model and the maps -/

theorem utf8ByteSize_go_ascii : ∀ (cs : List Char), (∀ c ∈ cs, c.toNat < 128) →
    String.utf8ByteSize.go cs = cs.length := by
  intro cs
  induction cs with
  | nil => intro _; rfl
  | cons c cs ih =>
    intro h
    have hc : c.toNat < 128 := h c (List.mem_cons_self _ _)
    have hsz : c.utf8Size = 1 := by
      unfold Char.utf8Size
      have : c.val ≤ UInt32.ofNatCore 127 (by decide) := by
        rw [UInt32.le_def]
        show c.val.toNat ≤ 127
        have : c.toNat = c.val.toNat := rfl
        omega
      exact if_pos this
    simp only [String.utf8ByteSize.go, List.length_cons, hsz]
    rw [ih (fun x hx => h x (List.mem_cons_of_mem _ hx))]

theorem ascii_utf8ByteSize (s : String) (h : ascii s) : s.utf8ByteSize = s.length := by
  obtain ⟨cs⟩ := s
  exact utf8ByteSize_go_ascii cs h

theorem toSizeT_ofNat (k : Nat) (h : k < 18446744073709551616) : toSizeT (k : Int) = k := by
  unfold toSizeT
  rw [Int.emod_eq_of_lt (by omega) (by omega)]
  simp

theorem isSpaceC_of_isDigit (c : Char) (h : c.isDigit = true) : isSpaceC c = false := by
  unfold isSpaceC
  simp only [Bool.or_eq_false_iff, decide_eq_false_iff_not]
  refine ⟨⟨⟨⟨⟨?_, ?_⟩, ?_⟩, ?_⟩, ?_⟩, ?_⟩ <;> (rintro rfl; revert h; decide)

theorem takeWhile_of_all {α : Type} (f : α → Bool) (l : List α) (h : l.all f = true) :
    l.takeWhile f = l := by
  induction l with
  | nil => rfl
  | cons a l ih =>
    simp only [List.all_cons, Bool.and_eq_true] at h
    simp [List.takeWhile, h.1, ih h.2]

/-- A decimal token that denotes an `int` is converted to that `int` by `stoi`. -/
theorem stoi_of_decimalInt (s : String) (n : Int) (h : decimalInt s = some n) :
    stoi s = some n := by
  unfold decimalInt at h
  unfold stoi
  cases hd : s.data with
  | nil => simp [hd] at h
  | cons c r =>
    rw [hd] at h
    by_cases hc : c = '-'
    · subst hc
      simp only [if_true] at h
      split at h
      · exact absurd h (by simp)
      · rename_i hb
        simp only [Bool.or_eq_true, Bool.not_eq_true', not_or, Bool.not_eq_true,
          Bool.not_eq_false] at hb
        have hall : r.all Char.isDigit = true := by
          cases hh : r.all Char.isDigit
          · simp [hh] at hb
          · rfl
        have hsp : List.dropWhile isSpaceC ('-' :: r) = '-' :: r := by
          simp [List.dropWhile, isSpaceC]
        simp only [hsp, splitSign, if_true, takeWhile_of_all _ _ hall]
        have hne : r.isEmpty = false := by simpa using hb.1
        simp only [hne, Bool.false_eq_true, if_false]
        exact h
    · simp only [hc, if_false] at h
      split at h
      · exact absurd h (by simp)
      · rename_i hb
        simp only [Bool.or_eq_true, Bool.not_eq_true', not_or, Bool.not_eq_true,
          Bool.not_eq_false] at hb
        have hall : (c :: r).all Char.isDigit = true := by
          cases hh : (c :: r).all Char.isDigit
          · simp [hh] at hb
          · rfl
        have hcd : c.isDigit = true := by
          simp only [List.all_cons, Bool.and_eq_true] at hall
          exact hall.1
        have hplus : c ≠ '+' := by
          rintro rfl
          revert hcd
          decide
        have hsp : List.dropWhile isSpaceC (c :: r) = c :: r := by
          simp [List.dropWhile, isSpaceC_of_isDigit c hcd]
        simp only [hsp, splitSign, hc, hplus, if_false, takeWhile_of_all _ _ hall]
        simp only [List.isEmpty_cons, Bool.false_eq_true, if_false]
        exact h

theorem mapFind_mapAssign {κ β : Type} [DecidableEq κ] (m : List (κ × β)) (k : κ) (v v' : β)
    (h : mapFind m k = some v) : mapFind (mapAssign m k v') k = some v' := by
  induction m with
  | nil => simp [mapFind] at h
  | cons e m ih =>
    obtain ⟨k', w⟩ := e
    by_cases hk : k' = k
    · simp [mapAssign, mapFind, hk]
    · simp only [mapFind, hk, if_false] at h
      simp [mapAssign, mapFind, hk, ih h]

theorem mapCount_ne_zero {κ β : Type} [DecidableEq κ] (m : List (κ × β)) (k : κ) (v : β)
    (h : mapFind m k = some v) : mapCount m k ≠ 0 := by
  simp [mapCount, h]

theorem mapCount_eq_zero {κ β : Type} [DecidableEq κ] (m : List (κ × β)) (k : κ)
    (h : mapFind m k = none) : mapCount m k = 0 := by
  simp [mapCount, h]

theorem mapFind_append_new {κ β : Type} [DecidableEq κ] (m : List (κ × β)) (k : κ) (v : β)
    (h : mapFind m k = none) : mapFind (m ++ [(k, v)]) k = some v := by
  induction m with
  | nil => simp [mapFind]
  | cons e m ih =>
    obtain ⟨k', w⟩ := e
    by_cases hk : k' = k
    · simp [mapFind, hk] at h
    · simp only [mapFind, hk, if_false] at h
      simp [mapFind, hk, ih h]

theorem mapFind_mapInsert_new {κ β : Type} [DecidableEq κ] (m : List (κ × β)) (k : κ) (v : β)
    (h : mapFind m k = none) : mapFind (mapInsert m k v) k = some v := by
  simp [mapInsert, h, mapFind_append_new m k v h]

/-! ## Lemmas on the parsing loops -/

theorem holder_store_eta {F : FloatLib} (p : ParamHolder F) (st : Store F) (h : p.store = st) :
    { p with store := st } = p := by
  cases p
  simp_all

theorem get?_after {α : Type} (pre ws post : List α) (w : α) :
    (pre ++ (w :: ws) ++ post).get? pre.length = some w := by
  induction pre with
  | nil => simp
  | cons a pre ih => simpa using ih

/-- The inner loop on a text parameter whose value tokens are all present: the
slots are overwritten by the tokens and nothing is written to `std::cerr`. -/
theorem read_values_string {F : FloatLib} (lang : LANG) (argv : List String) (tok : String)
    (nbv : Nat) (defs : List String) :
    ∀ (ws pre post done todo : List String) (i : Nat) (p : ParamHolder F) (cerr : List String),
      argv = pre ++ ws ++ post → pre.length = i + 1 → todo.length = ws.length →
      p.store = .string (done ++ todo) defs →
      read_values lang argv tok nbv ws.length done.length i p cerr
        = .ok (i + ws.length, { p with store := .string (done ++ ws) defs }, cerr) := by
  intro ws
  induction ws with
  | nil =>
    intro pre post done todo i p cerr _ _ htodo hp
    have : todo = [] := List.length_eq_zero.mp htodo
    subst this
    simp only [List.append_nil] at hp
    simp only [List.length_nil, read_values, List.append_nil, Nat.add_zero,
      List.zipWith_nil_left, List.filterMap_nil]
    rw [holder_store_eta p _ hp]
  | cons w ws ih =>
    intro pre post done todo i p cerr hargv hpre htodo hp
    cases todo with
    | nil => simp at htodo
    | cons t todo =>
      have hlen : i + 1 ≤ argv.length := by
        rw [hargv]; simp only [List.length_append]; omega
      have hget : argv.get? (i + 1) = some w := by
        rw [hargv, ← hpre]; exact get?_after pre ws post w
      have hset : (done ++ t :: todo).set done.length w = done ++ w :: todo := by
        simp
      have hstep := ih (pre ++ [w]) post (done ++ [w]) todo (i + 1)
        { p with store := .string (done ++ w :: todo) defs } cerr
        (by rw [hargv]; simp) (by simp [hpre]) (by simpa using htodo) (by simp)
      simp only [List.length_cons, read_values, hlen, if_true, hget, store_value, hp,
        List.length_append, Nat.lt_add_one_iff, Nat.le_add_right, hset]
      have hj : done.length < done.length + (todo.length + 1) := by omega
      simp only [hj, if_true]
      simp only [List.length_append, List.length_singleton] at hstep
      rw [hstep]
      simp [Nat.add_assoc, Nat.add_comm 1]

/-- The inner loop on an integer parameter whose value tokens are all present: each
slot takes the conversion of its token or keeps its value, with one diagnostic per
token that does not convert. -/
theorem read_values_int {F : FloatLib} (lang : LANG) (argv : List String) (tok : String)
    (nbv : Nat) (defs : List Int) :
    ∀ (ws pre post : List String) (done todo : List Int) (i : Nat) (p : ParamHolder F)
      (cerr : List String),
      argv = pre ++ ws ++ post → pre.length = i + 1 → todo.length = ws.length →
      p.store = .int (done ++ todo) defs →
      read_values lang argv tok nbv ws.length done.length i p cerr
        = .ok (i + ws.length,
            { p with
              store := .int (done ++ List.zipWith (fun w old => (stoi w).getD old) ws todo)
                defs },
            cerr ++ ws.filterMap
              (fun w => if (stoi w).isNone then some (msg_type lang tok w) else none)) := by
  intro ws
  induction ws with
  | nil =>
    intro pre post done todo i p cerr _ _ htodo hp
    have : todo = [] := List.length_eq_zero.mp htodo
    subst this
    simp only [List.append_nil] at hp
    simp only [List.length_nil, read_values, List.append_nil, Nat.add_zero,
      List.zipWith_nil_left, List.filterMap_nil]
    rw [holder_store_eta p _ hp]
  | cons w ws ih =>
    intro pre post done todo i p cerr hargv hpre htodo hp
    cases todo with
    | nil => simp at htodo
    | cons t todo =>
      have hlen : i + 1 ≤ argv.length := by
        rw [hargv]; simp only [List.length_append]; omega
      have hget : argv.get? (i + 1) = some w := by
        rw [hargv, ← hpre]; exact get?_after pre ws post w
      have hj : done.length < (done ++ t :: todo).length := by simp
      cases hw : stoi w with
      | none =>
        have hstep := ih (pre ++ [w]) post (done ++ [t]) todo (i + 1) p
          (cerr ++ [msg_type lang tok w])
          (by rw [hargv]; simp) (by simp [hpre]) (by simpa using htodo) (by simp [hp])
        simp only [List.length_cons, read_values, hlen, if_true, hget, store_value, hp, hw]
        simp only [List.length_append, List.length_singleton] at hstep
        rw [hstep]
        simp [Nat.add_assoc, Nat.add_comm 1, hw]
      | some v =>
        have hset : (done ++ t :: todo).set done.length v = done ++ v :: todo := by
          simp
        have hstep := ih (pre ++ [w]) post (done ++ [v]) todo (i + 1)
          { p with store := .int (done ++ v :: todo) defs } cerr
          (by rw [hargv]; simp) (by simp [hpre]) (by simpa using htodo) (by simp)
        simp only [List.length_cons, read_values, hlen, if_true, hget, store_value, hp, hw,
          hj, hset]
        simp only [List.length_append, List.length_singleton] at hstep
        rw [hstep]
        simp [Nat.add_assoc, Nat.add_comm 1, hw]

theorem parse_loop_done {F : FloatLib} (lang : LANG) (argv : List String) (fuel i : Nat)
    (params : List (String × ParamHolder F)) (cerr : List String) (h : argv.length ≤ i) :
    parse_loop lang argv fuel i params cerr = .ok (params, cerr) := by
  cases fuel <;> simp [parse_loop, Nat.not_lt.mpr h]

theorem parse_loop_step {F : FloatLib} (lang : LANG) (argv : List String) (fuel i i' : Nat)
    (params params' : List (String × ParamHolder F)) (cerr cerr' : List String)
    (hi : i < argv.length) (h : parse_step lang argv i params cerr = .ok (i', params', cerr')) :
    parse_loop lang argv (fuel + 1) i params cerr
      = parse_loop lang argv fuel (i' + 1) params' cerr' := by
  rw [parse_loop]
  simp only [hi, if_true, h]

theorem parse_step_string {F : FloatLib} (lang : LANG) (argv pre ws post : List String)
    (i : Nat) (params : List (String × ParamHolder F)) (cerr : List String) (tok : String)
    (p : ParamHolder F) (vals defs : List String)
    (hargv : argv = pre ++ ws ++ post) (hpre : pre.length = i + 1)
    (htok : argv.get? i = some tok) (hfind : mapFind params tok = some p)
    (hstore : p.store = .string vals defs) (hvals : vals.length = p.nb_values)
    (hws : ws.length = p.nb_values) :
    parse_step lang argv i params cerr
      = .ok (i + p.nb_values,
          mapAssign params tok { p with is_defined := true, store := .string ws defs }, cerr) := by
  have h := read_values_string lang argv tok p.nb_values defs ws pre post [] vals i p cerr hargv
    hpre (by omega) (by simpa using hstore)
  simp only [List.length_nil, List.nil_append, hws] at h
  simp only [parse_step, htok, hfind, h]

theorem parse_step_int {F : FloatLib} (lang : LANG) (argv pre ws post : List String)
    (i : Nat) (params : List (String × ParamHolder F)) (cerr : List String) (tok : String)
    (p : ParamHolder F) (vals defs : List Int)
    (hargv : argv = pre ++ ws ++ post) (hpre : pre.length = i + 1)
    (htok : argv.get? i = some tok) (hfind : mapFind params tok = some p)
    (hstore : p.store = .int vals defs) (hvals : vals.length = p.nb_values)
    (hws : ws.length = p.nb_values) :
    parse_step lang argv i params cerr
      = .ok (i + p.nb_values,
          mapAssign params tok { p with
            is_defined := true,
            store := .int (List.zipWith (fun w old => (stoi w).getD old) ws vals) defs },
          cerr ++ ws.filterMap
            (fun w => if (stoi w).isNone then some (msg_type lang tok w) else none)) := by
  have h := read_values_int lang argv tok p.nb_values defs ws pre post [] vals i p cerr hargv
    hpre (by omega) (by simpa using hstore)
  simp only [List.length_nil, List.nil_append, hws] at h
  simp only [parse_step, htok, hfind, h]

theorem zipWith_stoi_of_decimal (lang : LANG) (tok : String) (vs : List String) :
    ∀ (ns vals : List Int), vs.map decimalInt = ns.map some → vals.length = vs.length →
      List.zipWith (fun w old => (stoi w).getD old) vs vals = ns
        ∧ vs.filterMap (fun w => if (stoi w).isNone then some (msg_type lang tok w) else none)
            = [] := by
  induction vs with
  | nil =>
    intro ns vals h _
    cases ns with
    | nil => simp
    | cons n ns => simp at h
  | cons v vs ih =>
    intro ns vals h hl
    cases ns with
    | nil => simp at h
    | cons n ns =>
      cases vals with
      | nil => simp at hl
      | cons x vals =>
        simp only [List.map_cons, List.cons.injEq] at h
        have hv := stoi_of_decimalInt v n h.1
        have := ih ns vals h.2 (by simpa using hl)
        refine ⟨by simp [hv, this.1], ?_⟩
        rw [List.filterMap_cons]
        simp only [hv, Option.isNone_some, Bool.false_eq_true, if_false]
        exact this.2

theorem slot_index (k : Nat) (h1 : 1 ≤ k) (h2 : (k : Int) ≤ INT_MAX) :
    toSizeT (k : Int) = k ∧ toSizeT ((k : Int) - 1) = k - 1 := by
  have hk : k < 18446744073709551616 := by
    unfold INT_MAX at h2
    omega
  refine ⟨toSizeT_ofNat k hk, ?_⟩
  have : ((k : Int) - 1) = ((k - 1 : Nat) : Int) := by omega
  rw [this]
  exact toSizeT_ofNat (k - 1) (by omega)

theorem get?_lt_length {α : Type} (l : List α) (k : Nat) (v : α) (h : l.get? k = some v) :
    k < l.length := by
  by_contra hc
  rw [List.get?_eq_none.mpr (by omega)] at h
  exact absurd h (by simp)

theorem store_value_fuel {F : FloatLib} (lang : LANG) (tok : String) (p : ParamHolder F)
    (j : Nat) (w : String) (cerr : List String) :
    store_value lang tok p j w cerr ≠ .error .out_of_fuel := by
  unfold store_value
  split
  · split
    · split <;> simp
    · simp
  · split
    · split <;> simp
    · simp
  · split
    · split <;> simp
    · simp
  · split <;> simp
  · simp

theorem read_values_fuel {F : FloatLib} (lang : LANG) (argv : List String) (tok : String)
    (nbv : Nat) :
    ∀ (n j i : Nat) (p : ParamHolder F) (cerr : List String),
      read_values lang argv tok nbv n j i p cerr ≠ .error .out_of_fuel
        ∧ ∀ r, read_values lang argv tok nbv n j i p cerr = .ok r → r.1 = i + n := by
  intro n
  induction n with
  | zero =>
    intro j i p cerr
    simp only [read_values]
    refine ⟨by simp, ?_⟩
    intro r hr
    cases hr
    rfl
  | succ n ih =>
    intro j i p cerr
    rw [read_values]
    split
    · split
      · refine ⟨by simp, ?_⟩
        intro r hr
        cases hr
      · rename_i w _
        have hsv := store_value_fuel lang tok p j w cerr
        split
        · rename_i e he
          refine ⟨?_, ?_⟩
          · intro hc
            cases hc
            exact hsv he
          · intro r hr
            cases hr
        · rename_i p' cerr' _
          obtain ⟨h1, h2⟩ := ih (j + 1) (i + 1) p' cerr'
          refine ⟨h1, ?_⟩
          intro r hr
          rw [h2 r hr]
          omega
    · obtain ⟨h1, h2⟩ := ih (j + 1) (i + 1) p (cerr ++ [msg_arity lang tok nbv])
      refine ⟨h1, ?_⟩
      intro r hr
      rw [h2 r hr]
      omega

theorem parse_step_fuel {F : FloatLib} (lang : LANG) (argv : List String) (i : Nat)
    (params : List (String × ParamHolder F)) (cerr : List String) :
    parse_step lang argv i params cerr ≠ .error .out_of_fuel
      ∧ ∀ r, parse_step lang argv i params cerr = .ok r → i ≤ r.1 := by
  unfold parse_step
  split
  · refine ⟨by simp, ?_⟩
    intro r hr
    cases hr
  · rename_i tok _
    split
    · rename_i p _
      obtain ⟨h1, h2⟩ := read_values_fuel lang argv tok p.nb_values p.nb_values 0 i p cerr
      split
      · rename_i e he
        refine ⟨?_, ?_⟩
        · intro hc
          cases hc
          exact h1 he
        · intro r hr
          cases hr
      · rename_i i' p' cerr' he
        refine ⟨by simp, ?_⟩
        intro r hr
        cases hr
        have := h2 _ he
        simp only at this
        simp only
        omega
    · refine ⟨by simp, ?_⟩
      intro r hr
      cases hr
      exact Nat.le_refl _

theorem parse_loop_fuel {F : FloatLib} (lang : LANG) (argv : List String) :
    ∀ (fuel i : Nat) (params : List (String × ParamHolder F)) (cerr : List String),
      argv.length ≤ i + fuel → parse_loop lang argv fuel i params cerr ≠ .error .out_of_fuel := by
  intro fuel
  induction fuel with
  | zero =>
    intro i params cerr h
    simp only [parse_loop, Nat.not_lt.mpr (by omega : argv.length ≤ i), if_false]
    simp
  | succ fuel ih =>
    intro i params cerr h
    rw [parse_loop]
    split
    · obtain ⟨h1, h2⟩ := parse_step_fuel lang argv i params cerr
      split
      · rename_i e he
        intro hc
        cases hc
        exact h1 he
      · rename_i i' params' cerr' he
        have := h2 _ he
        simp only at this
        exact ih (i' + 1) params' cerr' (by omega)
    · simp

/-- The iteration bound of `parse_params` is never reached: the call returns or stops
at undefined behaviour of the code itself. -/
theorem parse_params_fuel {F : FloatLib} (s : Parameters F) :
    parse_params s ≠ .error .out_of_fuel := by
  unfold parse_params
  have := parse_loop_fuel s.lang s.argv s.argv.length 1 s.params [] (by omega)
  split
  · rename_i e he
    intro hc
    cases hc
    exact this he
  · simp

theorem store_value_error {F : FloatLib} (lang : LANG) (tok : String) (p : ParamHolder F)
    (j : Nat) (w : String) (cerr : List String) (e : Failure)
    (h : store_value lang tok p j w cerr = .error e) : ∃ u, e = .undefined u := by
  unfold store_value at h
  split at h
  · split at h
    · split at h
      · cases h
      · cases h; exact ⟨_, rfl⟩
    · cases h
  · split at h
    · split at h
      · cases h
      · cases h; exact ⟨_, rfl⟩
    · cases h
  · split at h
    · split at h
      · cases h
      · cases h; exact ⟨_, rfl⟩
    · cases h
  · split at h
    · cases h
    · cases h; exact ⟨_, rfl⟩
  · cases h

/-- The inner loop started with fewer than `n` tokens after index `i` does not
return: it reaches the read of `argv[argc]` or an earlier undefined operation. -/
theorem read_values_short {F : FloatLib} (lang : LANG) (argv : List String) (tok : String)
    (nbv : Nat) :
    ∀ (n j i : Nat) (p : ParamHolder F) (cerr : List String),
      i < argv.length → argv.length ≤ i + n →
      ∃ u, read_values lang argv tok nbv n j i p cerr = .error (.undefined u) := by
  intro n
  induction n with
  | zero =>
    intro j i p cerr h1 h2
    omega
  | succ n ih =>
    intro j i p cerr h1 h2
    rw [read_values]
    have hle : i + 1 ≤ argv.length := h1
    simp only [hle, if_true]
    cases hget : argv.get? (i + 1) with
    | none => exact ⟨_, rfl⟩
    | some w =>
      have hlt := get?_lt_length argv (i + 1) w hget
      simp only
      cases hsv : store_value lang tok p j w cerr with
      | error e =>
        obtain ⟨u, rfl⟩ := store_value_error lang tok p j w cerr e hsv
        exact ⟨u, rfl⟩
      | ok r =>
        obtain ⟨p', cerr'⟩ := r
        exact ih (j + 1) (i + 1) p' cerr' hlt (by omega)

theorem mapFind_mapAssign_ne {κ β : Type} [DecidableEq κ] (m : List (κ × β)) (k key : κ)
    (v : β) (h : key ≠ k) : mapFind (mapAssign m k v) key = mapFind m key := by
  induction m with
  | nil => rfl
  | cons e m ih =>
    obtain ⟨k', w⟩ := e
    by_cases hk : k' = k
    · subst hk
      have : ¬ k' = key := fun hh => h hh.symm
      simp [mapAssign, mapFind, this]
    · by_cases hk2 : k' = key
      · subst hk2
        simp [mapAssign, mapFind, hk]
      · simp [mapAssign, mapFind, hk, hk2, ih]

theorem get?_zipWith {α β γ : Type} (f : α → β → γ) :
    ∀ (l : List α) (m : List β) (k : Nat) (a : α) (b : β),
      l.get? k = some a → m.get? k = some b → (List.zipWith f l m).get? k = some (f a b) := by
  intro l
  induction l with
  | nil => intro m k a b h; simp at h
  | cons x l ih =>
    intro m k a b h1 h2
    cases m with
    | nil => simp at h2
    | cons y m =>
      cases k with
      | zero =>
        simp only [List.get?_cons_zero, Option.some.injEq] at h1 h2
        subst h1
        subst h2
        rfl
      | succ k =>
        simp only [List.get?_cons_succ] at h1 h2
        simp only [List.zipWith_cons_cons, List.get?_cons_succ]
        exact ih m k a b h1 h2

/-! ## The claims on parsing and definition -/

/-- C1: a parameter with `N` value slots, of text kind with arbitrary tokens or of
integer kind with decimal tokens denoting values of `int`, parsed from
`[prog, --name, v1, ..., vN]`: `parse_params` returns, every slot holds the
conversion of its token, the parameter is defined, `is_def` answers true and
`str_val` / `num_val` return the `k`-th value for every `1 ≤ k ≤ N`. -/
theorem parse_params_fills_slots {F : FloatLib} (s : Parameters F) (prog name : String)
    (p : ParamHolder F) (vs : List String)
    (hp : mapFind s.params ("--" ++ name) = some p)
    (hargv : s.argv = prog :: ("--" ++ name) :: vs)
    (hN : vs.length = p.nb_values) :
    (∀ (vals defs : List String), p.store = .string vals defs → vals.length = p.nb_values →
      parse_params s = .ok (s.with_param ("--" ++ name)
          { p with is_defined := true, store := .string vs defs }, []) ∧
        mapFind (s.with_param ("--" ++ name)
          { p with is_defined := true, store := .string vs defs }).params ("--" ++ name)
          = some { p with is_defined := true, store := .string vs defs } ∧
        is_def (s.with_param ("--" ++ name)
          { p with is_defined := true, store := .string vs defs }) name = .ok true ∧
        ∀ (k : Nat) (v : String), 1 ≤ k → (k : Int) ≤ INT_MAX → vs.get? (k - 1) = some v →
          str_val (s.with_param ("--" ++ name)
            { p with is_defined := true, store := .string vs defs }) name k = .ok v) ∧
    (∀ (vals defs ns : List Int), p.store = .int vals defs → vals.length = p.nb_values →
      vs.map decimalInt = ns.map some →
      parse_params s = .ok (s.with_param ("--" ++ name)
          { p with is_defined := true, store := .int ns defs }, []) ∧
        mapFind (s.with_param ("--" ++ name)
          { p with is_defined := true, store := .int ns defs }).params ("--" ++ name)
          = some { p with is_defined := true, store := .int ns defs } ∧
        is_def (s.with_param ("--" ++ name)
          { p with is_defined := true, store := .int ns defs }) name = .ok true ∧
        ∀ (k : Nat) (n : Int), 1 ≤ k → (k : Int) ≤ INT_MAX → ns.get? (k - 1) = some n →
          num_val (s.with_param ("--" ++ name)
            { p with is_defined := true, store := .int ns defs }) name k = .ok (.int n)) := by
  have hlen : s.argv.length = vs.length + 1 + 1 := by rw [hargv]; simp
  have htok : s.argv.get? 1 = some ("--" ++ name) := by rw [hargv]; rfl
  have hsplit : s.argv = [prog, "--" ++ name] ++ vs ++ [] := by rw [hargv]; simp
  have h1 : 1 < s.argv.length := by omega
  constructor
  · intro vals defs hstore hvals
    have hstep := parse_step_string s.lang s.argv [prog, "--" ++ name] vs [] 1 s.params []
      ("--" ++ name) p vals defs hsplit rfl htok hp hstore hvals hN
    have hfind := mapFind_mapAssign s.params ("--" ++ name) p
      { p with is_defined := true, store := .string vs defs } hp
    refine ⟨?_, hfind, ?_, ?_⟩
    · unfold parse_params
      rw [hlen]
      rw [parse_loop_step _ _ _ _ _ _ _ _ _ h1 hstep,
        parse_loop_done _ _ _ _ _ _ (by omega)]
      rfl
    · simp only [is_def, Parameters.with_param, hfind]
    · intro k v hk1 hk2 hget
      have hlt := get?_lt_length vs (k - 1) v hget
      obtain ⟨e1, e2⟩ := slot_index k hk1 hk2
      have hle : ¬ (k > p.nb_values) := by omega
      simp only [str_val, Parameters.with_param, hfind, e1, e2, hle, if_false, vectorAt, hget]
  · intro vals defs ns hstore hvals hdec
    have hstep := parse_step_int s.lang s.argv [prog, "--" ++ name] vs [] 1 s.params []
      ("--" ++ name) p vals defs hsplit rfl htok hp hstore hvals hN
    obtain ⟨hz, hf⟩ := zipWith_stoi_of_decimal s.lang ("--" ++ name) vs ns vals
      hdec (by omega)
    rw [hz, hf] at hstep
    have hfind := mapFind_mapAssign s.params ("--" ++ name) p
      { p with is_defined := true, store := .int ns defs } hp
    have hnl : ns.length = vs.length := by
      have := congrArg List.length hdec
      simpa using this.symm
    refine ⟨?_, hfind, ?_, ?_⟩
    · unfold parse_params
      rw [hlen]
      rw [parse_loop_step _ _ _ _ _ _ _ _ _ h1 hstep,
        parse_loop_done _ _ _ _ _ _ (by omega)]
      rfl
    · simp only [is_def, Parameters.with_param, hfind]
    · intro k n hk1 hk2 hget
      have hlt := get?_lt_length ns (k - 1) n hget
      obtain ⟨e1, e2⟩ := slot_index k hk1 hk2
      have hle : ¬ (k > p.nb_values) := by omega
      simp only [num_val, Parameters.with_param, hfind, e1, e2, hle, if_false, vectorAt, hget]
      rfl

/-- Witness of C1: `--count` with one integer slot and default `0`, parsed from
`["prog", "--count", "5"]`, is defined and `num_val("count")` is `5`. -/
theorem parse_params_fills_slots_witness :
    ∃ s', parse_params (countRegistry ["prog", "--count", "5"]) = .ok (s', []) ∧
      is_def s' "count" = .ok true ∧ num_val s' "count" 1 = .ok (.int 5) :=
  have h := (parse_params_fills_slots (countRegistry ["prog", "--count", "5"]) "prog" "count"
    (Param.withValues "--count" "number of items" ["n"] (.int [0]) false) ["5"]
    rfl rfl rfl).2 [0] [0] [5] rfl rfl rfl
  ⟨_, h.1, h.2.2.1, h.2.2.2 1 5 (by decide) (by decide) rfl⟩

/-- C2: a parameter of arity `N ≥ 1` matched at token `i` with fewer than `N` tokens
after it never gets the arity diagnostic nor the defined flag: the loop stops at an
undefined operation. On `["prog", "--count"]` the test `++i<=argc` succeeds with
`i = argc = 2` and `parse_params` builds a string from `argv[2]`, the null pointer
that ends `argv`. -/
theorem parse_params_missing_value_reads_argv_argc :
    (∀ (F : FloatLib) (lang : LANG) (argv : List String) (fuel i : Nat)
      (params : List (String × ParamHolder F)) (cerr : List String) (tok : String)
      (p : ParamHolder F),
      argv.get? i = some tok → mapFind params tok = some p → argv.length ≤ i + p.nb_values →
      ∃ u, parse_loop lang argv (fuel + 1) i params cerr = .error (.undefined u)) ∧
    parse_params (countRegistry ["prog", "--count"]) = .error (.undefined (.argv_null 2)) ∧
    (countRegistry ["prog", "--count"]).argc = 2 := by
  refine ⟨?_, rfl, rfl⟩
  intro F lang argv fuel i params cerr tok p htok hfind hshort
  have hi : i < argv.length := get?_lt_length argv i tok htok
  obtain ⟨u, hu⟩ := read_values_short lang argv tok p.nb_values p.nb_values 0 i p cerr hi hshort
  refine ⟨u, ?_⟩
  rw [parse_loop]
  simp only [hi, if_true, parse_step, htok, hfind, hu]

/-- Witness of C2: the token `--count` at index 1 of `["prog", "--count"]`, with no
token after it. -/
theorem parse_params_missing_value_witness :
    ∃ u, parse_loop .lang_us ["prog", "--count"] 2 1
      (countRegistry ["prog", "--count"]).params [] = .error (.undefined u) :=
  parse_params_missing_value_reads_argv_argc.1 FloatLib.integral .lang_us
    ["prog", "--count"] 1 1 (countRegistry ["prog", "--count"]).params [] "--count"
    (Param.withValues "--count" "number of items" ["n"] (.int [0]) false) rfl rfl
    (by decide)

/-- C3: an integer parameter matched at token `i` with its `N` value tokens `ws`
present: every slot whose token `stoi` rejects keeps its value and gets the
type-mismatch diagnostic, every other slot takes the converted value (the slots
after a rejected token included), the parameter is marked defined in every case, and
the scan goes on after the `N` tokens. Parsed from `[prog, --name, w1, ..., wN]`,
`parse_params` returns, `is_def` answers true and `num_val` returns for the slot `k`
the value of `wk`, or the value the slot had when `stoi` rejects `wk`, with the
diagnostic for `wk` in `std::cerr`. `--pair` with defaults `1` and `2` keeps `1` and
takes `7` from `abc 7`, and keeps both defaults, defined, from `x y`. -/
theorem parse_params_conversion_failure {F : FloatLib} :
    (∀ (lang : LANG) (argv pre ws post : List String) (fuel i : Nat)
      (params : List (String × ParamHolder F)) (cerr : List String) (tok : String)
      (p : ParamHolder F) (vals defs : List Int),
      argv = pre ++ ws ++ post → pre.length = i + 1 → argv.get? i = some tok →
      mapFind params tok = some p → p.store = .int vals defs → vals.length = p.nb_values →
      ws.length = p.nb_values →
      parse_loop lang argv (fuel + 1) i params cerr
        = parse_loop lang argv fuel (i + p.nb_values + 1)
            (mapAssign params tok { p with
              is_defined := true,
              store := .int (List.zipWith (fun w old => (stoi w).getD old) ws vals) defs })
            (cerr ++ ws.filterMap
              (fun w => if (stoi w).isNone then some (msg_type lang tok w) else none)) ∧
      mapFind (mapAssign params tok { p with
          is_defined := true,
          store := .int (List.zipWith (fun w old => (stoi w).getD old) ws vals) defs }) tok
        = some { p with
            is_defined := true,
            store := .int (List.zipWith (fun w old => (stoi w).getD old) ws vals) defs }) ∧
    (∀ (s : Parameters F) (prog name : String) (p : ParamHolder F) (ws : List String)
      (vals defs : List Int),
      mapFind s.params ("--" ++ name) = some p → s.argv = prog :: ("--" ++ name) :: ws →
      ws.length = p.nb_values → p.store = .int vals defs → vals.length = p.nb_values →
      ∃ (s' : Parameters F) (cerr : List String),
        parse_params s = .ok (s', cerr) ∧
        s' = s.with_param ("--" ++ name) { p with
          is_defined := true,
          store := .int (List.zipWith (fun w old => (stoi w).getD old) ws vals) defs } ∧
        mapFind s'.params ("--" ++ name) = some { p with
          is_defined := true,
          store := .int (List.zipWith (fun w old => (stoi w).getD old) ws vals) defs } ∧
        cerr = ws.filterMap
          (fun w => if (stoi w).isNone then some (msg_type s.lang ("--" ++ name) w) else none) ∧
        is_def s' name = .ok true ∧
        ∀ (k : Nat) (w : String) (old : Int), 1 ≤ k → (k : Int) ≤ INT_MAX →
          ws.get? (k - 1) = some w → vals.get? (k - 1) = some old →
          num_val s' name k = .ok (.int ((stoi w).getD old)) ∧
          (stoi w = none →
            num_val s' name k = .ok (.int old) ∧
            msg_type s.lang ("--" ++ name) w ∈ cerr)) ∧
    (∃ s', parse_params (pairRegistry ["prog", "--pair", "abc", "7"])
        = .ok (s', ["parameter \"--pair\" expects an integer value, received \"abc\""]) ∧
      is_def s' "pair" = .ok true ∧ num_val s' "pair" 1 = .ok (.int 1) ∧
      num_val s' "pair" 2 = .ok (.int 7)) ∧
    (∃ s', parse_params (pairRegistry ["prog", "--pair", "x", "y"])
        = .ok (s', ["parameter \"--pair\" expects an integer value, received \"x\"",
            "parameter \"--pair\" expects an integer value, received \"y\""]) ∧
      is_def s' "pair" = .ok true ∧ num_val s' "pair" 1 = .ok (.int 1) ∧
      num_val s' "pair" 2 = .ok (.int 2)) ∧
    stoi "abc" = none := by
  refine ⟨?_, ?_, ⟨_, rfl, rfl, rfl, rfl⟩, ⟨_, rfl, rfl, rfl, rfl⟩, by decide⟩
  · intro lang argv pre ws post fuel i params cerr tok p vals defs hargv hpre htok hfind
      hstore hvals hws
    have hi : i < argv.length := by
      rw [hargv]; simp only [List.length_append]; omega
    exact ⟨parse_loop_step _ _ _ _ _ _ _ _ _ hi
      (parse_step_int lang argv pre ws post i params cerr tok p vals defs hargv hpre htok hfind
        hstore hvals hws), mapFind_mapAssign _ _ _ _ hfind⟩
  · intro s prog name p ws vals defs hp hargv hN hstore hvals
    have hlen : s.argv.length = ws.length + 1 + 1 := by rw [hargv]; simp
    have htok : s.argv.get? 1 = some ("--" ++ name) := by rw [hargv]; rfl
    have hsplit : s.argv = [prog, "--" ++ name] ++ ws ++ [] := by rw [hargv]; simp
    have h1 : 1 < s.argv.length := by omega
    have hstep := parse_step_int s.lang s.argv [prog, "--" ++ name] ws [] 1 s.params []
      ("--" ++ name) p vals defs hsplit rfl htok hp hstore hvals hN
    have hfind := mapFind_mapAssign s.params ("--" ++ name) p
      { p with
        is_defined := true,
        store := .int (List.zipWith (fun w old => (stoi w).getD old) ws vals) defs } hp
    refine ⟨_, _, ?_, rfl, hfind, rfl, ?_, ?_⟩
    · unfold parse_params
      rw [hlen]
      rw [parse_loop_step _ _ _ _ _ _ _ _ _ h1 hstep,
        parse_loop_done _ _ _ _ _ _ (by omega)]
      simp only [List.nil_append]
      rfl
    · simp only [is_def, Parameters.with_param, hfind]
    · intro k w old hk1 hk2 hw hold
      have hlt := get?_lt_length ws (k - 1) w hw
      obtain ⟨e1, e2⟩ := slot_index k hk1 hk2
      have hle : ¬ (k > p.nb_values) := by omega
      have hz := get?_zipWith (fun w old => (stoi w).getD old) ws vals (k - 1) w old hw hold
      have hnum : num_val (s.with_param ("--" ++ name) { p with
          is_defined := true,
          store := .int (List.zipWith (fun w old => (stoi w).getD old) ws vals) defs }) name k
          = .ok (.int ((stoi w).getD old)) := by
        simp only [num_val, Parameters.with_param, hfind, e1, e2, hle, if_false, vectorAt, hz]
        rfl
      refine ⟨hnum, fun hnone => ⟨?_, ?_⟩⟩
      · rw [hnum, hnone]
        rfl
      · rw [List.mem_filterMap]
        exact ⟨w, List.get?_mem hw, by simp [hnone]⟩

/-- Witness of C3: `--pair` with defaults `1` and `2` parsed from
`["prog", "--pair", "abc", "7"]` keeps `1` in the first slot, stores `7` in the
second, writes the diagnostic for `abc` and is defined. -/
theorem parse_params_conversion_failure_witness :
    ∃ (s' : Parameters FloatLib.integral) (cerr : List String),
      parse_params (pairRegistry ["prog", "--pair", "abc", "7"]) = .ok (s', cerr) ∧
      is_def s' "pair" = .ok true ∧ num_val s' "pair" 1 = .ok (.int 1) ∧
      num_val s' "pair" 2 = .ok (.int 7) ∧
      "parameter \"--pair\" expects an integer value, received \"abc\"" ∈ cerr :=
  match (@parse_params_conversion_failure FloatLib.integral).2.1
      (pairRegistry ["prog", "--pair", "abc", "7"]) "prog" "pair"
      (Param.withValues "--pair" "two numbers" ["a", "b"] (.int [1, 2]) false) ["abc", "7"]
      [1, 2] [1, 2] rfl rfl rfl rfl rfl with
  | ⟨s', cerr, h1, _, _, _, h5, h6⟩ =>
    ⟨s', cerr, h1, h5,
      ((h6 1 "abc" 1 (by decide) (by decide) rfl rfl).2 (by decide)).1,
      (h6 2 "7" 2 (by decide) (by decide) rfl rfl).1,
      ((h6 1 "abc" 1 (by decide) (by decide) rfl rfl).2 (by decide)).2⟩

/-- C4: a token at a name position that is no registered name adds the
unknown-parameter diagnostic, leaves every parameter as it was, and the scan goes
on with the next token as a candidate name; parsing
`["prog", "--bogus", "--count", "5"]` reports `--bogus` and sets `count` to `5`,
defined. -/
theorem parse_params_unknown_token {F : FloatLib} :
    (∀ (lang : LANG) (argv : List String) (fuel i : Nat)
      (params : List (String × ParamHolder F)) (cerr : List String) (tok : String),
      argv.get? i = some tok → mapFind params tok = none →
      parse_step lang argv i params cerr = .ok (i, params, cerr ++ [msg_unknown lang tok]) ∧
      parse_loop lang argv (fuel + 1) i params cerr
        = parse_loop lang argv fuel (i + 1) params (cerr ++ [msg_unknown lang tok])) ∧
    (∃ s', parse_params (countRegistry ["prog", "--bogus", "--count", "5"])
        = .ok (s', ["unknown parameter \"--bogus\"\n"]) ∧
      is_def s' "count" = .ok true ∧ num_val s' "count" 1 = .ok (.int 5)) := by
  constructor
  · intro lang argv fuel i params cerr tok htok hfind
    have hstep : parse_step lang argv i params cerr
        = .ok (i, params, cerr ++ [msg_unknown lang tok]) := by
      simp only [parse_step, htok, hfind]
    have hi : i < argv.length := get?_lt_length argv i tok htok
    exact ⟨hstep, parse_loop_step _ _ _ _ _ _ _ _ _ hi hstep⟩
  · exact ⟨_, rfl, rfl, rfl⟩

/-- Witness of C4: the token `--bogus` at index 1 of
`["prog", "--bogus", "--count", "5"]`. -/
theorem parse_params_unknown_token_witness :
    parse_loop .lang_us ["prog", "--bogus", "--count", "5"] 4 1
        (countRegistry ["prog", "--bogus", "--count", "5"]).params []
      = parse_loop .lang_us ["prog", "--bogus", "--count", "5"] 3 2
          (countRegistry ["prog", "--bogus", "--count", "5"]).params
          ["unknown parameter \"--bogus\"\n"] :=
  ((@parse_params_unknown_token FloatLib.integral).1 .lang_us
    ["prog", "--bogus", "--count", "5"] 3 1
    (countRegistry ["prog", "--bogus", "--count", "5"]).params [] "--bogus" rfl rfl).2

/-- C5: `define_param` registers a parameter without value slots, not defined; a
parameter without value slots matched at token `i` is marked defined (the map then
holds it with `is_defined` set under its key, the other keys as before), nothing is
written to `std::cerr`, no token is read as a value and the scan goes on at token
`i + 1` as the next candidate name. Parsed from `[prog, --name]` the flag is defined
and `is_def` answers true; from `["prog", "--help", "--count", "5"]` both `--help` and
`--count` are defined and `count` is `5`; from `["prog", "--help", "5"]` the token `5`
is reported as an unknown parameter. -/
theorem parse_params_flag {F : FloatLib} :
    (∀ (s : Parameters F) (param_name param_desc : String),
      mapFind s.params ("--" ++ param_name) = none →
      (define_param param_name param_desc s).1 = .ok () ∧
      mapFind (define_param param_name param_desc s).2.params ("--" ++ param_name)
        = some (Param.flag ("--" ++ param_name) param_desc) ∧
      (Param.flag ("--" ++ param_name) param_desc : ParamHolder F).nb_values = 0 ∧
      (Param.flag ("--" ++ param_name) param_desc : ParamHolder F).is_defined = false ∧
      is_def (define_param param_name param_desc s).2 param_name = .ok false) ∧
    (∀ (lang : LANG) (argv : List String) (fuel i : Nat)
      (params : List (String × ParamHolder F)) (cerr : List String) (tok : String)
      (p : ParamHolder F),
      argv.get? i = some tok → mapFind params tok = some p → p.nb_values = 0 →
      parse_step lang argv i params cerr
        = .ok (i, mapAssign params tok { p with is_defined := true }, cerr) ∧
      parse_loop lang argv (fuel + 1) i params cerr
        = parse_loop lang argv fuel (i + 1)
            (mapAssign params tok { p with is_defined := true }) cerr ∧
      mapFind (mapAssign params tok { p with is_defined := true }) tok
        = some { p with is_defined := true } ∧
      (∀ key, key ≠ tok →
        mapFind (mapAssign params tok { p with is_defined := true }) key
          = mapFind params key)) ∧
    (∀ (s : Parameters F) (prog name : String) (p : ParamHolder F),
      mapFind s.params ("--" ++ name) = some p → p.nb_values = 0 →
      s.argv = [prog, "--" ++ name] →
      parse_params s = .ok (s.with_param ("--" ++ name) { p with is_defined := true }, []) ∧
      mapFind (s.with_param ("--" ++ name) { p with is_defined := true }).params
          ("--" ++ name)
        = some { p with is_defined := true } ∧
      is_def (s.with_param ("--" ++ name) { p with is_defined := true }) name = .ok true) ∧
    (is_def (flagRegistry ["prog", "--help", "--count", "5"]) "help" = .ok false ∧
      ∃ s', parse_params (flagRegistry ["prog", "--help", "--count", "5"]) = .ok (s', []) ∧
        is_def s' "help" = .ok true ∧ is_def s' "count" = .ok true ∧
        num_val s' "count" 1 = .ok (.int 5)) ∧
    (∃ s', parse_params (flagRegistry ["prog", "--help", "5"])
        = .ok (s', ["unknown parameter \"5\"\n"]) ∧
      is_def s' "help" = .ok true ∧ is_def s' "count" = .ok false ∧
      num_val s' "count" 1 = .ok (.int 0)) := by
  refine ⟨?_, ?_, ?_, ⟨rfl, _, rfl, rfl, rfl, rfl⟩, ⟨_, rfl, rfl, rfl, rfl⟩⟩
  · intro s param_name param_desc hnew
    have hc := mapCount_eq_zero _ _ hnew
    have hfind : mapFind (define_param param_name param_desc s).2.params ("--" ++ param_name)
        = some (Param.flag ("--" ++ param_name) param_desc) := by
      simp only [define_param, hc, ne_eq, not_true_eq_false, if_false]
      exact mapFind_mapInsert_new _ _ _ hnew
    refine ⟨?_, hfind, rfl, rfl, ?_⟩
    · simp [define_param, hc]
    · simp only [is_def, hfind]
      rfl
  · intro lang argv fuel i params cerr tok p htok hfind hnb
    have hstep : parse_step lang argv i params cerr
        = .ok (i, mapAssign params tok { p with is_defined := true }, cerr) := by
      simp only [parse_step, htok, hfind, hnb, read_values]
    have hi : i < argv.length := get?_lt_length argv i tok htok
    exact ⟨hstep, parse_loop_step _ _ _ _ _ _ _ _ _ hi hstep,
      mapFind_mapAssign _ _ _ _ hfind, fun key hne => mapFind_mapAssign_ne _ _ _ _ hne⟩
  · intro s prog name p hfind hnb hargv
    have htok : s.argv.get? 1 = some ("--" ++ name) := by rw [hargv]; rfl
    have hstep : parse_step s.lang s.argv 1 s.params []
        = .ok (1, mapAssign s.params ("--" ++ name) { p with is_defined := true }, []) := by
      simp only [parse_step, htok, hfind, hnb, read_values]
    have hlen : s.argv.length = 1 + 1 := by rw [hargv]; rfl
    have hfind' := mapFind_mapAssign s.params ("--" ++ name) p { p with is_defined := true }
      hfind
    refine ⟨?_, hfind', ?_⟩
    · unfold parse_params
      rw [hlen, parse_loop_step _ _ _ _ _ _ _ _ _ (by omega) hstep,
        parse_loop_done _ _ _ _ _ _ (by omega)]
      rfl
    · simp only [is_def, Parameters.with_param, hfind']

/-- Witness of C5: the flag `--help` of the registry of `--help` and `--count`, parsed
from `["prog", "--help"]`, is defined. -/
theorem parse_params_flag_witness :
    ∃ s', parse_params (flagRegistry ["prog", "--help"]) = .ok (s', []) ∧
      is_def s' "help" = .ok true :=
  have h := (@parse_params_flag FloatLib.integral).2.2.1 (flagRegistry ["prog", "--help"])
    "prog" "help" (Param.flag "--help" "print this menu") rfl rfl rfl
  ⟨_, h.1, h.2.2⟩

/-- C6: when the name is registered, `define_param`, `define_num_str_param` and
`define_choice_param` throw the duplicate-parameter text and the object is as
before; a name is registered once any of the three has accepted it. -/
theorem define_duplicate_fails {F : FloatLib} (s : Parameters F) (param_name : String) :
    (∀ p0 : ParamHolder F, mapFind s.params ("--" ++ param_name) = some p0 →
      (∀ param_desc, define_param param_name param_desc s
        = (.error (.thrown (msg_duplicate s.lang)), s)) ∧
      (∀ values_names default_param_values param_desc display_default_value,
        define_num_str_param param_name values_names default_param_values param_desc
          display_default_value s = (.error (.thrown (msg_duplicate s.lang)), s)) ∧
      (∀ value_name default_choice p_choices param_desc display_default_value,
        define_choice_param param_name value_name default_choice p_choices param_desc
          display_default_value s = (.error (.thrown (msg_duplicate s.lang)), s))) ∧
    (mapFind s.params ("--" ++ param_name) = none →
      (∀ param_desc,
        (mapFind (define_param param_name param_desc s).2.params
          ("--" ++ param_name)).isSome = true) ∧
      (∀ values_names default_param_values param_desc display_default_value,
        (mapFind (define_num_str_param param_name values_names default_param_values
          param_desc display_default_value s).2.params ("--" ++ param_name)).isSome = true) ∧
      (∀ value_name default_choice p_choices param_desc display_default_value,
        (mapFind (define_choice_param param_name value_name default_choice p_choices
          param_desc display_default_value s).2.params ("--" ++ param_name)).isSome = true)) := by
  constructor
  · intro p0 h
    have hc := mapCount_ne_zero _ _ _ h
    refine ⟨?_, ?_, ?_⟩
    · intro d
      simp only [define_param, hc, if_true, ne_eq, not_false_eq_true]
    · intro a b c d
      simp only [define_num_str_param, hc, if_true, ne_eq, not_false_eq_true]
    · intro a b c d e
      simp only [define_choice_param, hc, if_true, ne_eq, not_false_eq_true]
  · intro h
    have hc := mapCount_eq_zero _ _ h
    refine ⟨?_, ?_, ?_⟩
    · intro d
      simp only [define_param, hc, ne_eq, not_true_eq_false, if_false]
      rw [mapFind_mapInsert_new _ _ _ h]; rfl
    · intro a b c d
      simp only [define_num_str_param, hc, ne_eq, not_true_eq_false, if_false]
      rw [mapFind_mapInsert_new _ _ _ h]; rfl
    · intro a b c d e
      simp only [define_choice_param, hc, ne_eq, not_true_eq_false, if_false]
      rw [mapFind_mapInsert_new _ _ _ h]; rfl

/-- Witness of C6: a second definition of `count`. -/
theorem define_duplicate_fails_witness :
    define_param "count" "again" (countRegistry [])
      = (.error (.thrown "error: a parameter with the same name already exists"),
          countRegistry []) :=
  ((define_duplicate_fails (countRegistry []) "count").1
    (Param.withValues "--count" "number of items" ["n"] (.int [0]) false) rfl).1 "again"

/-! ## The claims on the layout of descriptions -/

/-- C7: with `desc_indent_len = 2` and `terminal_width = 7` no word of
`"ab cd efghi"` is longer than 5, yet the description loop of `print_parameters`
emits the line `"  ab cd efghi"` of 13 characters and is then interrupted by
`std::out_of_range`: the line `"ab cd"` fills the width, so the split offset
`terminal_width-(desc_indent_len+line_len)` wraps around below zero. -/
theorem print_parameters_line_exceeds_width :
    (0 ≤ cfg7.desc_indent_len ∧ cfg7.desc_indent_len < cfg7.terminal_width) ∧
    (∀ w ∈ words "ab cd efghi",
      (w.length : Int) ≤ cfg7.terminal_width - cfg7.desc_indent_len) ∧
    print_param_description 7 2 "  " true "ab cd efghi " Cout.empty
      = .raised .std_out_of_range ⟨["  ab cd efghi"], ""⟩ ∧
    print_parameters (narrowRegistry "ab cd efghi") Cout.empty
      = .raised .std_out_of_range ⟨["--x", "  ab cd efghi"], ""⟩ ∧
    (7 : Int) < ("  ab cd efghi".length : Int) := by
  decide

/-- C8: with `desc_indent_len = 2` and `terminal_width = 7` the description
`"abcdefg h jklmn"` has the word `"abcdefg"` longer than 5; the description loop of
`print_parameters` returns after the lines `"  abcde"`, `"  fg h "` and `"  "`: the
characters `jklmn` are in none of them. For `"ab cd efghijk"` the loop is interrupted
after the line `"  ab cd efghi"`: the characters `jk` of the long word are not
printed. -/
theorem print_parameters_drops_characters :
    (0 ≤ cfg7.desc_indent_len ∧ cfg7.desc_indent_len < cfg7.terminal_width) ∧
    (∃ w ∈ words "abcdefg h jklmn",
      cfg7.terminal_width - cfg7.desc_indent_len < (w.length : Int)) ∧
    print_param_description 7 2 "  " true "abcdefg h jklmn " Cout.empty
      = .next ⟨["  abcde", "  fg h ", "  "], ""⟩ ∧
    print_parameters (narrowRegistry "abcdefg h jklmn") Cout.empty
      = .next ⟨["--x", "  abcde", "  fg h ", "  ", ""], ""⟩ ∧
    nonSpaces ["  abcde", "  fg h ", "  "] = "abcdefgh".data ∧
    nonSpaces ["abcdefg h jklmn"] = "abcdefghjklmn".data ∧
    (∃ w ∈ words "ab cd efghijk",
      cfg7.terminal_width - cfg7.desc_indent_len < (w.length : Int)) ∧
    print_parameters (narrowRegistry "ab cd efghijk") Cout.empty
      = .raised .std_out_of_range ⟨["--x", "  ab cd efghi"], ""⟩ := by
  decide

/-- C9: with `terminal_width = 5` no word of `"abcde fg hi"` is longer than the
width; `print_description` prints the lines `""`, `""`, `"abcde"`, `"hi"`: the word
`fg` is in none of them, because `first_word` is still true when `hi` is committed. -/
theorem print_description_drops_word :
    (∀ w ∈ words "abcde fg hi",
      (w.length : Int) ≤ (describedProgram "abcde fg hi").terminal_width) ∧
    print_description (describedProgram "abcde fg hi") Cout.empty
      = ⟨["", "", "abcde", "hi"], ""⟩ ∧
    (["", "", "abcde", "hi"].map words).flatten = ["abcde", "hi"] ∧
    words "abcde fg hi" = ["abcde", "fg", "hi"] := by
  decide

/-! ## The claims on the accessors -/

theorem toSizeT_above (n : Nat) (v : Int) (h1 : (n : Int) < v) (h2 : v ≤ INT_MAX) :
    toSizeT v > n := by
  obtain ⟨k, rfl⟩ := Int.eq_ofNat_of_zero_le (by omega : 0 ≤ v)
  unfold INT_MAX at h2
  rw [toSizeT_ofNat k (by omega)]
  omega

theorem toSizeT_within (n : Nat) (v : Int) (h0 : 0 ≤ v) (h1 : v ≤ (n : Int))
    (h2 : v ≤ INT_MAX) : ¬ (toSizeT v > n) := by
  obtain ⟨k, rfl⟩ := Int.eq_ofNat_of_zero_le h0
  unfold INT_MAX at h2
  rw [toSizeT_ofNat k (by omega)]
  omega

/-- Counterexample of C10: `--name` is a registered text parameter of arity 1 and
slot number 1 is not above the arity, yet `num_val` fails. -/
theorem num_val_on_text_fails :
    (mapFind textRegistry.params ("--" ++ "name")).map (fun p => p.nb_values) = some 1 ∧
    str_val textRegistry "name" 1 = .ok "x" ∧
    num_val textRegistry "name" 1 = .error (.thrown "type not supported yet") := by
  refine ⟨rfl, rfl, rfl⟩

/-- C10, amended: for an unregistered name the four accessors throw their
unknown-parameter text; for a registered parameter `is_def` returns the defined
flag, `str_val` and `num_val` throw the only-has text for a slot number above the
arity, `num_val` throws the type-not-supported text on a parameter that is not
numeric for a slot number from 0 to the arity, and for a slot number `k` from 1 to
the arity that has a stored value, `str_val` on a text or choice parameter and
`num_val` on a numeric parameter return that value, as `cho_val` returns the first
stored value of a text or choice parameter. -/
theorem accessors_contract {F : FloatLib} (s : Parameters F) (param_name : String) :
    (mapFind s.params ("--" ++ param_name) = none →
      is_def s param_name = .error (.thrown (msg_unknown_is_def s.lang param_name)) ∧
      (∀ v, str_val s param_name v = .error (.thrown (msg_unknown_name param_name))) ∧
      cho_val s param_name = .error (.thrown (msg_unknown_name param_name)) ∧
      (∀ v, num_val s param_name v = .error (.thrown (msg_unknown_name param_name)))) ∧
    (∀ p : ParamHolder F, mapFind s.params ("--" ++ param_name) = some p →
      is_def s param_name = .ok p.is_defined ∧
      (∀ v : Int, (p.nb_values : Int) < v → v ≤ INT_MAX →
        str_val s param_name v = .error (.thrown (msg_only_has param_name p.nb_values)) ∧
        num_val s param_name v = .error (.thrown (msg_only_has param_name p.nb_values))) ∧
      (∀ v : Int, 0 ≤ v → v ≤ (p.nb_values : Int) → v ≤ INT_MAX →
        p.type_name = .bool ∨ p.type_name = .string →
        num_val s param_name v = .error (.thrown "type not supported yet")) ∧
      (∀ (k : Nat) (vals defs : List String) (x : String), p.store = .string vals defs →
        1 ≤ k → k ≤ p.nb_values → (k : Int) ≤ INT_MAX → vals.get? (k - 1) = some x →
        str_val s param_name k = .ok x) ∧
      (∀ (vals defs : List String) (x : String), p.store = .string vals defs →
        vals.get? 0 = some x → cho_val s param_name = .ok x) ∧
      (∀ (k : Nat) (vals defs : List Int) (x : Int), p.store = .int vals defs →
        1 ≤ k → k ≤ p.nb_values → (k : Int) ≤ INT_MAX → vals.get? (k - 1) = some x →
        num_val s param_name k = .ok (.int x)) ∧
      (∀ (k : Nat) (vals defs : List F.Dbl) (x : F.Dbl), p.store = .double vals defs →
        1 ≤ k → k ≤ p.nb_values → (k : Int) ≤ INT_MAX → vals.get? (k - 1) = some x →
        num_val s param_name k = .ok (.double x)) ∧
      (∀ (k : Nat) (vals defs : List F.LDbl) (x : F.LDbl), p.store = .long_double vals defs →
        1 ≤ k → k ≤ p.nb_values → (k : Int) ≤ INT_MAX → vals.get? (k - 1) = some x →
        num_val s param_name k = .ok (.long_double x))) := by
  constructor
  · intro h
    refine ⟨?_, ?_, ?_, ?_⟩
    · simp only [is_def, h]
    · intro v; simp only [str_val, h]
    · simp only [cho_val, h]
    · intro v; simp only [num_val, h]
  · intro p h
    refine ⟨?_, ?_, ?_, ?_, ?_, ?_, ?_, ?_⟩
    · simp only [is_def, h]
    · intro v h1 h2
      have := toSizeT_above p.nb_values v h1 h2
      constructor
      · simp only [str_val, h, this, if_true]
      · simp only [num_val, h, this, if_true]
    · intro v h0 h1 h2 hk
      have := toSizeT_within p.nb_values v h0 h1 h2
      simp only [num_val, h, this, if_false]
      cases hs : p.store <;> simp [ParamHolder.type_name, hs] at hk ⊢
    · intro k vals defs x hs hk1 hk2 hk3 hget
      obtain ⟨e1, e2⟩ := slot_index k hk1 hk3
      have hle : ¬ (k > p.nb_values) := by omega
      simp only [str_val, h, e1, e2, hle, if_false, hs, vectorAt, hget]
    · intro vals defs x hs hget
      simp only [cho_val, h, hs, vectorAt, hget]
    · intro k vals defs x hs hk1 hk2 hk3 hget
      obtain ⟨e1, e2⟩ := slot_index k hk1 hk3
      have hle : ¬ (k > p.nb_values) := by omega
      simp only [num_val, h, e1, e2, hle, if_false, hs, vectorAt, hget]
      rfl
    · intro k vals defs x hs hk1 hk2 hk3 hget
      obtain ⟨e1, e2⟩ := slot_index k hk1 hk3
      have hle : ¬ (k > p.nb_values) := by omega
      simp only [num_val, h, e1, e2, hle, if_false, hs, vectorAt, hget]
      rfl
    · intro k vals defs x hs hk1 hk2 hk3 hget
      obtain ⟨e1, e2⟩ := slot_index k hk1 hk3
      have hle : ¬ (k > p.nb_values) := by omega
      simp only [num_val, h, e1, e2, hle, if_false, hs, vectorAt, hget]
      rfl

/-- Witness of C10, amended: the accessors on the registry of `--name` (default `"x"`)
and on the unregistered name `other`. -/
theorem accessors_contract_witness :
    is_def textRegistry "name" = .ok false ∧
    str_val textRegistry "name" 1 = .ok "x" ∧
    str_val textRegistry "name" 2 = .error (.thrown "parameter \"--name\" only has 1 values") ∧
    cho_val textRegistry "other" = .error (.thrown "error: unknown parameter \"--other\"") :=
  have h := (accessors_contract textRegistry "name").2
    (Param.withValues "--name" "a name" ["s"] (.string ["x"]) false) rfl
  ⟨h.1, h.2.2.2.1 1 ["x"] ["x"] "x" rfl (by decide) (by decide) (by decide) rfl,
    (h.2.1 2 (by decide) (by decide)).1,
    ((accessors_contract textRegistry "other").1 rfl).2.2.1⟩

/-- Counterexample of C11: `--help` is a registered flag, yet `num_val` with the
default value number 1 throws the only-has text, not the type-not-supported text. -/
theorem num_val_on_flag_index_error :
    (mapFind (flagRegistry []).params ("--" ++ "help")).map (fun p => p.type_name)
      = some .bool ∧
    num_val (flagRegistry []) "help" 1
      = .error (.thrown "parameter \"--help\" only has 0 values") := by
  refine ⟨rfl, rfl⟩

/-- C11, amended: on a registered parameter of type `int`, `double` or `long double`,
`num_val` returns the stored current value of slot `k` for `k` from 1 to the arity; on
a registered parameter of another type (flag, text, choice) it throws the
type-not-supported text when the value number is from 0 to the arity, and the
only-has text when the value number is above the arity (always so for a flag and a
value number from 1 on). -/
theorem num_val_by_kind {F : FloatLib} (s : Parameters F) (param_name : String)
    (p : ParamHolder F) (hp : mapFind s.params ("--" ++ param_name) = some p) :
    (∀ (k : Nat) (vals defs : List Int) (x : Int), p.store = .int vals defs →
      1 ≤ k → k ≤ p.nb_values → (k : Int) ≤ INT_MAX → vals.get? (k - 1) = some x →
      num_val s param_name k = .ok (.int x)) ∧
    (∀ (k : Nat) (vals defs : List F.Dbl) (x : F.Dbl), p.store = .double vals defs →
      1 ≤ k → k ≤ p.nb_values → (k : Int) ≤ INT_MAX → vals.get? (k - 1) = some x →
      num_val s param_name k = .ok (.double x)) ∧
    (∀ (k : Nat) (vals defs : List F.LDbl) (x : F.LDbl), p.store = .long_double vals defs →
      1 ≤ k → k ≤ p.nb_values → (k : Int) ≤ INT_MAX → vals.get? (k - 1) = some x →
      num_val s param_name k = .ok (.long_double x)) ∧
    (∀ v : Int, p.type_name = .bool ∨ p.type_name = .string →
      0 ≤ v → v ≤ (p.nb_values : Int) → v ≤ INT_MAX →
      num_val s param_name v = .error (.thrown "type not supported yet")) ∧
    (∀ v : Int, p.type_name = .bool ∨ p.type_name = .string →
      (p.nb_values : Int) < v → v ≤ INT_MAX →
      num_val s param_name v = .error (.thrown (msg_only_has param_name p.nb_values))) ∧
    (p.type_name = .bool → p.nb_values = 0 → ∀ v : Int, 1 ≤ v → v ≤ INT_MAX →
      num_val s param_name v = .error (.thrown (msg_only_has param_name 0))) := by
  refine ⟨?_, ?_, ?_, ?_, ?_, ?_⟩
  · intro k vals defs x hs hk1 hk2 hk3 hget
    obtain ⟨e1, e2⟩ := slot_index k hk1 hk3
    have hle : ¬ (k > p.nb_values) := by omega
    simp only [num_val, hp, e1, e2, hle, if_false, hs, vectorAt, hget]
    rfl
  · intro k vals defs x hs hk1 hk2 hk3 hget
    obtain ⟨e1, e2⟩ := slot_index k hk1 hk3
    have hle : ¬ (k > p.nb_values) := by omega
    simp only [num_val, hp, e1, e2, hle, if_false, hs, vectorAt, hget]
    rfl
  · intro k vals defs x hs hk1 hk2 hk3 hget
    obtain ⟨e1, e2⟩ := slot_index k hk1 hk3
    have hle : ¬ (k > p.nb_values) := by omega
    simp only [num_val, hp, e1, e2, hle, if_false, hs, vectorAt, hget]
    rfl
  · intro v hk h0 h1 h2
    have := toSizeT_within p.nb_values v h0 h1 h2
    simp only [num_val, hp, this, if_false]
    cases hs : p.store <;> simp [ParamHolder.type_name, hs] at hk ⊢
  · intro v _ h1 h2
    have := toSizeT_above p.nb_values v h1 h2
    simp only [num_val, hp, this, if_true]
  · intro _ hnb v h1 h2
    have := toSizeT_above p.nb_values v (by omega) h2
    rw [hnb] at this
    simp only [num_val, hp, this, if_true, hnb]

/-- Witness of C11, amended: `num_val` on the integer parameter `--count` (default
`0`), on the flag `--help` and on the text parameter `--name`. -/
theorem num_val_by_kind_witness :
    num_val (flagRegistry []) "count" 1 = .ok (.int 0) ∧
    num_val (flagRegistry []) "help" 1
      = .error (.thrown "parameter \"--help\" only has 0 values") ∧
    num_val textRegistry "name" 1 = .error (.thrown "type not supported yet") :=
  ⟨(num_val_by_kind (flagRegistry []) "count"
      (Param.withValues "--count" "number of items" ["n"] (.int [0]) false) rfl).1
      1 [0] [0] 0 rfl (by decide) (by decide) (by decide) rfl,
    (num_val_by_kind (flagRegistry []) "help" (Param.flag "--help" "print this menu")
      rfl).2.2.2.2.2 rfl rfl 1 (by decide) (by decide),
    (num_val_by_kind textRegistry "name"
      (Param.withValues "--name" "a name" ["s"] (.string ["x"]) false) rfl).2.2.2.1
      1 (Or.inr rfl) (by decide) (by decide) (by decide)⟩

/-! ## Lemmas on the frame of `parse_params` -/

theorem Store.same_shape_refl {F : FloatLib} (st : Store F) : st.same_shape st := by
  cases st <;> simp [Store.same_shape]

theorem Store.same_shape_trans {F : FloatLib} (a b c : Store F) (h1 : a.same_shape b)
    (h2 : b.same_shape c) : a.same_shape c := by
  cases a <;> cases b <;> simp only [Store.same_shape] at h1 <;>
    cases c <;> simp only [Store.same_shape] at h2 ⊢ <;>
    exact ⟨h1.1.trans h2.1, h1.2.trans h2.2⟩

theorem ParamHolder.same_static_refl {F : FloatLib} (p : ParamHolder F) : p.same_static p :=
  ⟨rfl, rfl, rfl, rfl, rfl, Store.same_shape_refl _⟩

theorem ParamHolder.same_static_trans {F : FloatLib} (p q r : ParamHolder F)
    (h1 : p.same_static q) (h2 : q.same_static r) : p.same_static r :=
  ⟨h1.1.trans h2.1, h1.2.1.trans h2.2.1, h1.2.2.1.trans h2.2.2.1,
    h1.2.2.2.1.trans h2.2.2.2.1, h1.2.2.2.2.1.trans h2.2.2.2.2.1,
    Store.same_shape_trans _ _ _ h1.2.2.2.2.2 h2.2.2.2.2.2⟩

theorem store_value_static {F : FloatLib} (lang : LANG) (tok : String) (p p' : ParamHolder F)
    (j : Nat) (w : String) (cerr cerr' : List String)
    (h : store_value lang tok p j w cerr = .ok (p', cerr')) : p.same_static p' := by
  unfold store_value at h
  split at h
  · rename_i hs
    split at h
    · split at h
      · cases h
        exact ⟨rfl, rfl, rfl, rfl, rfl, by simp [hs, Store.same_shape]⟩
      · cases h
    · cases h; exact ParamHolder.same_static_refl _
  · rename_i hs
    split at h
    · split at h
      · cases h
        exact ⟨rfl, rfl, rfl, rfl, rfl, by simp [hs, Store.same_shape]⟩
      · cases h
    · cases h; exact ParamHolder.same_static_refl _
  · rename_i hs
    split at h
    · split at h
      · cases h
        exact ⟨rfl, rfl, rfl, rfl, rfl, by simp [hs, Store.same_shape]⟩
      · cases h
    · cases h; exact ParamHolder.same_static_refl _
  · rename_i hs
    split at h
    · cases h
      exact ⟨rfl, rfl, rfl, rfl, rfl, by simp [hs, Store.same_shape]⟩
    · cases h
  · cases h; exact ParamHolder.same_static_refl _

theorem read_values_static {F : FloatLib} (lang : LANG) (argv : List String) (tok : String)
    (nbv : Nat) :
    ∀ (n j i : Nat) (p : ParamHolder F) (cerr : List String)
      (r : Nat × ParamHolder F × List String),
      read_values lang argv tok nbv n j i p cerr = .ok r → p.same_static r.2.1 := by
  intro n
  induction n with
  | zero =>
    intro j i p cerr r h
    simp only [read_values] at h
    cases h
    exact ParamHolder.same_static_refl _
  | succ n ih =>
    intro j i p cerr r h
    rw [read_values] at h
    split at h
    · split at h
      · cases h
      · rename_i w _
        split at h
        · cases h
        · rename_i p' cerr' hsv
          exact ParamHolder.same_static_trans _ _ _
            (store_value_static lang tok p p' j w cerr cerr' hsv) (ih _ _ _ _ _ h)
    · exact ih _ _ _ _ _ h

theorem get?_mem_tail {α : Type} (l : List α) (i : Nat) (a : α) (hi : 1 ≤ i)
    (h : l.get? i = some a) : a ∈ l.tail := by
  cases l with
  | nil => simp at h
  | cons x l =>
    obtain ⟨k, rfl⟩ : ∃ k, i = k + 1 := ⟨i - 1, by omega⟩
    simp only [List.get?_cons_succ] at h
    exact List.get?_mem h

theorem forall₂_mapAssign {F : FloatLib} (toks : List String) (tok : String)
    (q : ParamHolder F) (htok : tok ∈ toks) :
    ∀ (ps' ps : List (String × ParamHolder F)) (p1 : ParamHolder F),
      List.Forall₂ (frame_entry toks) ps ps' → mapFind ps' tok = some p1 →
      p1.same_static q → List.Forall₂ (frame_entry toks) ps (mapAssign ps' tok q) := by
  intro ps'
  induction ps' with
  | nil =>
    intro ps p1 _ hf _
    simp [mapFind] at hf
  | cons e' l' ih =>
    intro ps p1 h hf hq
    cases h with
    | cons he hl =>
      rename_i e l
      obtain ⟨k', v'⟩ := e'
      by_cases hk : k' = tok
      · simp only [mapFind, hk, if_true, Option.some.injEq] at hf
        subst hf
        simp only [mapAssign, hk, if_true]
        refine List.Forall₂.cons ?_ hl
        obtain ⟨h1, h2, _⟩ := he
        simp only at h1
        refine ⟨by simpa [hk] using h1, ParamHolder.same_static_trans _ _ _ h2 hq, ?_⟩
        intro hn
        rw [← h1, hk] at hn
        exact absurd htok hn
      · simp only [mapFind, hk, if_false] at hf
        simp only [mapAssign, hk, if_false]
        exact List.Forall₂.cons he (ih l p1 hl hf hq)

theorem parse_step_frame {F : FloatLib} (lang : LANG) (argv : List String) (i i' : Nat)
    (ps0 ps ps' : List (String × ParamHolder F)) (cerr cerr' : List String) (hi : 1 ≤ i)
    (h0 : List.Forall₂ (frame_entry argv.tail) ps0 ps)
    (h : parse_step lang argv i ps cerr = .ok (i', ps', cerr')) :
    List.Forall₂ (frame_entry argv.tail) ps0 ps' := by
  unfold parse_step at h
  split at h
  · cases h
  · rename_i tok htok
    split at h
    · rename_i p hfind
      split at h
      · cases h
      · rename_i i1 p1 cerr1 hrv
        cases h
        have hst := read_values_static lang argv tok p.nb_values p.nb_values 0 i p cerr _ hrv
        refine forall₂_mapAssign argv.tail tok _ (get?_mem_tail argv i tok hi htok) ps ps0 p h0
          hfind ?_
        exact ⟨hst.1, hst.2.1, hst.2.2.1, hst.2.2.2.1, hst.2.2.2.2.1, hst.2.2.2.2.2⟩
    · cases h
      exact h0

theorem parse_loop_frame {F : FloatLib} (lang : LANG) (argv : List String)
    (ps0 : List (String × ParamHolder F)) :
    ∀ (fuel i : Nat) (ps ps' : List (String × ParamHolder F)) (cerr cerr' : List String),
      1 ≤ i → List.Forall₂ (frame_entry argv.tail) ps0 ps →
      parse_loop lang argv fuel i ps cerr = .ok (ps', cerr') →
      List.Forall₂ (frame_entry argv.tail) ps0 ps' := by
  intro fuel
  induction fuel with
  | zero =>
    intro i ps ps' cerr cerr' _ h0 h
    simp only [parse_loop] at h
    split at h
    · cases h
    · cases h; exact h0
  | succ fuel ih =>
    intro i ps ps' cerr cerr' hi h0 h
    rw [parse_loop] at h
    split at h
    · split at h
      · cases h
      · rename_i i1 ps1 cerr1 hstep
        exact ih (i1 + 1) ps1 ps' cerr1 cerr' (by omega)
          (parse_step_frame lang argv i i1 ps0 ps ps1 cerr cerr1 hi h0 hstep) h
    · cases h; exact h0

theorem frame_entry_refl {F : FloatLib} (toks : List String)
    (ps : List (String × ParamHolder F)) : List.Forall₂ (frame_entry toks) ps ps := by
  induction ps with
  | nil => exact List.Forall₂.nil
  | cons e ps ih =>
    exact List.Forall₂.cons ⟨rfl, ParamHolder.same_static_refl _, fun _ => rfl⟩ ih

/-- The parameter map after a call of `parse_params` that returns, entry by entry. -/
theorem parse_params_entries {F : FloatLib} (s s' : Parameters F) (cerr : List String)
    (h : parse_params s = .ok (s', cerr)) :
    s' = { s with params := s'.params } ∧
      List.Forall₂ (frame_entry s.argv.tail) s.params s'.params := by
  unfold parse_params at h
  split at h
  · cases h
  · rename_i ps cerr1 hloop
    cases h
    exact ⟨rfl, parse_loop_frame s.lang s.argv s.params s.argv.length 1 s.params ps [] _
      (Nat.le_refl 1) (frame_entry_refl _ _) hloop⟩

theorem mapFind_mem {κ β : Type} [DecidableEq κ] (m : List (κ × β)) (k : κ) (v : β)
    (h : mapFind m k = some v) : (k, v) ∈ m := by
  induction m with
  | nil => simp [mapFind] at h
  | cons e m ih =>
    obtain ⟨k', w⟩ := e
    by_cases hk : k' = k
    · simp only [mapFind, hk, if_true, Option.some.injEq] at h
      simp [hk, h]
    · simp only [mapFind, hk, if_false] at h
      exact List.mem_cons_of_mem _ (ih h)

theorem forall₂_mapFind {F : FloatLib} (toks : List String) (key : String) :
    ∀ (ps' ps : List (String × ParamHolder F)) (p' : ParamHolder F),
      List.Forall₂ (frame_entry toks) ps ps' → mapFind ps' key = some p' →
      ∃ p, mapFind ps key = some p ∧ frame_entry toks (key, p) (key, p') := by
  intro ps'
  induction ps' with
  | nil =>
    intro ps p' _ hf
    simp [mapFind] at hf
  | cons e' l' ih =>
    intro ps p' h hf
    cases h with
    | cons he hl =>
      rename_i e l
      obtain ⟨k', v'⟩ := e'
      obtain ⟨k, v⟩ := e
      have hkk : k' = k := he.1
      subst hkk
      by_cases hk : k' = key
      · simp only [mapFind, hk, if_true, Option.some.injEq] at hf
        subst hf
        subst hk
        exact ⟨v, by simp [mapFind], he⟩
      · simp only [mapFind, hk, if_false] at hf
        obtain ⟨p, hp, hfr⟩ := ih l p' hl hf
        exact ⟨p, by simp [mapFind, hk, hp], hfr⟩

theorem forall₂_mem_right {F : FloatLib} (toks : List String) :
    ∀ (ps' ps : List (String × ParamHolder F)),
      List.Forall₂ (frame_entry toks) ps ps' →
      ∀ e' ∈ ps', ∃ e ∈ ps, frame_entry toks e e' := by
  intro ps'
  induction ps' with
  | nil =>
    intro ps _ e' he'
    simp at he'
  | cons a l' ih =>
    intro ps h e' he'
    cases h with
    | cons he hl =>
      rename_i e l
      rcases List.mem_cons.mp he' with rfl | hm
      · exact ⟨e, List.mem_cons_self _ _, he⟩
      · obtain ⟨x, hx, hfr⟩ := ih l hl e' hm
        exact ⟨x, List.mem_cons_of_mem _ hx, hfr⟩

/-- The parameter map after a build call: unchanged, or extended at the end by the
entry of the call under a key that was not there. -/
theorem apply_params_cases {F : FloatLib} (op : BuildOp F) (s : Parameters F) :
    (op.apply s).params = s.params ∨
      ∃ e, op.entry = some e ∧ mapFind s.params e.1 = none ∧
        (op.apply s).params = s.params ++ [e] := by
  cases op with
  | set_program_description d => exact Or.inl rfl
  | set_usage u => exact Or.inl rfl
  | insert_subsection t => exact Or.inl rfl
  | define_param n d =>
    cases hf : mapFind s.params ("--" ++ n) with
    | some p0 =>
      left
      simp [BuildOp.apply, define_param, mapCount_ne_zero _ _ _ hf]
    | none =>
      right
      refine ⟨_, rfl, hf, ?_⟩
      simp [BuildOp.apply, define_param, mapCount_eq_zero _ _ hf, mapInsert, hf]
  | define_num_str_param n names defaults d disp =>
    cases hf : mapFind s.params ("--" ++ n) with
    | some p0 =>
      left
      simp [BuildOp.apply, define_num_str_param, mapCount_ne_zero _ _ _ hf]
    | none =>
      right
      refine ⟨_, rfl, hf, ?_⟩
      simp [BuildOp.apply, define_num_str_param, mapCount_eq_zero _ _ hf, mapInsert, hf]
  | define_choice_param n vn dc ch d disp =>
    cases hf : mapFind s.params ("--" ++ n) with
    | some p0 =>
      left
      simp [BuildOp.apply, define_choice_param, mapCount_ne_zero _ _ _ hf]
    | none =>
      right
      refine ⟨_, rfl, hf, ?_⟩
      simp [BuildOp.apply, define_choice_param, mapCount_eq_zero _ _ hf, mapInsert, hf]

theorem apply_argv {F : FloatLib} (op : BuildOp F) (s : Parameters F) :
    (op.apply s).argv = s.argv := by
  cases op <;> simp only [BuildOp.apply, set_program_description, set_usage,
    insert_subsection, define_param, define_num_str_param, define_choice_param] <;>
    (try split) <;> rfl

theorem build_argv {F : FloatLib} (ops : List (BuildOp F)) :
    ∀ s : Parameters F, (build ops s).argv = s.argv := by
  induction ops with
  | nil => intro s; rfl
  | cons op ops ih =>
    intro s
    simp only [build, List.foldl_cons] at ih ⊢
    rw [ih (op.apply s), apply_argv]

/-- A property of the entries that every new entry has holds for every entry after a
sequence of build calls. -/
theorem build_entries {F : FloatLib} (Q : String × ParamHolder F → Prop)
    (hnew : ∀ (op : BuildOp F) e, op.entry = some e → Q e) (ops : List (BuildOp F)) :
    ∀ s : Parameters F, (∀ e ∈ s.params, Q e) → ∀ e ∈ (build ops s).params, Q e := by
  induction ops with
  | nil => intro s h; exact h
  | cons op ops ih =>
    intro s h
    simp only [build, List.foldl_cons] at ih ⊢
    apply ih (op.apply s)
    intro e he
    rcases apply_params_cases op s with hp | ⟨e0, he0, _, hp⟩
    · rw [hp] at he; exact h e he
    · rw [hp] at he
      rcases List.mem_append.mp he with hm | hm
      · exact h e hm
      · simp only [List.mem_singleton] at hm
        subst hm
        exact hnew op e he0

theorem entry_untouched {F : FloatLib} (op : BuildOp F) (e : String × ParamHolder F)
    (h : op.entry = some e) : e.2.is_defined = false ∧ e.2.store.at_default := by
  cases op with
  | set_program_description d => simp [BuildOp.entry] at h
  | set_usage u => simp [BuildOp.entry] at h
  | insert_subsection t => simp [BuildOp.entry] at h
  | define_param n d =>
    simp only [BuildOp.entry, Option.some.injEq] at h
    subst h
    exact ⟨rfl, rfl⟩
  | define_num_str_param n names defaults d disp =>
    simp only [BuildOp.entry, Option.some.injEq] at h
    subst h
    refine ⟨rfl, ?_⟩
    cases defaults <;> simp [Param.withValues, Store.at_default]
  | define_choice_param n vn dc ch d disp =>
    simp only [BuildOp.entry, Option.some.injEq] at h
    subst h
    exact ⟨rfl, rfl⟩

/-! ## The claims on the frame and the invariants of the registry -/

/-- C12: a call of `parse_params` that returns leaves every member of the object
other than the parameter map as it was (insertion order, subsections, choices); the
map keeps its keys, and every holder keeps its name, description, names of values,
type and default values; a holder whose key is none of the tokens after the program
name is unchanged, so after a sequence of build calls it is still not defined with
its current values equal to the defaults; `--mode` with choices `fast` and `slow`,
default `fast`, parsed with no matching token, has `cho_val` equal to `fast`. -/
theorem parse_params_frame {F : FloatLib} :
    (∀ (s s' : Parameters F) (cerr : List String), parse_params s = .ok (s', cerr) →
      s' = { s with params := s'.params } ∧
      List.Forall₂ (frame_entry s.argv.tail) s.params s'.params) ∧
    (∀ (ops : List (BuildOp F)) (argv : List String) (c : config) (s' : Parameters F)
      (cerr : List String),
      parse_params (build ops (Parameters.init F argv c)) = .ok (s', cerr) →
      ∀ (key : String) (p' : ParamHolder F), mapFind s'.params key = some p' →
        key ∉ argv.tail →
        mapFind (build ops (Parameters.init F argv c)).params key = some p' ∧
          p'.is_defined = false ∧ p'.store.at_default) ∧
    (∃ s', parse_params (modeRegistry ["prog", "--verbose"])
        = .ok (s', ["unknown parameter \"--verbose\"\n"]) ∧
      cho_val s' "mode" = .ok "fast" ∧ is_def s' "mode" = .ok false) := by
  refine ⟨fun s s' cerr h => parse_params_entries s s' cerr h, ?_, ⟨_, rfl, rfl, rfl⟩⟩
  intro ops argv c s' cerr h key p' hfind hkey
  obtain ⟨_, hfr⟩ := parse_params_entries _ s' cerr h
  rw [build_argv] at hfr
  obtain ⟨p, hp, _, _, hsame⟩ := forall₂_mapFind _ key _ _ p' hfr hfind
  have hpp : p' = p := hsame hkey
  subst hpp
  refine ⟨hp, ?_⟩
  exact build_entries (fun e => e.2.is_defined = false ∧ e.2.store.at_default)
    (fun op e he => entry_untouched op e he) ops (Parameters.init F argv c)
    (by intro e he; simp [Parameters.init] at he) (key, p') (mapFind_mem _ _ _ hp)

/-- Witness of C12: `--count 5` parsed on the registry built by `define_param` for
`--help` and `define_num_str_param` for `--count`; the flag is none of the tokens and
is unchanged, not defined. -/
theorem parse_params_frame_witness :
    parse_params (build
        [.define_param "help" "print this menu",
          .define_num_str_param "count" ["n"] (.int [0]) "number of items" false]
        (Parameters.init FloatLib.integral ["prog", "--count", "5"] cfg80))
      = .ok ((flagRegistry ["prog", "--count", "5"]).with_param "--count"
          { (Param.withValues "--count" "number of items" ["n"] (.int [0]) false :
              ParamHolder FloatLib.integral) with
            is_defined := true, store := .int [5] [0] }, []) ∧
    mapFind (flagRegistry ["prog", "--count", "5"]).params "--help"
      = some (Param.flag "--help" "print this menu") ∧
    (Param.flag "--help" "print this menu" : ParamHolder FloatLib.integral).is_defined
      = false :=
  have h := (@parse_params_frame FloatLib.integral).2.1
    [.define_param "help" "print this menu",
      .define_num_str_param "count" ["n"] (.int [0]) "number of items" false]
    ["prog", "--count", "5"] cfg80
    ((flagRegistry ["prog", "--count", "5"]).with_param "--count"
      { (Param.withValues "--count" "number of items" ["n"] (.int [0]) false :
          ParamHolder FloatLib.integral) with
        is_defined := true, store := .int [5] [0] }) [] rfl
    "--help" (Param.flag "--help" "print this menu") rfl (by decide)
  ⟨rfl, h.1, h.2.1⟩

/-! ## Lemmas on the values a matched parameter takes -/

theorem Store.same_shape_size {F : FloatLib} (a b : Store F) (h : a.same_shape b) :
    a.size = b.size := by
  cases a <;> cases b <;> simp only [Store.same_shape] at h <;> exact h.2

/-- A property of the entries that every new entry has and that a call of
`parse_params` keeps holds for every entry of a reachable state. -/
theorem reachable_entries {F : FloatLib} (allowed : BuildOp F → Prop)
    (Q : String × ParamHolder F → Prop)
    (hnew : ∀ (op : BuildOp F) e, allowed op → op.entry = some e → Q e)
    (hparse : ∀ (toks : List String) e e', frame_entry toks e e' → Q e → Q e')
    (s : Parameters F) (h : Reachable allowed s) : ∀ e ∈ s.params, Q e := by
  induction h with
  | init argv c =>
    intro e he
    simp [Parameters.init] at he
  | @build op s0 hop _ ih =>
    intro e he
    rcases apply_params_cases op s0 with hp | ⟨e0, he0, _, hp⟩
    · rw [hp] at he; exact ih e he
    · rw [hp] at he
      rcases List.mem_append.mp he with hm | hm
      · exact ih e hm
      · simp only [List.mem_singleton] at hm
        subst hm
        exact hnew op e hop he0
  | @parse s0 s1 cerr _ hp ih =>
    intro e' he'
    obtain ⟨_, hfr⟩ := parse_params_entries s0 s1 cerr hp
    obtain ⟨e, he, hfe⟩ := forall₂_mem_right _ _ _ hfr e' he'
    exact hparse _ e e' hfe (ih e he)

theorem entry_name {F : FloatLib} (op : BuildOp F) (e : String × ParamHolder F)
    (h : op.entry = some e) : e.2.name = e.1 := by
  cases op <;> simp only [BuildOp.entry, Option.some.injEq] at h <;> first
    | (subst h; rfl)
    | exact absurd h (by simp)

/-! ## The claim on the values of a matched parameter -/

theorem Store.same_shape_def_size {F : FloatLib} (a b : Store F) (h : a.same_shape b) :
    a.def_size = b.def_size := by
  cases a <;> cases b <;> simp only [Store.same_shape] at h <;>
    simp [Store.def_size, h.1]

theorem same_static_type_name {F : FloatLib} (p q : ParamHolder F) (h : p.same_static q) :
    p.type_name = q.type_name := by
  have hs := h.2.2.2.2.2
  unfold ParamHolder.type_name
  cases hp : p.store <;> cases hq : q.store <;> simp [hp, hq, Store.same_shape] at hs ⊢

/-- Counterexample of C14: after `define_num_str_param` with two names of values and
one default value, the reachable registry has a parameter with two slot names, one
current value and one default value; `parse_params` then writes `values[1]` of a
vector of one element. -/
theorem reachable_unbalanced :
    Reachable BuildOp.any (unbalancedRegistry ["prog", "--pair", "3", "4"]) ∧
    (mapFind (unbalancedRegistry ["prog", "--pair", "3", "4"]).params "--pair").map
      (fun p => (p.values_names.length, p.nb_values, p.store.size, p.store.def_size))
      = some (2, 2, 1, 1) ∧
    parse_params (unbalancedRegistry ["prog", "--pair", "3", "4"])
      = .error (.undefined (.vector_index 1 1)) :=
  ⟨Reachable.build (.define_num_str_param "pair" ["a", "b"] (.int [1]) "two numbers" false)
      trivial (Reachable.init _ _), rfl, rfl⟩

/-- C14, amended: in every reachable state every parameter holds as many default
values as current values and its arity is the number of its slot names (all are 0 for
a flag); when every call of `define_num_str_param` was given as many default values as
slot names, the three lengths are equal. -/
theorem reachable_lengths {F : FloatLib} :
    (∀ s : Parameters F, Reachable BuildOp.any s →
      ∀ (key : String) (p : ParamHolder F), mapFind s.params key = some p →
        p.store.def_size = p.store.size ∧ p.values_names.length = p.nb_values ∧
        (p.type_name = .bool →
          p.values_names.length = 0 ∧ p.store.size = 0 ∧ p.store.def_size = 0)) ∧
    (∀ s : Parameters F, Reachable BuildOp.balanced s →
      ∀ (key : String) (p : ParamHolder F), mapFind s.params key = some p →
        p.store.def_size = p.store.size ∧ p.store.size = p.values_names.length ∧
        p.values_names.length = p.nb_values) := by
  constructor
  · intro s hs key p hfind
    exact reachable_entries BuildOp.any
      (fun e => e.2.store.def_size = e.2.store.size ∧ e.2.values_names.length = e.2.nb_values ∧
        (e.2.type_name = .bool →
          e.2.values_names.length = 0 ∧ e.2.store.size = 0 ∧ e.2.store.def_size = 0))
      (fun op e _ he => by
        cases op with
        | set_program_description d => simp [BuildOp.entry] at he
        | set_usage u => simp [BuildOp.entry] at he
        | insert_subsection t => simp [BuildOp.entry] at he
        | define_param n d =>
          simp only [BuildOp.entry, Option.some.injEq] at he
          subst he
          exact ⟨rfl, rfl, fun _ => ⟨rfl, rfl, rfl⟩⟩
        | define_num_str_param n names defaults d disp =>
          simp only [BuildOp.entry, Option.some.injEq] at he
          subst he
          cases defaults <;>
            simp [Param.withValues, Store.def_size, Store.size, ParamHolder.type_name]
        | define_choice_param n vn dc ch d disp =>
          simp only [BuildOp.entry, Option.some.injEq] at he
          subst he
          simp [Param.withValues, Store.def_size, Store.size, ParamHolder.type_name])
      (fun toks e e' hfe hq => by
        obtain ⟨_, h2, _⟩ := hfe
        have hsz := Store.same_shape_size _ _ h2.2.2.2.2.2
        have hdz := Store.same_shape_def_size _ _ h2.2.2.2.2.2
        have htn := same_static_type_name _ _ h2
        rw [← hsz, ← hdz, ← h2.2.2.1, ← h2.2.2.2.1, ← htn]
        exact hq)
      s hs (key, p) (mapFind_mem _ _ _ hfind)
  · intro s hs key p hfind
    exact reachable_entries BuildOp.balanced
      (fun e => e.2.store.def_size = e.2.store.size ∧
        e.2.store.size = e.2.values_names.length ∧ e.2.values_names.length = e.2.nb_values)
      (fun op e hop he => by
        cases op with
        | set_program_description d => simp [BuildOp.entry] at he
        | set_usage u => simp [BuildOp.entry] at he
        | insert_subsection t => simp [BuildOp.entry] at he
        | define_param n d =>
          simp only [BuildOp.entry, Option.some.injEq] at he
          subst he
          exact ⟨rfl, rfl, rfl⟩
        | define_num_str_param n names defaults d disp =>
          simp only [BuildOp.entry, Option.some.injEq] at he
          subst he
          simp only [BuildOp.balanced] at hop
          cases defaults <;>
            simp [Param.withValues, Store.def_size, Store.size, Defaults.length] at hop ⊢ <;>
            omega
        | define_choice_param n vn dc ch d disp =>
          simp only [BuildOp.entry, Option.some.injEq] at he
          subst he
          simp [Param.withValues, Store.def_size, Store.size])
      (fun toks e e' hfe hq => by
        obtain ⟨_, h2, _⟩ := hfe
        have hsz := Store.same_shape_size _ _ h2.2.2.2.2.2
        have hdz := Store.same_shape_def_size _ _ h2.2.2.2.2.2
        rw [← hsz, ← hdz, ← h2.2.2.1, ← h2.2.2.2.1]
        exact hq)
      s hs (key, p) (mapFind_mem _ _ _ hfind)

/-- Witness of C14, amended: the registry of `--count`, defined with one name and one
default value and parsed from `["prog", "--count", "5"]`. -/
theorem reachable_lengths_witness :
    Reachable BuildOp.balanced ((countRegistry ["prog", "--count", "5"]).with_param "--count"
      { (Param.withValues "--count" "number of items" ["n"] (.int [0]) false :
          ParamHolder FloatLib.integral) with
        is_defined := true, store := .int [5] [0] }) ∧
    (Store.int [5] [0] : Store FloatLib.integral).def_size = 1 ∧
    (Store.int [5] [0] : Store FloatLib.integral).size = 1 :=
  have hr : Reachable BuildOp.balanced
      ((countRegistry ["prog", "--count", "5"]).with_param "--count"
        { (Param.withValues "--count" "number of items" ["n"] (.int [0]) false :
            ParamHolder FloatLib.integral) with
          is_defined := true, store := .int [5] [0] }) :=
    Reachable.parse
      (Reachable.build (.define_num_str_param "count" ["n"] (.int [0]) "number of items" false)
        rfl (Reachable.init ["prog", "--count", "5"] cfg80))
      (show parse_params (countRegistry ["prog", "--count", "5"]) = .ok (_, []) from rfl)
  have h := (@reachable_lengths FloatLib.integral).2 _ hr "--count"
    { (Param.withValues "--count" "number of items" ["n"] (.int [0]) false :
        ParamHolder FloatLib.integral) with
      is_defined := true, store := .int [5] [0] } rfl
  ⟨hr, h.1.trans h.2.1, h.2.1⟩

theorem mapFind_append_some {κ β : Type} [DecidableEq κ] (m m' : List (κ × β)) (k : κ) (v : β)
    (h : mapFind m k = some v) : mapFind (m ++ m') k = some v := by
  induction m with
  | nil => simp [mapFind] at h
  | cons e m ih =>
    obtain ⟨k', w⟩ := e
    by_cases hk : k' = k
    · simpa [mapFind, hk] using h
    · simp only [mapFind, hk, if_false] at h
      simp [mapFind, hk, ih h]

theorem mapFind_append_ne {κ β : Type} [DecidableEq κ] (m : List (κ × β)) (k key : κ) (v : β)
    (h : mapFind m key = none) (hne : key ≠ k) : mapFind (m ++ [(k, v)]) key = none := by
  induction m with
  | nil =>
    have : ¬ k = key := fun hh => hne hh.symm
    simp [mapFind, this]
  | cons e m ih =>
    obtain ⟨k', w⟩ := e
    by_cases hk : k' = key
    · simp [mapFind, hk] at h
    · simp only [mapFind, hk, if_false] at h
      simp [mapFind, hk, ih h]

theorem mapFind_mapInsert_some {κ β : Type} [DecidableEq κ] (m : List (κ × β)) (k k' : κ)
    (v v' : β) (h : mapFind m k = some v) : mapFind (mapInsert m k' v') k = some v := by
  unfold mapInsert
  split
  · exact h
  · exact mapFind_append_some m _ k v h

theorem forall₂_mapFind_left {F : FloatLib} (toks : List String) (key : String) :
    ∀ (ps ps' : List (String × ParamHolder F)) (p : ParamHolder F),
      List.Forall₂ (frame_entry toks) ps ps' → mapFind ps key = some p →
      ∃ p', mapFind ps' key = some p' ∧ frame_entry toks (key, p) (key, p') := by
  intro ps
  induction ps with
  | nil =>
    intro ps' p _ hf
    simp [mapFind] at hf
  | cons e l ih =>
    intro ps' p h hf
    cases h with
    | cons he hl =>
      rename_i e' l'
      obtain ⟨k', v'⟩ := e'
      obtain ⟨k, v⟩ := e
      have hkk : k' = k := he.1
      subst hkk
      by_cases hk : k' = key
      · simp only [mapFind, hk, if_true, Option.some.injEq] at hf
        subst hf
        subst hk
        exact ⟨v', by simp [mapFind], he⟩
      · simp only [mapFind, hk, if_false] at hf
        obtain ⟨p', hp, hfr⟩ := ih l' p hl hf
        exact ⟨p', by simp [mapFind, hk, hp], hfr⟩

/-- The choice tables and the set of choice parameters after a build call: unchanged,
or extended by an accepted call of `define_choice_param`. -/
theorem apply_choice_cases {F : FloatLib} (op : BuildOp F) (s : Parameters F) :
    ((op.apply s).choices = s.choices ∧ (op.apply s).choices_params = s.choices_params) ∨
      ∃ n vn dc ch d disp, op = .define_choice_param n vn dc ch d disp ∧
        mapFind s.params ("--" ++ n) = none ∧
        (op.apply s).choices
          = mapInsert s.choices ("--" ++ n) (ch.map (fun p => (p.1, p.2 ++ " "))) ∧
        (op.apply s).choices_params = setInsert s.choices_params ("--" ++ n) ∧
        (op.apply s).params
          = s.params ++ [("--" ++ n, Param.withValues ("--" ++ n) d [vn] (.string [dc]) disp)] := by
  cases op with
  | set_program_description d => exact Or.inl ⟨rfl, rfl⟩
  | set_usage u => exact Or.inl ⟨rfl, rfl⟩
  | insert_subsection t => exact Or.inl ⟨rfl, rfl⟩
  | define_param n d =>
    left
    simp only [BuildOp.apply, define_param]
    split <;> exact ⟨rfl, rfl⟩
  | define_num_str_param n names defaults d disp =>
    left
    simp only [BuildOp.apply, define_num_str_param]
    split <;> exact ⟨rfl, rfl⟩
  | define_choice_param n vn dc ch d disp =>
    cases hf : mapFind s.params ("--" ++ n) with
    | some p0 =>
      left
      simp [BuildOp.apply, define_choice_param, mapCount_ne_zero _ _ _ hf]
    | none =>
      right
      refine ⟨n, vn, dc, ch, d, disp, rfl, hf, ?_, ?_, ?_⟩ <;>
        simp [BuildOp.apply, define_choice_param, mapCount_eq_zero _ _ hf, mapInsert, hf]

/-- In a reachable state every choice parameter is in the state `choice_state`, and
every choice table belongs to a choice parameter. -/
theorem reachable_choice_state {F : FloatLib} (allowed : BuildOp F → Prop)
    (P : String → vec_choices → Prop)
    (hP : ∀ n vn dc ch d disp, allowed (.define_choice_param n vn dc ch d disp) →
      P dc (ch.map (fun p => (p.1, p.2 ++ " "))))
    (s : Parameters F) (h : Reachable allowed s) :
    (∀ key ∈ s.choices_params, choice_state P s key) ∧
      (∀ key table, mapFind s.choices key = some table → key ∈ s.choices_params) := by
  induction h with
  | init argv c =>
    constructor
    · intro key hk
      simp [Parameters.init] at hk
    · intro key table hk
      simp [Parameters.init, mapFind] at hk
  | @build op s0 hop _ ih =>
    obtain ⟨ih1, ih2⟩ := ih
    rcases apply_choice_cases op s0 with ⟨hc, hcp⟩ | ⟨n, vn, dc, ch, d, disp, hop', hfresh, hc, hcp, hpar⟩
    · constructor
      · intro key hk
        rw [hcp] at hk
        obtain ⟨p, table, v, dd, h1, h2, h3⟩ := ih1 key hk
        refine ⟨p, table, v, dd, ?_, by rw [hc]; exact h2, h3⟩
        rcases apply_params_cases op s0 with hp | ⟨e0, _, _, hp⟩
        · rw [hp]; exact h1
        · rw [hp]; exact mapFind_append_some _ _ _ _ h1
      · intro key table hk
        rw [hc] at hk
        rw [hcp]
        exact ih2 key table hk
    · subst hop'
      have hnotin : ("--" ++ n) ∉ s0.choices_params := by
        intro hin
        obtain ⟨p, _, _, _, h1, _⟩ := ih1 _ hin
        rw [hfresh] at h1
        exact absurd h1 (by simp)
      have hnochoice : mapFind s0.choices ("--" ++ n) = none := by
        cases hh : mapFind s0.choices ("--" ++ n) with
        | none => rfl
        | some t => exact absurd (ih2 _ t hh) hnotin
      constructor
      · intro key hk
        rw [hcp] at hk
        simp only [setInsert, hnotin, if_false, List.mem_append, List.mem_singleton] at hk
        rcases hk with hk | hk
        · obtain ⟨p, table, v, dd, h1, h2, h3⟩ := ih1 key hk
          refine ⟨p, table, v, dd, ?_, ?_, h3⟩
          · rw [hpar]; exact mapFind_append_some _ _ _ _ h1
          · rw [hc]; exact mapFind_mapInsert_some _ _ _ _ _ h2
        · subst hk
          refine ⟨Param.withValues ("--" ++ n) d [vn] (.string [dc]) disp, _, dc, dc, ?_, ?_,
            rfl, rfl, rfl, hP n vn dc ch d disp hop⟩
          · rw [hpar]; exact mapFind_append_new _ _ _ hfresh
          · rw [hc]; exact mapFind_mapInsert_new _ _ _ hnochoice
      · intro key table hk
        rw [hc] at hk
        rw [hcp]
        simp only [setInsert, hnotin, if_false, List.mem_append, List.mem_singleton]
        simp only [mapInsert, hnochoice] at hk
        by_cases hkey : key = "--" ++ n
        · exact Or.inr hkey
        · left
          cases hold : mapFind s0.choices key with
          | some t => exact ih2 key t hold
          | none =>
            exfalso
            have : mapFind (s0.choices ++ [("--" ++ n, ch.map (fun p => (p.1, p.2 ++ " ")))]) key
                = none := mapFind_append_ne _ _ _ _ hold hkey
            rw [this] at hk
            exact absurd hk (by simp)
  | @parse s0 s1 cerr _ hp ih =>
    obtain ⟨ih1, ih2⟩ := ih
    obtain ⟨heq, hfr⟩ := parse_params_entries s0 s1 cerr hp
    have hc : s1.choices = s0.choices := by rw [heq]
    have hcp : s1.choices_params = s0.choices_params := by rw [heq]
    constructor
    · intro key hk
      rw [hcp] at hk
      obtain ⟨p, table, v, dd, h1, h2, h3, h4, h5, h6⟩ := ih1 key hk
      obtain ⟨p', hp', _, hst, _⟩ := forall₂_mapFind_left _ key _ _ p hfr h1
      simp only at hst
      have hshape := hst.2.2.2.2.2
      rw [h5] at hshape
      cases hs' : p'.store with
      | string v' d' =>
        rw [hs'] at hshape
        simp only [Store.same_shape, List.length_singleton] at hshape
        obtain ⟨x, hx⟩ := List.length_eq_one.mp hshape.2.symm
        refine ⟨p', table, x, dd, hp', by rw [hc]; exact h2, by rw [← hst.2.2.1]; exact h3,
          by rw [← hst.2.2.2.1]; exact h4, ?_, h6⟩
        rw [hs', hx, ← hshape.1]
      | bool v' d' => rw [hs'] at hshape; simp [Store.same_shape] at hshape
      | int v' d' => rw [hs'] at hshape; simp [Store.same_shape] at hshape
      | double v' d' => rw [hs'] at hshape; simp [Store.same_shape] at hshape
      | long_double v' d' => rw [hs'] at hshape; simp [Store.same_shape] at hshape
    · intro key table hk
      rw [hc] at hk
      rw [hcp]
      exact ih2 key table hk

/-- Counterexample of C15: `define_choice_param` accepts the default choice `turbo`
with the choices `fast` and `slow`; the reachable registry has the choice parameter
`--mode` with default `turbo`, which is no label of its table. -/
theorem reachable_default_not_listed :
    Reachable BuildOp.any turboRegistry ∧
    "--mode" ∈ turboRegistry.choices_params ∧
    mapFind turboRegistry.params "--mode"
      = some (Param.withValues "--mode" "the mode" ["m"] (.string ["turbo"]) true) ∧
    mapFind turboRegistry.choices "--mode" = some [("fast", "go fast "), ("slow", "go slow ")] ∧
    "turbo" ∉ [("fast", "go fast "), ("slow", "go slow ")].map Prod.fst :=
  ⟨Reachable.build (.define_choice_param "mode" "m" "turbo"
      [("fast", "go fast"), ("slow", "go slow")] "the mode" true) trivial (Reachable.init _ _),
    by decide, rfl, rfl, by decide⟩

/-- C15, amended: in every reachable state each choice parameter has arity 1, one name
of value, one current value, one default value and a choice table; the default is a
label of the table when every call of `define_choice_param` was given a default choice
that is one of its labels. -/
theorem reachable_choice_params {F : FloatLib} :
    (∀ s : Parameters F, Reachable BuildOp.any s →
      ∀ key ∈ s.choices_params, choice_state (fun _ _ => True) s key) ∧
    (∀ s : Parameters F, Reachable BuildOp.default_listed s →
      ∀ key ∈ s.choices_params,
        choice_state (fun d table => d ∈ table.map Prod.fst) s key) := by
  constructor
  · intro s hs
    exact (reachable_choice_state BuildOp.any (fun _ _ => True)
      (fun _ _ _ _ _ _ _ => trivial) s hs).1
  · intro s hs
    refine (reachable_choice_state BuildOp.default_listed
      (fun d table => d ∈ table.map Prod.fst) ?_ s hs).1
    intro n vn dc ch d disp hop
    simp only [BuildOp.default_listed] at hop
    simpa [List.map_map, Function.comp] using hop

/-- Witness of C15, amended: the registry of `--mode` with choices `fast` and `slow`
and default `fast`. -/
theorem reachable_choice_params_witness :
    Reachable BuildOp.default_listed (modeRegistry []) ∧
    "--mode" ∈ (modeRegistry []).choices_params ∧
    choice_state (fun d table => d ∈ table.map Prod.fst) (modeRegistry []) "--mode" :=
  have hr : Reachable BuildOp.default_listed (modeRegistry []) :=
    Reachable.build (.define_choice_param "mode" "m" "fast"
      [("fast", "go fast"), ("slow", "go slow")] "the mode" false)
      (show "fast" ∈ [("fast", "go fast"), ("slow", "go slow")].map Prod.fst from by decide)
      (Reachable.init [] cfg80)
  ⟨hr, by decide, (@reachable_choice_params FloatLib.integral).2 _ hr "--mode" (by decide)⟩

/-! ## The claim on the configuration -/

theorem store_value_lang {F : FloatLib} (l1 l2 : LANG) (tok : String) (p : ParamHolder F)
    (j : Nat) (w : String) (c1 c2 : List String) :
    (∃ e, store_value l1 tok p j w c1 = .error e ∧ store_value l2 tok p j w c2 = .error e) ∨
      ∃ p' c1' c2', store_value l1 tok p j w c1 = .ok (p', c1') ∧
        store_value l2 tok p j w c2 = .ok (p', c2') := by
  unfold store_value
  cases p.store with
  | bool v d => exact Or.inr ⟨_, _, _, rfl, rfl⟩
  | int v d =>
    simp only
    cases stoi w with
    | none => exact Or.inr ⟨_, _, _, rfl, rfl⟩
    | some x =>
      simp only
      split
      · exact Or.inr ⟨_, _, _, rfl, rfl⟩
      · exact Or.inl ⟨_, rfl, rfl⟩
  | double v d =>
    simp only
    cases F.stod w with
    | none => exact Or.inr ⟨_, _, _, rfl, rfl⟩
    | some x =>
      simp only
      split
      · exact Or.inr ⟨_, _, _, rfl, rfl⟩
      · exact Or.inl ⟨_, rfl, rfl⟩
  | long_double v d =>
    simp only
    cases F.stold w with
    | none => exact Or.inr ⟨_, _, _, rfl, rfl⟩
    | some x =>
      simp only
      split
      · exact Or.inr ⟨_, _, _, rfl, rfl⟩
      · exact Or.inl ⟨_, rfl, rfl⟩
  | string v d =>
    simp only
    split
    · exact Or.inr ⟨_, _, _, rfl, rfl⟩
    · exact Or.inl ⟨_, rfl, rfl⟩

theorem read_values_lang {F : FloatLib} (l1 l2 : LANG) (argv : List String) (tok : String)
    (nbv : Nat) :
    ∀ (n j i : Nat) (p : ParamHolder F) (c1 c2 : List String),
      (∃ e, read_values l1 argv tok nbv n j i p c1 = .error e ∧
        read_values l2 argv tok nbv n j i p c2 = .error e) ∨
      ∃ i' p' c1' c2', read_values l1 argv tok nbv n j i p c1 = .ok (i', p', c1') ∧
        read_values l2 argv tok nbv n j i p c2 = .ok (i', p', c2') := by
  intro n
  induction n with
  | zero =>
    intro j i p c1 c2
    exact Or.inr ⟨_, _, _, _, rfl, rfl⟩
  | succ n ih =>
    intro j i p c1 c2
    simp only [read_values]
    split
    · cases argv.get? (i + 1) with
      | none => exact Or.inl ⟨_, rfl, rfl⟩
      | some w =>
        simp only
        rcases store_value_lang l1 l2 tok p j w c1 c2 with ⟨e, h1, h2⟩ | ⟨p', c1', c2', h1, h2⟩
        · rw [h1, h2]; exact Or.inl ⟨_, rfl, rfl⟩
        · rw [h1, h2]; exact ih (j + 1) (i + 1) p' c1' c2'
    · exact ih (j + 1) (i + 1) p _ _

theorem parse_step_lang {F : FloatLib} (l1 l2 : LANG) (argv : List String) (i : Nat)
    (params : List (String × ParamHolder F)) (c1 c2 : List String) :
    (∃ e, parse_step l1 argv i params c1 = .error e ∧
      parse_step l2 argv i params c2 = .error e) ∨
      ∃ i' params' c1' c2', parse_step l1 argv i params c1 = .ok (i', params', c1') ∧
        parse_step l2 argv i params c2 = .ok (i', params', c2') := by
  unfold parse_step
  cases argv.get? i with
  | none => exact Or.inl ⟨_, rfl, rfl⟩
  | some tok =>
    simp only
    cases mapFind params tok with
    | none => exact Or.inr ⟨_, _, _, _, rfl, rfl⟩
    | some p =>
      simp only
      rcases read_values_lang l1 l2 argv tok p.nb_values p.nb_values 0 i p c1 c2 with
        ⟨e, h1, h2⟩ | ⟨i', p', c1', c2', h1, h2⟩
      · rw [h1, h2]; exact Or.inl ⟨_, rfl, rfl⟩
      · rw [h1, h2]; exact Or.inr ⟨_, _, _, _, rfl, rfl⟩

theorem parse_loop_lang {F : FloatLib} (l1 l2 : LANG) (argv : List String) :
    ∀ (fuel i : Nat) (params : List (String × ParamHolder F)) (c1 c2 : List String),
      (∃ e, parse_loop l1 argv fuel i params c1 = .error e ∧
        parse_loop l2 argv fuel i params c2 = .error e) ∨
      ∃ params' c1' c2', parse_loop l1 argv fuel i params c1 = .ok (params', c1') ∧
        parse_loop l2 argv fuel i params c2 = .ok (params', c2') := by
  intro fuel
  induction fuel with
  | zero =>
    intro i params c1 c2
    simp only [parse_loop]
    split
    · exact Or.inl ⟨_, rfl, rfl⟩
    · exact Or.inr ⟨_, _, _, rfl, rfl⟩
  | succ fuel ih =>
    intro i params c1 c2
    simp only [parse_loop]
    split
    · rcases parse_step_lang l1 l2 argv i params c1 c2 with
        ⟨e, h1, h2⟩ | ⟨i', params', c1', c2', h1, h2⟩
      · rw [h1, h2]; exact Or.inl ⟨_, rfl, rfl⟩
      · rw [h1, h2]; exact ih (i' + 1) params' c1' c2'
    · exact Or.inr ⟨_, _, _, rfl, rfl⟩

theorem apply_params_eq {F : FloatLib} (op : BuildOp F) (s1 s2 : Parameters F)
    (h : s1.params = s2.params) : (op.apply s1).params = (op.apply s2).params := by
  cases op with
  | set_program_description d => exact h
  | set_usage u => exact h
  | insert_subsection t => exact h
  | define_param n d =>
    simp only [BuildOp.apply, define_param, h]
    split <;> simp [h]
  | define_num_str_param n names defaults d disp =>
    simp only [BuildOp.apply, define_num_str_param, h]
    split <;> simp [h]
  | define_choice_param n vn dc ch d disp =>
    simp only [BuildOp.apply, define_choice_param, h]
    split <;> simp [h]

theorem build_params_eq {F : FloatLib} (ops : List (BuildOp F)) :
    ∀ s1 s2 : Parameters F, s1.params = s2.params →
      (build ops s1).params = (build ops s2).params := by
  induction ops with
  | nil => intro s1 s2 h; exact h
  | cons op ops ih =>
    intro s1 s2 h
    simp only [build, List.foldl_cons] at ih ⊢
    exact ih _ _ (apply_params_eq op s1 s2 h)

/-- C19: two objects constructed on the same `argv` with any two configurations and
taken through the same build calls have the same parameter map, and `parse_params`
on them stops at the same undefined operation or returns the same parameter map (the
same current values and defined flags); on `["prog", "--count", "x"]` the English and
the French configuration give the same map and diagnostics in their language. -/
theorem parse_params_config_independent {F : FloatLib} :
    (∀ (ops : List (BuildOp F)) (argv : List String) (c1 c2 : config),
      (build ops (Parameters.init F argv c1)).params
        = (build ops (Parameters.init F argv c2)).params ∧
      ((∃ e, parse_params (build ops (Parameters.init F argv c1)) = .error e ∧
          parse_params (build ops (Parameters.init F argv c2)) = .error e) ∨
        ∃ s1 s2 cerr1 cerr2,
          parse_params (build ops (Parameters.init F argv c1)) = .ok (s1, cerr1) ∧
          parse_params (build ops (Parameters.init F argv c2)) = .ok (s2, cerr2) ∧
          s1.params = s2.params)) ∧
    (∃ s1 s2,
      parse_params (build [.define_num_str_param "count" ["n"] (.int [0]) "items" false]
          (Parameters.init FloatLib.integral ["prog", "--count", "x"] cfg80))
        = .ok (s1, ["parameter \"--count\" expects an integer value, received \"x\""]) ∧
      parse_params (build [.define_num_str_param "count" ["n"] (.int [0]) "items" false]
          (Parameters.init FloatLib.integral ["prog", "--count", "x"] cfg40fr))
        = .ok (s2, ["le paramètre \"--count\" attend une valeur entière, et a reçu \"x\""]) ∧
      s1.params = s2.params ∧ is_def s1 "count" = .ok true ∧
      num_val s2 "count" 1 = .ok (.int 0)) := by
  refine ⟨?_, ⟨_, _, rfl, rfl, rfl, rfl, rfl⟩⟩
  intro ops argv c1 c2
  have hp := build_params_eq ops (Parameters.init F argv c1) (Parameters.init F argv c2) rfl
  have ha1 := build_argv ops (Parameters.init F argv c1)
  have ha2 := build_argv ops (Parameters.init F argv c2)
  have ha : (build ops (Parameters.init F argv c1)).argv
      = (build ops (Parameters.init F argv c2)).argv := by rw [ha1, ha2]; rfl
  refine ⟨hp, ?_⟩
  unfold parse_params
  rw [ha, hp]
  rcases parse_loop_lang (build ops (Parameters.init F argv c1)).lang
      (build ops (Parameters.init F argv c2)).lang
      (build ops (Parameters.init F argv c2)).argv
      (build ops (Parameters.init F argv c2)).argv.length 1
      (build ops (Parameters.init F argv c2)).params [] [] with
    ⟨e, h1, h2⟩ | ⟨params', c1', c2', h1, h2⟩
  · rw [h1, h2]; exact Or.inl ⟨_, rfl, rfl⟩
  · rw [h1, h2]; exact Or.inr ⟨_, _, _, _, rfl, rfl, rfl⟩

/-! ## Lemmas on the text written after a stream -/

theorem Cout.append_put (a b : Cout) (s : String) :
    (a.append b).put s = a.append (b.put s) := by
  obtain ⟨bl, bc⟩ := b
  cases bl with
  | nil => simp [Cout.append, Cout.put, String.append_assoc]
  | cons l ls => simp [Cout.append, Cout.put]

theorem Cout.append_endl (a b : Cout) : (a.append b).endl = a.append b.endl := by
  obtain ⟨bl, bc⟩ := b
  cases bl with
  | nil => simp [Cout.append, Cout.endl]
  | cons l ls => simp [Cout.append, Cout.endl]

theorem Cout.append_empty (a : Cout) : a.append Cout.empty = a := by
  obtain ⟨al, ac⟩ := a
  simp [Cout.append, Cout.empty]

theorem print_description_step_after (tw : Int) (a : Cout) (st : DescState) (c : Char) :
    print_description_step tw (st.after a) c = (print_description_step tw st c).after a := by
  unfold print_description_step
  simp only [DescState.after]
  split_ifs <;> simp [Cout.append_put, Cout.append_endl]

theorem print_description_foldl_after (tw : Int) (a : Cout) :
    ∀ (cs : List Char) (st : DescState),
      cs.foldl (print_description_step tw) (st.after a)
        = (cs.foldl (print_description_step tw) st).after a := by
  intro cs
  induction cs with
  | nil => intro st; rfl
  | cons c cs ih =>
    intro st
    simp only [List.foldl_cons]
    rw [print_description_step_after, ih]

theorem print_description_after {F : FloatLib} (s : Parameters F) (a out : Cout) :
    print_description s (a.append out) = a.append (print_description s out) := by
  unfold print_description
  have h := print_description_foldl_after s.terminal_width a s.description.data
    { line := "", word := "", first_word := true, out := out.endl }
  simp only [DescState.after] at h
  simp only [Cout.append_endl, h, Cout.append_put]

theorem print_usage_after {F : FloatLib} (s : Parameters F) (a out : Cout) :
    print_usage s (a.append out) = a.append (print_usage s out) := by
  unfold print_usage
  cases s.lang <;> simp [Cout.append_put, Cout.append_endl]

theorem Cout.append_ite (a x y : Cout) (c : Prop) [Decidable c] :
    (if c then a.append x else a.append y) = a.append (if c then x else y) := by
  split <;> rfl

theorem param_desc_step_after (tw dil : Int) (di : String) (nl : Bool) (a : Cout)
    (st : WrapState) (c : Char) :
    param_desc_step tw dil di nl (st.after a) c
      = (param_desc_step tw dil di nl st c).after_state a := by
  unfold param_desc_step
  simp only [WrapState.after, Cout.append_put, Cout.append_ite, Cout.append_endl]
  split
  · rfl
  · split
    · split <;> rfl
    · split
      · rfl
      · split <;> rfl

theorem choice_desc_step_after (tw dil cil : Int) (ol : Nat) (sp : String) (nl : Bool)
    (a : Cout) (st : WrapState) (c : Char) :
    choice_desc_step tw dil cil ol sp nl (st.after a) c
      = (choice_desc_step tw dil cil ol sp nl st c).after_state a := by
  unfold choice_desc_step
  simp only [WrapState.after, Cout.append_put, Cout.append_ite, Cout.append_endl]
  split
  · rfl
  · split
    · split <;> rfl
    · split
      · rfl
      · split <;> rfl

theorem wrap_loop_after (step : WrapState → Char → Printed WrapState) (a : Cout)
    (hstep : ∀ st c, step (st.after a) c = (step st c).after_state a) :
    ∀ (cs : List Char) (st : WrapState),
      wrap_loop step cs (st.after a) = (wrap_loop step cs st).after_state a := by
  intro cs
  induction cs with
  | nil => intro st; rfl
  | cons c cs ih =>
    intro st
    simp only [wrap_loop, hstep]
    cases step st c with
    | next st' => simp only [Printed.after_state]; exact ih st'
    | raised e out => rfl

theorem print_param_description_after (tw dil : Int) (di : String) (nl : Bool)
    (description : String) (a out : Cout) :
    print_param_description tw dil di nl description (a.append out)
      = (print_param_description tw dil di nl description out).after a := by
  unfold print_param_description
  have h := wrap_loop_after (param_desc_step tw dil di nl) a
    (param_desc_step_after tw dil di nl a) description.data
    { line := "", word := "", first_l := true, first_word := true, out := out }
  simp only [WrapState.after] at h
  rw [h]
  cases wrap_loop (param_desc_step tw dil di nl) description.data
      { line := "", word := "", first_l := true, first_word := true, out := out } with
  | next st =>
    simp only [Printed.after_state, WrapState.after, Printed.after, Cout.append_put,
      Cout.append_ite, Cout.append_endl]
  | raised e o => rfl

theorem print_choice_after {F : FloatLib} (s : Parameters F) (nl : Bool)
    (p : String × String) (a out : Cout) :
    print_choice s nl p (a.append out) = (print_choice s nl p out).after a := by
  unfold print_choice
  simp only [Cout.append_put]
  have hpre : (match s.lang with
      | .lang_fr => a.append
          (((((out.put s.desc_indent).put s.choice_indent).put "\"").put p.1).put "\" : ")
      | .lang_us => a.append
          (((((out.put s.desc_indent).put s.choice_indent).put "\"").put p.1).put "\": "))
      = a.append (match s.lang with
        | .lang_fr =>
          ((((out.put s.desc_indent).put s.choice_indent).put "\"").put p.1).put "\" : "
        | .lang_us =>
          ((((out.put s.desc_indent).put s.choice_indent).put "\"").put p.1).put "\": ") := by
    cases s.lang <;> rfl
  rw [hpre]
  generalize (match s.lang with
    | .lang_fr => ((((out.put s.desc_indent).put s.choice_indent).put "\"").put p.1).put "\" : "
    | .lang_us => ((((out.put s.desc_indent).put s.choice_indent).put "\"").put p.1).put "\": ")
    = o1
  generalize (match s.lang with
    | .lang_fr => szAdd 5 p.1.length
    | .lang_us => szAdd 4 p.1.length) = ol
  have h := wrap_loop_after
    (choice_desc_step s.terminal_width s.desc_indent_len s.choice_indent_len ol
      (s.desc_indent ++ s.choice_indent ++ String.mk (List.replicate ol ' ')) nl) a
    (choice_desc_step_after _ _ _ _ _ _ a) p.2.data
    { line := "", word := "", first_l := true, first_word := true, out := o1 }
  simp only [WrapState.after] at h
  rw [h]
  cases wrap_loop (choice_desc_step s.terminal_width s.desc_indent_len s.choice_indent_len ol
      (s.desc_indent ++ s.choice_indent ++ String.mk (List.replicate ol ' ')) nl) p.2.data
      { line := "", word := "", first_l := true, first_word := true, out := o1 } with
  | next st =>
    simp only [Printed.after_state, WrapState.after, Printed.after, Cout.append_put,
      Cout.append_ite, Cout.append_endl]
  | raised e o => rfl

theorem print_choices_after {F : FloatLib} (s : Parameters F) (nl : Bool) (a : Cout) :
    ∀ (ps : List (String × String)) (out : Cout),
      print_choices s nl ps (a.append out) = (print_choices s nl ps out).after a := by
  intro ps
  induction ps with
  | nil => intro out; rfl
  | cons p ps ih =>
    intro out
    simp only [print_choices, print_choice_after]
    cases print_choice s nl p out with
    | next o => simp only [Printed.after]; exact ih o
    | raised e o => rfl

theorem print_def_values_after {α : Type} (item : α → String) (sep : String) (nbv : Nat)
    (defs : List α) (a : Cout) :
    ∀ (n j : Nat) (out : Cout),
      print_def_values item sep nbv defs n j (a.append out)
        = (print_def_values item sep nbv defs n j out).after a := by
  intro n
  induction n with
  | zero => intro j out; rfl
  | succ n ih =>
    intro j out
    simp only [print_def_values]
    cases defs.get? j with
    | none => rfl
    | some v =>
      simp only [Cout.append_put, Cout.append_ite]
      exact ih (j + 1) _

theorem print_default_after {F : FloatLib} (s : Parameters F) (p : ParamHolder F)
    (a out : Cout) :
    print_default s p (a.append out) = (print_default s p out).after a := by
  unfold print_default
  split
  · cases p.store with
    | bool v d => rfl
    | int v d =>
      simp only [Cout.append_put, print_def_values_after]
      cases print_def_values (fun v => " " ++ toString v) "," p.nb_values d p.nb_values 0
          ((out.put s.desc_indent).put (msg_default s.lang)) with
      | next o => simp only [Printed.after, Cout.append_endl]
      | raised e o => rfl
    | double v d =>
      simp only [Cout.append_put, print_def_values_after]
      cases print_def_values (fun v => " " ++ F.showDbl v) "," p.nb_values d p.nb_values 0
          ((out.put s.desc_indent).put (msg_default s.lang)) with
      | next o => simp only [Printed.after, Cout.append_endl]
      | raised e o => rfl
    | long_double v d =>
      simp only [Cout.append_put, print_def_values_after]
      cases print_def_values (fun v => " " ++ F.showLDbl v) "," p.nb_values d p.nb_values 0
          ((out.put s.desc_indent).put (msg_default s.lang)) with
      | next o => simp only [Printed.after, Cout.append_endl]
      | raised e o => rfl
    | string v d =>
      simp only [Cout.append_put, print_def_values_after]
      cases print_def_values (fun v => " \"" ++ v ++ "\"") "\"," p.nb_values d p.nb_values 0
          ((out.put s.desc_indent).put (msg_default s.lang)) with
      | next o => simp only [Printed.after, Cout.append_endl]
      | raised e o => rfl
  · rfl

theorem print_subsections_after (lang : LANG) (i : Nat) (a : Cout) :
    ∀ (ts : List String) (ks : List Nat) (out : Cout),
      print_subsections lang i ts ks (a.append out)
        = a.append (print_subsections lang i ts ks out) := by
  intro ts
  induction ts with
  | nil => intro ks out; rfl
  | cons t ts ih =>
    intro ks out
    cases ks with
    | nil => rfl
    | cons k ks =>
      simp only [print_subsections]
      rw [← ih ks]
      congr 1
      split
      · cases lang <;> simp only [Cout.append_put, Cout.append_endl]
      · rfl

theorem print_parameter_after {F : FloatLib} (s : Parameters F) (i : Nat) (a out : Cout) :
    print_parameter s i (a.append out) = (print_parameter s i out).after a := by
  unfold print_parameter
  simp only [print_subsections_after]
  cases mapFind s.order i with
  | none => rfl
  | some key =>
    simp only
    cases mapFind s.params key with
    | none => rfl
    | some p =>
      simp only
      split
      · rfl
      · simp only [Cout.append_put, Cout.append_endl, Cout.append_ite,
          print_param_description_after]
        cases print_param_description s.terminal_width s.desc_indent_len s.desc_indent
            (decide (szAdd (use_string s p).length (toSizeT s.param_to_desc_len)
              > toSizeT s.desc_indent_len)) p.description
            (if decide (szAdd (use_string s p).length (toSizeT s.param_to_desc_len)
                > toSizeT s.desc_indent_len) = true then
              ((print_subsections s.lang i s.subsections s.subs_indexes out).put
                (use_string s p)).endl
            else
              ((print_subsections s.lang i s.subsections s.subs_indexes out).put
                (use_string s p)).put
                (String.mk (List.replicate
                  (szSub (toSizeT s.desc_indent_len) (use_string s p).length) ' '))) with
        | raised e o => rfl
        | next o =>
          simp only [Printed.after]
          by_cases hc : p.name ∈ s.choices_params
          · simp only [hc, if_true]
            cases mapFind s.choices p.name with
            | none => rfl
            | some cs =>
              simp only [print_choices_after]
              cases print_choices s _ cs o with
              | raised e o2 => rfl
              | next o2 =>
                simp only [Printed.after, print_default_after]
                cases print_default s p o2 with
                | raised e o3 => rfl
                | next o3 => simp only [Printed.after, Cout.append_endl]
          · simp only [hc, if_false, print_default_after]
            cases print_default s p o with
            | raised e o3 => rfl
            | next o3 => simp only [Printed.after, Cout.append_endl]

theorem print_parameters_from_after {F : FloatLib} (s : Parameters F) (a : Cout) :
    ∀ (is : List Nat) (out : Cout),
      print_parameters_from s is (a.append out) = (print_parameters_from s is out).after a := by
  intro is
  induction is with
  | nil => intro out; rfl
  | cons i is ih =>
    intro out
    simp only [print_parameters_from, print_parameter_after]
    cases print_parameter s i out with
    | next o => simp only [Printed.after]; exact ih o
    | raised e o => rfl

theorem print_help_after {F : FloatLib} (s : Parameters F) (pu pd : Bool) (a out : Cout) :
    print_help s pu pd (a.append out) = (print_help s pu pd out).after a := by
  unfold print_help
  simp only [print_description_after, Cout.append_ite]
  cases s.usage_is_set with
  | none => rfl
  | some u =>
    simp only [Cout.append_endl, print_usage_after, Cout.append_ite, print_parameters,
      print_parameters_from_after]

/-! ## The claim on repeated printing -/

/-- C20: `print_help` reads the object and writes to the stream only: started on any
stream `out`, it leaves `out` followed by the text it writes on the empty stream, so
a second invocation with the same arguments on the same object, started on the stream
the first one left, writes the same text again. -/
theorem print_help_repeatable {F : FloatLib} (s : Parameters F)
    (p_print_usage p_print_description : Bool) :
    (∀ out : Cout, print_help s p_print_usage p_print_description out
      = (print_help s p_print_usage p_print_description Cout.empty).after out) ∧
    (∀ out out1 : Cout,
      print_help s p_print_usage p_print_description out = .next out1 →
      ∃ text : Cout, out1 = out.append text ∧
        print_help s p_print_usage p_print_description out1
          = .next ((out.append text).append text)) := by
  have h1 : ∀ out : Cout, print_help s p_print_usage p_print_description out
      = (print_help s p_print_usage p_print_description Cout.empty).after out := by
    intro out
    have := print_help_after s p_print_usage p_print_description out Cout.empty
    rw [Cout.append_empty] at this
    exact this
  refine ⟨h1, ?_⟩
  intro out out1 h
  have h2 := h1 out
  rw [h] at h2
  cases he : print_help s p_print_usage p_print_description Cout.empty with
  | raised e o =>
    rw [he] at h2
    simp [Printed.after] at h2
  | next text =>
    rw [he] at h2
    simp only [Printed.after, Printed.next.injEq] at h2
    refine ⟨text, h2, ?_⟩
    rw [h1 out1, he, h2]
    rfl

/-- Witness of C20: the help of the registry of `--zeta` and `--alpha`, printed a second
time on the stream the first invocation left. -/
theorem print_help_repeatable_witness :
    print_help usageRegistry true true Cout.empty
      = .next ⟨(print_help usageRegistry true true Cout.empty).lines, ""⟩ ∧
    ∃ text : Cout,
      (⟨(print_help usageRegistry true true Cout.empty).lines, ""⟩ : Cout)
        = Cout.empty.append text ∧
      print_help usageRegistry true true
          ⟨(print_help usageRegistry true true Cout.empty).lines, ""⟩
        = .next ((Cout.empty.append text).append text) :=
  ⟨by decide, (print_help_repeatable usageRegistry true true).2 Cout.empty
    ⟨(print_help usageRegistry true true Cout.empty).lines, ""⟩ (by decide)⟩

/-! ## Lemmas on the menu of a built object -/

theorem print_parameter_eq_block {F : FloatLib} (s : Parameters F) (i : Nat) (key : String)
    (p : ParamHolder F) (out : Cout) (h1 : mapFind s.order i = some key)
    (h2 : mapFind s.params key = some p) :
    print_parameter s i out
      = print_param_block s p (print_subsections s.lang i s.subsections s.subs_indexes out) := by
  simp only [print_parameter, h1, h2, print_param_block]

theorem print_subsections_replicate (lang : LANG) (i m : Nat) (B : List String) (C : List Nat) :
    ∀ (A : List String) (out : Cout),
      print_subsections lang i (A ++ B) (List.replicate A.length m ++ C) out
        = print_subsections lang i B C
            (if m = i then A.foldl (print_header lang) out else out) := by
  intro A
  induction A with
  | nil => intro out; simp
  | cons t A ih =>
    intro out
    simp only [List.cons_append, List.length_cons, List.replicate_succ, print_subsections,
      List.foldl_cons, List.append_eq]
    rw [ih]
    by_cases hm : m = i
    · simp only [hm, if_true]
      cases lang <;> rfl
    · simp only [hm, if_false]

theorem print_subsections_skip (lang : LANG) (i : Nat) :
    ∀ (ts : List String) (ks : List Nat) (out : Cout), (∀ k ∈ ks, k ≠ i) →
      print_subsections lang i ts ks out = out := by
  intro ts
  induction ts with
  | nil => intro ks out _; rfl
  | cons t ts ih =>
    intro ks out h
    cases ks with
    | nil => rfl
    | cons k ks =>
      have hk : ¬ k = i := h k (List.mem_cons_self _ _)
      simp only [print_subsections, hk, if_false]
      exact ih ks out (fun x hx => h x (List.mem_cons_of_mem _ hx))

theorem markers_ge {F : FloatLib} :
    ∀ (L : Menu F) (k x : Nat), x ∈ markers L k → k ≤ x := by
  intro L
  induction L with
  | nil => intro k x hx; simp [markers] at hx
  | cons e L ih =>
    intro k x hx
    obtain ⟨ts, p⟩ := e
    simp only [markers, List.mem_append, List.mem_replicate] at hx
    rcases hx with ⟨_, rfl⟩ | hx
    · exact Nat.le_refl _
    · have := ih (k + 1) x hx
      omega

theorem markers_append {F : FloatLib} (T : List String) (p : ParamHolder F) :
    ∀ (L : Menu F) (k : Nat),
      markers (L ++ [(T, p)]) k = markers L k ++ List.replicate T.length (k + L.length) := by
  intro L
  induction L with
  | nil => intro k; simp [markers]
  | cons e L ih =>
    intro k
    obtain ⟨ts, q⟩ := e
    simp only [List.cons_append, markers, List.append_eq, ih, List.length_cons,
      List.append_assoc]
    rw [show k + 1 + L.length = k + (L.length + 1) by omega]

/-- The headers printed at the index of a parameter of the menu are those of the
subsections recorded for it. -/
theorem print_subsections_menu {F : FloatLib} (lang : LANG) (ts : List String)
    (p : ParamHolder F) (L2 : Menu F) (T : List String) (n : Nat) :
    ∀ (L1 : Menu F) (k : Nat) (out : Cout), k + L1.length < n →
      print_subsections lang (k + L1.length)
          (((L1 ++ (ts, p) :: L2).map Prod.fst).flatten ++ T)
          (markers (L1 ++ (ts, p) :: L2) k ++ List.replicate T.length n) out
        = ts.foldl (print_header lang) out := by
  intro L1
  induction L1 with
  | nil =>
    intro k out hn
    simp only [List.nil_append, List.map_cons, List.flatten_cons, markers, List.length_nil,
      Nat.add_zero, List.append_assoc]
    rw [print_subsections_replicate]
    simp only [if_true]
    apply print_subsections_skip
    intro x hx
    rcases List.mem_append.mp hx with hx | hx
    · have := markers_ge L2 (k + 1) x hx
      omega
    · simp only [List.mem_replicate] at hx
      omega
  | cons e L1 ih =>
    intro k out hn
    obtain ⟨ts0, p0⟩ := e
    simp only [List.cons_append, List.map_cons, List.flatten_cons, markers, List.length_cons,
      List.append_assoc]
    rw [print_subsections_replicate]
    have hne : ¬ k = k + (L1.length + 1) := by omega
    simp only [hne, if_false]
    have := ih (k + 1) out (by simp only [List.length_cons] at hn; omega)
    have he : k + 1 + L1.length = k + (L1.length + 1) := by omega
    rw [he] at this
    simpa [List.append_assoc] using this

theorem apply_define_fresh {F : FloatLib} (op : BuildOp F) (e : String × ParamHolder F)
    (s : Parameters F) (he : op.entry = some e) (hf : mapFind s.params e.1 = none) :
    (op.apply s).params = s.params ++ [e] ∧
      (op.apply s).order = mapInsert s.order s.params.length e.1 ∧
      (op.apply s).subsections = s.subsections ∧
      (op.apply s).subs_indexes = s.subs_indexes := by
  cases op with
  | set_program_description d => simp [BuildOp.entry] at he
  | set_usage u => simp [BuildOp.entry] at he
  | insert_subsection t => simp [BuildOp.entry] at he
  | define_param n d =>
    simp only [BuildOp.entry, Option.some.injEq] at he
    subst he
    simp only at hf
    simp [BuildOp.apply, define_param, mapCount_eq_zero _ _ hf, mapInsert, hf]
  | define_num_str_param n names defaults d disp =>
    simp only [BuildOp.entry, Option.some.injEq] at he
    subst he
    simp only at hf
    simp [BuildOp.apply, define_num_str_param, mapCount_eq_zero _ _ hf, mapInsert, hf]
  | define_choice_param n vn dc ch d disp =>
    simp only [BuildOp.entry, Option.some.injEq] at he
    subst he
    simp only at hf
    simp [BuildOp.apply, define_choice_param, mapCount_eq_zero _ _ hf, mapInsert, hf]

theorem apply_rejected {F : FloatLib} (op : BuildOp F) (e : String × ParamHolder F)
    (p0 : ParamHolder F) (s : Parameters F) (he : op.entry = some e)
    (hf : mapFind s.params e.1 = some p0) : op.apply s = s := by
  cases op with
  | set_program_description d => simp [BuildOp.entry] at he
  | set_usage u => simp [BuildOp.entry] at he
  | insert_subsection t => simp [BuildOp.entry] at he
  | define_param n d =>
    simp only [BuildOp.entry, Option.some.injEq] at he
    subst he
    simp only at hf
    simp [BuildOp.apply, define_param, mapCount_ne_zero _ _ _ hf]
  | define_num_str_param n names defaults d disp =>
    simp only [BuildOp.entry, Option.some.injEq] at he
    subst he
    simp only at hf
    simp [BuildOp.apply, define_num_str_param, mapCount_ne_zero _ _ _ hf]
  | define_choice_param n vn dc ch d disp =>
    simp only [BuildOp.entry, Option.some.injEq] at he
    subst he
    simp only at hf
    simp [BuildOp.apply, define_choice_param, mapCount_ne_zero _ _ _ hf]

/-- What the members of a built object are, in terms of its menu. -/
theorem built_members {F : FloatLib} (L : Menu F) (T : List String) (s : Parameters F)
    (h : Built L T s) :
    s.params.length = L.length ∧
      (∀ i e, L.get? i = some e →
        mapFind s.order i = some e.2.name ∧ mapFind s.params e.2.name = some e.2) ∧
      (∀ i, L.length ≤ i → mapFind s.order i = none) ∧
      s.subsections = (L.map Prod.fst).flatten ++ T ∧
      s.subs_indexes = markers L 0 ++ List.replicate T.length L.length := by
  induction h with
  | init argv c =>
    refine ⟨rfl, ?_, ?_, rfl, rfl⟩
    · intro i e he
      simp at he
    · intro i _
      rfl
  | set_program_description d _ ih => exact ih
  | set_usage u _ ih => exact ih
  | @insert_subsection L T s t _ ih =>
    obtain ⟨h1, h2, h3, h4, h5⟩ := ih
    refine ⟨h1, h2, h3, ?_, ?_⟩
    · simp only [insert_subsection, h4, List.append_assoc]
    · simp only [insert_subsection, h5, h1, List.append_assoc, List.length_append,
        List.length_singleton, List.replicate_succ']
  | @define L T s op e _ he hf ih =>
    obtain ⟨h1, h2, h3, h4, h5⟩ := ih
    obtain ⟨a1, a2, a3, a4⟩ := apply_define_fresh op e s he hf
    have hname := entry_name op e he
    have hord : mapFind s.order s.params.length = none := h3 _ (by omega)
    refine ⟨?_, ?_, ?_, ?_, ?_⟩
    · rw [a1]; simp [h1]
    · intro i x hx
      by_cases hi : i < L.length
      · rw [List.get?_eq_getElem?, List.getElem?_append_left hi] at hx
        obtain ⟨g1, g2⟩ := h2 i x (by simpa using hx)
        rw [a1, a2]
        exact ⟨mapFind_mapInsert_some _ _ _ _ _ g1, mapFind_append_some _ _ _ _ g2⟩
      · have hlen : i = L.length := by
          have := get?_lt_length _ _ _ hx
          simp only [List.length_append, List.length_singleton] at this
          omega
        subst hlen
        simp only [List.get?_eq_getElem?, List.getElem?_concat_length, Option.some.injEq] at hx
        subst hx
        simp only
        rw [a1, a2, hname, ← h1]
        refine ⟨mapFind_mapInsert_new _ _ _ hord, ?_⟩
        have : e = (e.1, e.2) := rfl
        rw [this]
        exact mapFind_append_new _ _ _ hf
    · intro i hi
      simp only [List.length_append, List.length_singleton] at hi
      rw [a2]
      simp only [mapInsert, hord]
      exact mapFind_append_ne _ _ _ _ (h3 i (by omega)) (by omega)
    · rw [a3, h4]; simp
    · rw [a4, h5, markers_append]; simp
  | @rejected L T s op e p0 _ he hf ih =>
    rw [apply_rejected op e p0 s he hf]
    exact ih

/-- The loop of `print_parameters` over the indices of the last parameters of the menu
prints their headers and blocks. -/
theorem print_parameters_from_menu {F : FloatLib} (L : Menu F) (T : List String)
    (s : Parameters F) (h : Built L T s) :
    ∀ (L2 L1 : Menu F) (out : Cout), L = L1 ++ L2 →
      print_parameters_from s (List.range' L1.length L2.length) out = print_layout s L2 out := by
  obtain ⟨h1, h2, _, h4, h5⟩ := built_members L T s h
  intro L2
  induction L2 with
  | nil => intro L1 out _; rfl
  | cons e L2 ih =>
    intro L1 out hL
    obtain ⟨ts, p⟩ := e
    have hget : L.get? L1.length = some (ts, p) := by
      rw [hL]
      have := get?_after L1 L2 [] (ts, p)
      simpa using this
    obtain ⟨g1, g2⟩ := h2 _ _ hget
    have hsub : print_subsections s.lang L1.length s.subsections s.subs_indexes out
        = ts.foldl (print_header s.lang) out := by
      rw [h4, h5, hL]
      have := print_subsections_menu s.lang ts p L2 T (L1 ++ (ts, p) :: L2).length L1 0 out
        (by simp)
      simpa using this
    simp only [List.length_cons, List.range'_succ, print_parameters_from, print_layout]
    rw [print_parameter_eq_block s L1.length _ p out g1 g2, hsub]
    cases print_param_block s p (ts.foldl (print_header s.lang) out) with
    | raised e o => rfl
    | next o =>
      simp only
      have := ih (L1 ++ [(ts, p)]) o (by rw [hL]; simp)
      simpa using this

/-- The function `print_parameters` on a built object prints its menu. -/
theorem print_parameters_menu {F : FloatLib} (L : Menu F) (T : List String)
    (s : Parameters F) (h : Built L T s) (out : Cout) :
    print_parameters s out = print_layout s L out := by
  have h1 := (built_members L T s h).1
  have := print_parameters_from_menu L T s h L [] out rfl
  simp only [List.length_nil] at this
  rw [print_parameters, List.range_eq_range', h1]
  exact this

theorem print_layout_append {F : FloatLib} (s : Parameters F) :
    ∀ (L1 L2 : Menu F) (out : Cout),
      print_layout s (L1 ++ L2) out
        = match print_layout s L1 out with
          | .next o => print_layout s L2 o
          | .raised e o => .raised e o := by
  intro L1
  induction L1 with
  | nil => intro L2 out; rfl
  | cons e L1 ih =>
    intro L2 out
    obtain ⟨ts, p⟩ := e
    simp only [List.cons_append, print_layout]
    cases print_param_block s p (ts.foldl (print_header s.lang) out) with
    | raised e o => rfl
    | next o => exact ih L2 o

/-! ## The claims on the order of the blocks, the subsections and the default line -/

/-- C16: on an object built by define calls, `print_parameters` goes through the
parameters in the order of their definition, whatever their names, and prints for
each the headers of its subsections and its block, until a block is interrupted:
`--zeta` defined before `--alpha` is printed before it; in the layout of 7 columns the
block of `--x` with description `"ab cd efghi"` is interrupted by `std::out_of_range`
and `--y`, defined after it, gets no block. -/
theorem print_parameters_definition_order {F : FloatLib} :
    (∀ (L : Menu F) (T : List String) (s : Parameters F) (out : Cout), Built L T s →
      print_parameters s out = print_layout s L out) ∧
    print_parameters zetaAlphaRegistry Cout.empty
      = .next ⟨["  --zeta            last letter", "",
          "  --alpha           first letter", ""], ""⟩ ∧
    (mapFind interruptedRegistry.params "--y").isSome = true ∧
    print_parameters interruptedRegistry Cout.empty
      = .raised .std_out_of_range ⟨["--x", "  ab cd efghi"], ""⟩ := by
  refine ⟨fun L T s out h => print_parameters_menu L T s h out, by decide, by decide,
    by decide⟩

/-- Witness of C16: the registry of `--zeta` and `--alpha`. -/
theorem print_parameters_definition_order_witness :
    print_parameters zetaAlphaRegistry Cout.empty
      = print_layout zetaAlphaRegistry
          [([], Param.flag "--zeta" "last letter"), ([], Param.flag "--alpha" "first letter")]
          Cout.empty :=
  (@print_parameters_definition_order FloatLib.integral).1
    [([], Param.flag "--zeta" "last letter"), ([], Param.flag "--alpha" "first letter")] []
    zetaAlphaRegistry Cout.empty
    (Built.define (.define_param "alpha" "first letter")
      ("--alpha", Param.flag "--alpha" "first letter")
      (Built.define (.define_param "zeta" "last letter")
        ("--zeta", Param.flag "--zeta" "last letter") (Built.init [] cfg80) rfl rfl)
      rfl rfl)

/-- C17: on a built object whose menu has the parameter `p` after the parameters `L1`,
with the subsections `ts` inserted between the last of `L1` and `p`,
`print_parameters` prints the blocks of `L1`, then the headers of `ts` in the order of
their insertion, then the block of `p`, then the rest, until a block is interrupted:
`Input` and `Files`, inserted after `--help`, are printed in this order between the
blocks of `--help` and `--in`; in the layout of 7 columns the block of `--x` is
interrupted and the header of `More`, inserted before `--y`, is not printed. -/
theorem print_parameters_subsections {F : FloatLib} :
    (∀ (L1 L2 : Menu F) (ts T : List String) (p : ParamHolder F) (s : Parameters F)
      (out : Cout), Built (L1 ++ (ts, p) :: L2) T s →
      print_parameters s out
        = match print_layout s L1 out with
          | .raised e o => .raised e o
          | .next o =>
            match print_param_block s p (ts.foldl (print_header s.lang) o) with
            | .raised e o2 => .raised e o2
            | .next o2 => print_layout s L2 o2) ∧
    print_parameters sectionsRegistry Cout.empty
      = .next ⟨["  --help            print this menu", "", "", "Input:", "", "", "Files:", "",
          "  --in              input file", ""], ""⟩ ∧
    (interruptedRegistry.subsections = ["More"] ∧ interruptedRegistry.subs_indexes = [1] ∧
      (mapFind interruptedRegistry.order 1) = some "--y") ∧
    print_parameters interruptedRegistry Cout.empty
      = .raised .std_out_of_range ⟨["--x", "  ab cd efghi"], ""⟩ := by
  refine ⟨?_, by decide, by decide, by decide⟩
  intro L1 L2 ts T p s out h
  rw [print_parameters_menu _ T s h out, print_layout_append]
  cases print_layout s L1 out with
  | raised e o => rfl
  | next o =>
    simp only [print_layout]
    cases print_param_block s p (ts.foldl (print_header s.lang) o) with
    | raised e o2 => rfl
    | next o2 => rfl

/-- Witness of C17: the registry of `--help`, the subsections `Input` and `Files`, and
`--in`. -/
theorem print_parameters_subsections_witness :
    print_parameters sectionsRegistry Cout.empty
      = match print_layout sectionsRegistry [([], Param.flag "--help" "print this menu")]
          Cout.empty with
        | .raised e o => .raised e o
        | .next o =>
          match print_param_block sectionsRegistry (Param.flag "--in" "input file")
              (["Input", "Files"].foldl (print_header .lang_us) o) with
          | .raised e o2 => .raised e o2
          | .next o2 => print_layout sectionsRegistry [] o2 :=
  (@print_parameters_subsections FloatLib.integral).1
    [([], Param.flag "--help" "print this menu")] [] ["Input", "Files"] []
    (Param.flag "--in" "input file") sectionsRegistry Cout.empty
    (Built.define (.define_param "in" "input file") ("--in", Param.flag "--in" "input file")
      (Built.insert_subsection "Files"
        (Built.insert_subsection "Input"
          (Built.define (.define_param "help" "print this menu")
            ("--help", Param.flag "--help" "print this menu") (Built.init [] cfg80) rfl rfl)))
      rfl rfl)

/-- C18: for the text parameter `--names` with the default values `a` and `b`
displayed, `print_parameters` prints the line `Default: "a"", "b"`: after the closing
quote of a value that is not the last it prints a second quote and the comma. The
integer defaults `0` and `7` give `Default: 0, 7` and the flag gives no default line. -/
theorem print_parameters_default_line :
    print_parameters defaultsRegistry Cout.empty
      = .next ⟨["  --names <a> <b>   two names",
          "                    Default: \"a\"\", \"b\"", "",
          "  --pair <x> <y>    two numbers", "                    Default: 0, 7", "",
          "  --help            print this menu", ""], ""⟩ ∧
    print_default defaultsRegistry
      (Param.withValues "--names" "two names" ["a", "b"] (.string ["a", "b"]) true) Cout.empty
      = .next ⟨["                    Default: \"a\"\", \"b\""], ""⟩ := by
  refine ⟨by decide, by decide⟩

/-! ## Lemmas on the insertion-order map -/

theorem mapFind_none_of_not_mem {κ β : Type} [DecidableEq κ] (m : List (κ × β)) (k : κ)
    (h : k ∉ m.map Prod.fst) : mapFind m k = none := by
  induction m with
  | nil => rfl
  | cons e m ih =>
    obtain ⟨k', w⟩ := e
    simp only [List.map_cons, List.mem_cons, not_or] at h
    simp only [mapFind]
    rw [if_neg (fun hk => h.1 hk.symm)]
    exact ih h.2

theorem not_mem_keys_of_mapFind_none {κ β : Type} [DecidableEq κ] (m : List (κ × β)) (k : κ)
    (h : mapFind m k = none) : k ∉ m.map Prod.fst := by
  induction m with
  | nil => simp
  | cons e m ih =>
    obtain ⟨k', w⟩ := e
    simp only [mapFind] at h
    by_cases hk : k' = k
    · rw [if_pos hk] at h
      cases h
    · rw [if_neg hk] at h
      simp only [List.map_cons, List.mem_cons, not_or]
      exact ⟨fun hh => hk hh.symm, ih h⟩

/-- A call that builds the menu either leaves the parameter map and the order map as
they are, or adds one entry under a new name to the first and records the name in the
second under the number of parameters before the call. -/
theorem apply_order_cases {F : FloatLib} (op : BuildOp F) (s : Parameters F) :
    ((op.apply s).params = s.params ∧ (op.apply s).order = s.order) ∨
      ∃ e, mapFind s.params e.1 = none ∧ (op.apply s).params = s.params ++ [e] ∧
        (op.apply s).order = mapInsert s.order s.params.length e.1 := by
  cases he : op.entry with
  | none =>
    left
    cases op with
    | set_program_description d => exact ⟨rfl, rfl⟩
    | set_usage u => exact ⟨rfl, rfl⟩
    | insert_subsection t => exact ⟨rfl, rfl⟩
    | define_param n d => simp [BuildOp.entry] at he
    | define_num_str_param n names defaults d disp => simp [BuildOp.entry] at he
    | define_choice_param n vn dc ch d disp => simp [BuildOp.entry] at he
  | some e =>
    cases hf : mapFind s.params e.1 with
    | none =>
      right
      obtain ⟨a1, a2, _, _⟩ := apply_define_fresh op e s he hf
      exact ⟨e, hf, a1, a2⟩
    | some p0 =>
      left
      rw [apply_rejected op e p0 s he hf]
      exact ⟨rfl, rfl⟩

theorem forall₂_frame_keys {F : FloatLib} (toks : List String)
    (l l' : List (String × ParamHolder F)) (h : List.Forall₂ (frame_entry toks) l l') :
    l'.map Prod.fst = l.map Prod.fst := by
  induction h with
  | nil => rfl
  | cons hx _ ih =>
    simp only [List.map_cons, ih, hx.1]

/-- In a reachable state the order map lists the names of the parameter map, in the
order of that map, under the numbers from 0 on, and no name occurs twice. -/
theorem reachable_order_zip {F : FloatLib} (s : Parameters F)
    (h : Reachable BuildOp.any s) :
    s.order = (List.range s.params.length).zip (s.params.map Prod.fst) ∧
      (s.params.map Prod.fst).Nodup := by
  induction h with
  | init argv c => exact ⟨rfl, List.nodup_nil⟩
  | @build op s0 _ _ ih =>
    obtain ⟨ih1, ih2⟩ := ih
    rcases apply_order_cases op s0 with ⟨a1, a2⟩ | ⟨e, hf, a1, a2⟩
    · rw [a1, a2]
      exact ⟨ih1, ih2⟩
    · have hkeys : (s0.order.map Prod.fst) = List.range s0.params.length := by
        rw [ih1]
        exact List.map_fst_zip _ _ (by simp)
      have hnone : mapFind s0.order s0.params.length = none :=
        mapFind_none_of_not_mem _ _ (by rw [hkeys]; simp)
      constructor
      · rw [a1, a2]
        simp only [mapInsert, hnone, List.length_append, List.length_singleton,
          List.map_append, List.map_cons, List.map_nil, List.range_succ]
        rw [List.zip_append (by simp), ← ih1]
        rfl
      · rw [a1]
        simp only [List.map_append, List.map_cons, List.map_nil]
        rw [List.nodup_append]
        refine ⟨ih2, List.nodup_singleton _, ?_⟩
        intro a ha hb
        simp only [List.mem_singleton] at hb
        subst hb
        exact not_mem_keys_of_mapFind_none _ _ hf ha
  | @parse s0 s1 cerr _ hp ih =>
    obtain ⟨ih1, ih2⟩ := ih
    obtain ⟨e1, e2⟩ := parse_params_entries s0 s1 cerr hp
    have hk := forall₂_frame_keys _ _ _ e2
    have hlen : s1.params.length = s0.params.length := by
      have := congrArg List.length hk
      simpa using this
    have hord : s1.order = s0.order := by rw [e1]
    rw [hord, hk, hlen]
    exact ⟨ih1, ih2⟩

theorem mapFind_zip_range' {β : Type} (l : List β) :
    ∀ (a i : Nat), mapFind ((List.range' a l.length).zip l) (a + i) = l.get? i := by
  induction l with
  | nil => intro a i; rfl
  | cons x l ih =>
    intro a i
    simp only [List.length_cons, List.range'_succ, List.zip_cons_cons, mapFind]
    cases i with
    | zero => simp
    | succ j =>
      rw [if_neg (by omega)]
      have := ih (a + 1) j
      rw [show a + 1 + j = a + (j + 1) from by omega] at this
      exact this.trans rfl

theorem mapFind_of_mem_nodup {κ β : Type} [DecidableEq κ] (m : List (κ × β)) (k : κ) (v : β)
    (hn : (m.map Prod.fst).Nodup) (h : (k, v) ∈ m) : mapFind m k = some v := by
  induction m with
  | nil => simp at h
  | cons e m ih =>
    obtain ⟨k', w⟩ := e
    simp only [List.map_cons, List.nodup_cons] at hn
    simp only [mapFind]
    rcases List.mem_cons.mp h with heq | hin
    · cases heq
      simp
    · have hne : k' ≠ k := by
        intro hk
        subst hk
        exact hn.1 (List.mem_map_of_mem Prod.fst hin)
      rw [if_neg hne]
      exact ih hn.2 hin

/-! ## The claim on the insertion-order map -/

/-- C26: in every state reachable from the constructor by build calls (the three define
functions, `insert_subsection`, `set_program_description`, `set_usage`) and by calls of
`parse_params` that return, with `n` parameters registered, the keys of the order map are
exactly `0, ..., n-1`, its values are exactly the names under which the parameters are
registered, without repetition, and for every `i < n` the lookups `order.at(i)` and
`params.at(order.at(i))` of `print_parameters` succeed; no key `i >= n` is present. -/
theorem order_map_enumerates_params {F : FloatLib} (s : Parameters F)
    (h : Reachable BuildOp.any s) :
    s.order.map Prod.fst = List.range s.params.length ∧
    s.order.map Prod.snd = s.params.map Prod.fst ∧
    (s.order.map Prod.snd).Nodup ∧
    (∀ i, i < s.params.length →
      ∃ key p, mapFind s.order i = some key ∧ mapFind s.params key = some p ∧
        s.params.get? i = some (key, p)) ∧
    (∀ i, s.params.length ≤ i → mapFind s.order i = none) := by
  obtain ⟨h1, h2⟩ := reachable_order_zip s h
  have hk : s.order.map Prod.fst = List.range s.params.length := by
    rw [h1]
    exact List.map_fst_zip _ _ (by simp)
  have hv : s.order.map Prod.snd = s.params.map Prod.fst := by
    rw [h1]
    exact List.map_snd_zip _ _ (by simp)
  refine ⟨hk, hv, by rw [hv]; exact h2, ?_, ?_⟩
  · intro i hi
    have hget : s.params.get? i = some (s.params.get ⟨i, hi⟩) := List.get?_eq_get hi
    refine ⟨(s.params.get ⟨i, hi⟩).1, (s.params.get ⟨i, hi⟩).2, ?_, ?_, hget⟩
    · have hz := mapFind_zip_range' (s.params.map Prod.fst) 0 i
      rw [List.length_map, ← List.range_eq_range', Nat.zero_add] at hz
      rw [h1, hz, List.get?_eq_getElem?, List.getElem?_map, ← List.get?_eq_getElem?, hget]
      rfl
    · exact mapFind_of_mem_nodup _ _ _ h2 (List.get_mem _ _ _)
  · intro i hi
    exact mapFind_none_of_not_mem _ _ (by rw [hk]; simp; omega)

/-- Witness of C26: the registry of `--count` and `--help` after a call of
`parse_params` on `["prog", "--help"]`. -/
theorem order_map_enumerates_params_witness :
    Reachable BuildOp.any ((flagRegistry ["prog", "--help"]).with_param "--help"
      { (Param.flag "--help" "print this menu" : ParamHolder FloatLib.integral) with
        is_defined := true }) ∧
    (flagRegistry ["prog", "--help"]).order = [(0, "--help"), (1, "--count")] ∧
    (flagRegistry ["prog", "--help"]).order.map Prod.fst = List.range 2 :=
  have hr : Reachable BuildOp.any ((flagRegistry ["prog", "--help"]).with_param "--help"
      { (Param.flag "--help" "print this menu" : ParamHolder FloatLib.integral) with
        is_defined := true }) :=
    Reachable.parse
      (Reachable.build (.define_num_str_param "count" ["n"] (.int [0]) "number of items" false)
        trivial
        (Reachable.build (.define_param "help" "print this menu") trivial
          (Reachable.init ["prog", "--help"] cfg80)))
      (show parse_params (flagRegistry ["prog", "--help"]) = .ok (_, []) from rfl)
  ⟨hr, rfl, (order_map_enumerates_params _ hr).1⟩

/-! ## The claim on the slot numbers of the accessors -/

theorem toSizeT_negative (v : Int) (n : Nat) (h0 : v < 0) (h1 : INT_MIN ≤ v)
    (h2 : (n : Int) ≤ INT_MAX) : toSizeT v > n := by
  unfold toSizeT
  unfold INT_MIN at h1
  unfold INT_MAX at h2
  omega

theorem toSizeT_slot (v : Int) (h1 : 1 ≤ v) (h2 : v ≤ INT_MAX) :
    toSizeT v = v.toNat ∧ toSizeT (v - 1) = (v - 1).toNat := by
  unfold toSizeT
  unfold INT_MAX at h2
  omega

theorem vectorAt_lt {α : Type} (values : List α) (k : Nat) (h : k < values.length) :
    ∃ x, values.get? k = some x ∧ vectorAt values k = .ok x := by
  refine ⟨values.get ⟨k, h⟩, List.get?_eq_get h, ?_⟩
  simp only [vectorAt, List.get?_eq_get h]

/-- C27: `str_val` and `num_val` called with the slot number 0 pass the test
`value_number>p->nb_values` and read `values[value_number-1]`, the element of index
`(std::size_t)-1`, outside the vector. For the other slot numbers of a parameter that
stores as many values as its arity the claim holds: a negative number or a number above
the arity gives the index-out-of-range error (the `int` is converted to `std::size_t`),
and a number `v` from 1 to the arity reads the element `v - 1`, which exists. A
parameter defined with fewer default values than names of values stores fewer values
than its arity, and its last slot numbers are read outside the vector as well. -/
theorem val_slot_zero_out_of_bounds {F : FloatLib} :
    (∀ (s : Parameters F) (param_name : String) (p : ParamHolder F) (v : Int),
      mapFind s.params ("--" ++ param_name) = some p → p.store.size = p.nb_values →
      (p.nb_values : Int) ≤ INT_MAX → INT_MIN ≤ v → v ≤ INT_MAX → v ≠ 0 →
      ((v < 0 ∨ (p.nb_values : Int) < v) ∧
        str_val s param_name v = .error (.thrown (msg_only_has param_name p.nb_values)) ∧
        num_val s param_name v = .error (.thrown (msg_only_has param_name p.nb_values))) ∨
      (1 ≤ v ∧ v ≤ (p.nb_values : Int) ∧ toSizeT (v - 1) = (v - 1).toNat ∧
        (v - 1).toNat < p.store.size ∧
        (∀ vals defs, p.store = .string vals defs →
          ∃ x, vals.get? (v - 1).toNat = some x ∧ str_val s param_name v = .ok x) ∧
        (∀ vals defs, p.store = .int vals defs →
          ∃ x, vals.get? (v - 1).toNat = some x ∧ num_val s param_name v = .ok (.int x)) ∧
        (∀ vals defs, p.store = .double vals defs →
          ∃ x, vals.get? (v - 1).toNat = some x ∧ num_val s param_name v = .ok (.double x)) ∧
        (∀ vals defs, p.store = .long_double vals defs →
          ∃ x, vals.get? (v - 1).toNat = some x ∧
            num_val s param_name v = .ok (.long_double x)))) ∧
    ((mapFind textRegistry.params ("--" ++ "name")).map (fun p => (p.nb_values, p.store.size))
        = some (1, 1) ∧
      str_val textRegistry "name" 0
        = .error (.undefined (.vector_index 18446744073709551615 1))) ∧
    ((mapFind (countRegistry []).params ("--" ++ "count")).map
        (fun p => (p.nb_values, p.store.size)) = some (1, 1) ∧
      num_val (countRegistry []) "count" 0
        = .error (.undefined (.vector_index 18446744073709551615 1))) ∧
    ((mapFind (unbalancedRegistry []).params ("--" ++ "pair")).map
        (fun p => (p.nb_values, p.store.size)) = some (2, 1) ∧
      num_val (unbalancedRegistry []) "pair" 2 = .error (.undefined (.vector_index 1 1))) := by
  refine ⟨?_, ⟨rfl, rfl⟩, ⟨rfl, rfl⟩, ⟨rfl, rfl⟩⟩
  intro s param_name p v hfind hsize hnb hmin hmax hv
  by_cases hout : v < 0 ∨ (p.nb_values : Int) < v
  · left
    have hgt : toSizeT v > p.nb_values := by
      rcases hout with hneg | habove
      · exact toSizeT_negative v _ hneg hmin hnb
      · exact toSizeT_above _ v habove hmax
    refine ⟨hout, ?_, ?_⟩
    · simp only [str_val, hfind, if_pos hgt]
    · simp only [num_val, hfind, if_pos hgt]
  · right
    have h1 : 1 ≤ v := by omega
    have h2 : v ≤ (p.nb_values : Int) := by omega
    obtain ⟨t1, t2⟩ := toSizeT_slot v h1 hmax
    have hle : ¬ (toSizeT v > p.nb_values) := by
      rw [t1]
      omega
    have hlt : (v - 1).toNat < p.store.size := by
      rw [hsize]
      omega
    refine ⟨h1, h2, t2, hlt, ?_, ?_, ?_, ?_⟩
    · intro vals defs hst
      rw [hst] at hlt
      obtain ⟨x, hx1, hx2⟩ := vectorAt_lt vals _ hlt
      exact ⟨x, hx1, by simp only [str_val, hfind, if_neg hle, hst, t2, hx2]⟩
    · intro vals defs hst
      rw [hst] at hlt
      obtain ⟨x, hx1, hx2⟩ := vectorAt_lt vals _ hlt
      exact ⟨x, hx1, by simp only [num_val, hfind, if_neg hle, hst, t2, hx2]; rfl⟩
    · intro vals defs hst
      rw [hst] at hlt
      obtain ⟨x, hx1, hx2⟩ := vectorAt_lt vals _ hlt
      exact ⟨x, hx1, by simp only [num_val, hfind, if_neg hle, hst, t2, hx2]; rfl⟩
    · intro vals defs hst
      rw [hst] at hlt
      obtain ⟨x, hx1, hx2⟩ := vectorAt_lt vals _ hlt
      exact ⟨x, hx1, by simp only [num_val, hfind, if_neg hle, hst, t2, hx2]; rfl⟩

/-- Witness of C27: the slot number 1 of the integer parameter `--count`. -/
theorem val_slot_zero_out_of_bounds_witness :
    (∃ x, [(0 : Int)].get? 0 = some x ∧
      num_val (countRegistry []) "count" 1 = .ok (.int x)) ∧
    num_val (countRegistry []) "count" (-1)
      = .error (.thrown "parameter \"--count\" only has 1 values") :=
  have hp : mapFind (countRegistry []).params ("--" ++ "count")
      = some (Param.withValues "--count" "number of items" ["n"] (.int [0]) false) := rfl
  have h1 := (@val_slot_zero_out_of_bounds FloatLib.integral).1 (countRegistry []) "count" _ 1
    hp rfl (by decide) (by decide) (by decide) (by decide)
  have h2 := (@val_slot_zero_out_of_bounds FloatLib.integral).1 (countRegistry []) "count" _
    (-1) hp rfl (by decide) (by decide) (by decide) (by decide)
  ⟨h1.elim (fun h => absurd h.1 (by decide)) (fun h => h.2.2.2.2.2.1 [0] [0] rfl),
    h2.elim (fun h => h.2.2) (fun h => absurd h.1 (by decide))⟩

/-! ## The claim on the usage section -/

/-- C25: `print_help` reads the member `usage_is_set`, which the constructor does not
initialise (it initialises `description_is_set` only): on an object on which `set_usage`
was never called, as a freshly constructed one, the test `usage_is_set && p_print_usage`
reads an indeterminate value, so whether a usage section is printed is not defined.
After `set_usage` the claim holds: the member is `true`, and `print_help` prints the
usage section (an empty line, then the text of `print_usage`) if and only if
`p_print_usage` is set; the other build calls do not write the member. -/
theorem print_help_usage_flag_uninitialised {F : FloatLib} :
    (∀ (s : Parameters F) (p_print_usage p_print_description : Bool) (out : Cout),
      s.usage_is_set = some true →
      print_help s p_print_usage p_print_description out
        = print_parameters s
            (if p_print_usage then
              print_usage s
                (if s.description_is_set && p_print_description then print_description s out
                  else out).endl
            else
              (if s.description_is_set && p_print_description then print_description s out
                else out))) ∧
    (∀ (u : String) (s : Parameters F),
      (set_usage u s).usage_is_set = some true ∧ (set_usage u s).usage = u) ∧
    (∀ (op : BuildOp F) (s : Parameters F), (∀ u, op ≠ .set_usage u) →
      (op.apply s).usage_is_set = s.usage_is_set) ∧
    (∀ (argv : List String) (c : config) (p_print_usage p_print_description : Bool)
      (out : Cout),
      (Parameters.init F argv c).usage_is_set = none ∧
      print_help (Parameters.init F argv c) p_print_usage p_print_description out
        = .raised (.undefined .uninitialised) out) ∧
    print_help (Parameters.init FloatLib.integral [] cfg80) true true Cout.empty
      = .raised (.undefined .uninitialised) Cout.empty ∧
    print_help zetaAlphaRegistry true true Cout.empty
      = .raised (.undefined .uninitialised) Cout.empty := by
  refine ⟨?_, fun u s => ⟨rfl, rfl⟩, ?_, fun argv c pu pd out => ⟨rfl, rfl⟩, rfl, rfl⟩
  · intro s pu pd out h
    cases pu <;> simp only [print_help, h, Bool.true_and]
  · intro op s hop
    cases op with
    | set_program_description d => rfl
    | set_usage u => exact absurd rfl (hop u)
    | insert_subsection t => rfl
    | define_param n d =>
      simp only [BuildOp.apply, define_param]
      split <;> rfl
    | define_num_str_param n names defaults d disp =>
      simp only [BuildOp.apply, define_num_str_param]
      split <;> rfl
    | define_choice_param n vn dc ch d disp =>
      simp only [BuildOp.apply, define_choice_param]
      split <;> rfl

/-- Witness of C25: the registry of `--zeta` and `--alpha` with the usage
`prog [options]`; the usage section is printed when it is requested and only then. -/
theorem print_help_usage_flag_uninitialised_witness :
    usageRegistry.usage_is_set = some true ∧
    print_help usageRegistry true false Cout.empty
      = print_parameters usageRegistry (print_usage usageRegistry Cout.empty.endl) ∧
    print_help usageRegistry false false Cout.empty
      = print_parameters usageRegistry Cout.empty ∧
    (print_usage usageRegistry Cout.empty.endl).lines
      = ["", "USAGE:", "", "  prog [options]", ""] :=
  ⟨rfl,
    (@print_help_usage_flag_uninitialised FloatLib.integral).1 usageRegistry true false
      Cout.empty rfl,
    (@print_help_usage_flag_uninitialised FloatLib.integral).1 usageRegistry false false
      Cout.empty rfl,
    by decide⟩

/-! ## Lemmas on the forced split of a wrap loop -/

theorem toSizeT_add (x : Int) (n : Nat) : szAdd (toSizeT x) n = toSizeT (x + n) := by
  unfold szAdd toSizeT
  omega

/-- The body of the choice loop is the body of the description loop at the indent
`desc_indent_len + choice_indent_len + other_len`, with `spaces` for `desc_indent`. -/
theorem choice_desc_step_eq (terminal_width desc_indent_len choice_indent_len : Int)
    (other_len : Nat) (spaces : String) (desc_on_new_line : Bool) (st : WrapState) (c : Char) :
    choice_desc_step terminal_width desc_indent_len choice_indent_len other_len spaces
        desc_on_new_line st c
      = param_desc_step terminal_width (desc_indent_len + choice_indent_len + other_len) spaces
          desc_on_new_line st c := by
  unfold choice_desc_step param_desc_step
  rw [toSizeT_add]

/-- In its last branch the body of the description loop prints and then takes the end
of the word with `substr`. -/
theorem param_desc_step_forced (terminal_width desc_indent_len : Int) (desc_indent : String)
    (desc_on_new_line : Bool) (st : WrapState) (c : Char)
    (h : takes_forced_split terminal_width desc_indent_len st c) :
    param_desc_step terminal_width desc_indent_len desc_indent desc_on_new_line st c
      = match substr_from st.word (split_offset terminal_width desc_indent_len st) with
        | .error e =>
          .raised e (forced_split_out terminal_width desc_indent_len desc_indent
            desc_on_new_line st)
        | .ok rest =>
          .next { line := "", word := rest.push c, first_l := false, first_word := true,
                  out := forced_split_out terminal_width desc_indent_len desc_indent
                    desc_on_new_line st } := by
  obtain ⟨h1, h2, h3⟩ := h
  unfold param_desc_step
  rw [if_neg h1, if_neg h2]
  simp only [if_neg h3]
  rfl

theorem string_ne_empty (s : String) : s ≠ "" ↔ 0 < s.length := by
  obtain ⟨data⟩ := s
  cases data with
  | nil => simp [String.length]
  | cons a l =>
    simp only [String.length, List.length_cons, Nat.zero_lt_succ, iff_true]
    intro h
    have := congrArg String.data h
    simp at this

theorem substr_from_ok (w rest : String) (n : Nat) (h : substr_from w n = .ok rest) :
    n ≤ w.length ∧ rest.length + n = w.length := by
  unfold substr_from at h
  split at h
  · cases h
  · rename_i hn
    cases h
    simp only [String.length, List.length_drop]
    simp only [String.length] at hn
    omega

/-- The tests of a wrap loop in plain arithmetic, for a layout `0 <= indent <
terminal_width` and bounded locals. -/
theorem wrap_sizes (tw dil : Int) (st : WrapState) (h0 : 0 ≤ dil) (h1 : dil < tw)
    (h2 : tw ≤ INT_MAX) (hb : st.bounded tw dil) :
    (toSizeT tw : Int) = tw ∧
    (szAdd (toSizeT dil) st.word.length : Int) = dil + st.word.length ∧
    (szAdd (szAdd (szAdd (toSizeT dil) st.line.length) st.word.length) 1 : Int)
      = dil + st.line.length + st.word.length + 1 := by
  obtain ⟨b1, b2, _⟩ := hb
  unfold INT_MAX at h2
  unfold szAdd toSizeT
  omega

/-- With bounded locals the last branch is taken exactly when the word has reached the
width. -/
theorem takes_forced_split_iff (tw dil : Int) (st : WrapState) (c : Char) (h0 : 0 ≤ dil)
    (h1 : dil < tw) (h2 : tw ≤ INT_MAX) (hb : st.bounded tw dil) :
    takes_forced_split tw dil st c ↔ tw ≤ dil + st.word.length := by
  obtain ⟨s1, s2, s3⟩ := wrap_sizes tw dil st h0 h1 h2 hb
  unfold takes_forced_split
  constructor
  · rintro ⟨_, _, g3⟩
    have : ¬ ((szAdd (toSizeT dil) st.word.length : Int) < (toSizeT tw : Int)) := by
      intro hlt
      exact g3 (by exact_mod_cast hlt)
    rw [s1, s2] at this
    omega
  · intro hw
    have g3 : ¬ (szAdd (toSizeT dil) st.word.length < toSizeT tw) := by
      intro hlt
      have : (szAdd (toSizeT dil) st.word.length : Int) < (toSizeT tw : Int) := by
        exact_mod_cast hlt
      rw [s1, s2] at this
      omega
    refine ⟨fun hh => g3 hh.2, ?_, g3⟩
    intro hle
    have : (szAdd (szAdd (szAdd (toSizeT dil) st.line.length) st.word.length) 1 : Int)
        ≤ (toSizeT tw : Int) := by exact_mod_cast hle
    rw [s1, s3] at this
    omega

/-- The split offset when the line is empty or leaves room for a space: the
difference `terminal_width-(desc_indent_len+line_len)`, at most the length of the word. -/
theorem split_offset_safe (tw dil : Int) (st : WrapState) (h0 : 0 ≤ dil) (h1 : dil < tw)
    (h2 : tw ≤ INT_MAX) (hb : st.bounded tw dil) (hw : tw ≤ dil + st.word.length)
    (hs : st.line = "" ∨ dil + st.line.length < tw) :
    (split_offset tw dil st : Int)
      = tw - (dil + (if st.line ≠ "" then (st.line.length : Int) + 1 else 0)) ∧
    split_offset tw dil st ≤ st.word.length := by
  obtain ⟨b1, b2, b3⟩ := hb
  unfold INT_MAX at h2
  by_cases hl : st.line = ""
  · have hne : ¬ (st.line ≠ "") := fun h => h hl
    simp only [split_offset, if_neg hne]
    unfold szSub szAdd toSizeT
    omega
  · have hlt : dil + st.line.length < tw := hs.resolve_left hl
    have hwl : dil + st.word.length ≤ tw := by
      by_contra hcon
      exact hl (b3 (by omega))
    simp only [split_offset, if_pos hl]
    unfold szSub szAdd toSizeT
    omega

/-- The split offset when the line is not empty and fills the width: it wraps around
to the largest `std::size_t`. -/
theorem split_offset_wraps (tw dil : Int) (st : WrapState) (hl : st.line ≠ "")
    (hfull : dil + st.line.length = tw) :
    split_offset tw dil st = 18446744073709551615 := by
  simp only [split_offset, if_pos hl]
  unfold szSub szAdd toSizeT
  omega

/-- The body of the description loop keeps the locals bounded. -/
theorem param_desc_step_bounded (tw dil : Int) (di : String) (nl : Bool)
    (st st' : WrapState) (c : Char) (h0 : 0 ≤ dil) (h1 : dil < tw) (h2 : tw ≤ INT_MAX)
    (hb : st.bounded tw dil) (hstep : param_desc_step tw dil di nl st c = .next st') :
    st'.bounded tw dil := by
  obtain ⟨s1, s2, s3⟩ := wrap_sizes tw dil st h0 h1 h2 hb
  have hb' := hb
  obtain ⟨b1, b2, b3⟩ := hb'
  by_cases hf : takes_forced_split tw dil st c
  · rw [param_desc_step_forced _ _ _ _ _ _ hf] at hstep
    have hw := (takes_forced_split_iff tw dil st c h0 h1 h2 hb).1 hf
    cases hsub : substr_from st.word (split_offset tw dil st) with
    | error e =>
      rw [hsub] at hstep
      cases hstep
    | ok rest =>
      rw [hsub] at hstep
      simp only [Printed.next.injEq] at hstep
      subst hstep
      obtain ⟨k1, k2⟩ := substr_from_ok _ _ _ hsub
      have hrest : dil + rest.length ≤ tw := by
        by_cases hfull : st.line ≠ "" ∧ dil + st.line.length = tw
        · have := split_offset_wraps tw dil st hfull.1 hfull.2
          unfold INT_MAX at h2
          omega
        · have hs : st.line = "" ∨ dil + st.line.length < tw := by
            by_cases hl : st.line = ""
            · exact Or.inl hl
            · exact Or.inr (by
                have : ¬ (dil + st.line.length = tw) := fun h => hfull ⟨hl, h⟩
                omega)
          obtain ⟨o1, o2⟩ := split_offset_safe tw dil st h0 h1 h2 hb hw hs
          by_cases hl : st.line = ""
          · rw [if_neg (fun h => h hl)] at o1
            omega
          · rw [if_pos hl] at o1
            have hwl : dil + st.word.length ≤ tw := by
              by_contra hcon
              exact hl (b3 (by omega))
            omega
      refine ⟨?_, ?_, fun _ => rfl⟩
      · simp only [String.length_empty]
        omega
      · simp only [String.length_push]
        push_cast
        omega
  · unfold takes_forced_split at hf
    unfold param_desc_step at hstep
    by_cases c1 : c ≠ ' ' ∧ szAdd (toSizeT dil) st.word.length < toSizeT tw
    · rw [if_pos c1] at hstep
      simp only [Printed.next.injEq] at hstep
      subst hstep
      have : (szAdd (toSizeT dil) st.word.length : Int) < (toSizeT tw : Int) := by
        exact_mod_cast c1.2
      rw [s1, s2] at this
      refine ⟨b1, ?_, ?_⟩
      · simp only [String.length_push]
        push_cast
        omega
      · simp only [String.length_push]
        push_cast
        intro hcon
        omega
    · rw [if_neg c1] at hstep
      by_cases c2 : szAdd (szAdd (szAdd (toSizeT dil) st.line.length) st.word.length) 1
          ≤ toSizeT tw
      · rw [if_pos c2] at hstep
        have : (szAdd (szAdd (szAdd (toSizeT dil) st.line.length) st.word.length) 1 : Int)
            ≤ (toSizeT tw : Int) := by exact_mod_cast c2
        rw [s1, s3] at this
        split at hstep
        · simp only [Printed.next.injEq] at hstep
          subst hstep
          refine ⟨?_, ?_, ?_⟩
          · show dil + (st.word.length : Int) ≤ tw
            omega
          · simp only [String.length_empty]
            omega
          · simp only [String.length_empty]
            intro hcon
            omega
        · simp only [Printed.next.injEq] at hstep
          subst hstep
          have hlen : (st.line ++ (" " ++ st.word)).length
              = st.line.length + (1 + st.word.length) := by
            simp only [String.length_append]
            rfl
          refine ⟨?_, ?_, ?_⟩
          · show dil + ((st.line ++ (" " ++ st.word)).length : Int) ≤ tw
            rw [hlen]
            push_cast
            omega
          · simp only [String.length_empty]
            omega
          · simp only [String.length_empty]
            intro hcon
            omega
      · rw [if_neg c2] at hstep
        have c3 : szAdd (toSizeT dil) st.word.length < toSizeT tw := by
          by_contra hcon
          exact hf ⟨c1, c2, hcon⟩
        simp only [if_pos c3, Printed.next.injEq] at hstep
        subst hstep
        have : (szAdd (toSizeT dil) st.word.length : Int) < (toSizeT tw : Int) := by
          exact_mod_cast c3
        rw [s1, s2] at this
        refine ⟨?_, ?_, ?_⟩
        · show dil + (st.word.length : Int) ≤ tw
          omega
        · simp only [String.length_empty]
          omega
        · simp only [String.length_empty]
          intro hcon
          omega

/-- Every state the description loop reaches from bounded locals is bounded. -/
theorem wrap_loop_bounded (tw dil : Int) (di : String) (nl : Bool) (h0 : 0 ≤ dil)
    (h1 : dil < tw) (h2 : tw ≤ INT_MAX) :
    ∀ (cs : List Char) (st st' : WrapState), st.bounded tw dil →
      wrap_loop (param_desc_step tw dil di nl) cs st = .next st' → st'.bounded tw dil := by
  intro cs
  induction cs with
  | nil =>
    intro st st' hb h
    simp only [wrap_loop, Printed.next.injEq] at h
    subst h
    exact hb
  | cons c cs ih =>
    intro st st' hb h
    simp only [wrap_loop] at h
    cases hstep : param_desc_step tw dil di nl st c with
    | raised e o =>
      rw [hstep] at h
      cases h
    | next st1 =>
      rw [hstep] at h
      exact ih st1 st' (param_desc_step_bounded tw dil di nl st st1 c h0 h1 h2 hb hstep) h

/-! ## The claim on the split offset -/

/-- C28: in a layout `0 <= desc_indent_len < terminal_width` the locals of the
description loop of `print_parameters` stay bounded, and in the forced-split branch the
offset `terminal_width-(desc_indent_len+line_len)` is the claimed difference, at most
the length of the word, when the line is empty or leaves room for a space. When the
line is not empty and fills the width exactly the difference is `-1`: as a
`std::size_t` the offset is `2^64 - 1`, the first `substr` prints the whole word and
the second throws `std::out_of_range`. The line `"ab cd"` with the word `"efghi"` at
width 7 and indent 2 is such a state; the choice loop runs the same body at its larger
indent and fails in the same way. -/
theorem split_offset_out_of_range :
    (∀ (tw dil : Int) (di : String) (nl : Bool) (cs : List Char) (out : Cout)
      (st : WrapState), 0 ≤ dil → dil < tw → tw ≤ INT_MAX →
      wrap_loop (param_desc_step tw dil di nl) cs
        { line := "", word := "", first_l := true, first_word := true, out := out }
        = .next st →
      st.bounded tw dil) ∧
    (∀ (tw dil : Int) (di : String) (nl : Bool) (st : WrapState) (c : Char),
      0 ≤ dil → dil < tw → tw ≤ INT_MAX → st.bounded tw dil →
      takes_forced_split tw dil st c →
      (st.line = "" ∨ dil + st.line.length < tw →
        (split_offset tw dil st : Int)
          = tw - (dil + (if st.line ≠ "" then (st.line.length : Int) + 1 else 0)) ∧
        split_offset tw dil st ≤ st.word.length ∧
        ∃ rest, substr_from st.word (split_offset tw dil st) = .ok rest ∧
          param_desc_step tw dil di nl st c
            = .next { line := "", word := rest.push c, first_l := false, first_word := true,
                      out := forced_split_out tw dil di nl st }) ∧
      (st.line ≠ "" ∧ dil + st.line.length = tw →
        split_offset tw dil st = 18446744073709551615 ∧
        st.word.length < split_offset tw dil st ∧
        param_desc_step tw dil di nl st c
          = .raised .std_out_of_range (forced_split_out tw dil di nl st))) ∧
    (∀ (tw dil cil : Int) (other_len : Nat) (sp : String) (nl : Bool) (st : WrapState)
      (c : Char),
      choice_desc_step tw dil cil other_len sp nl st c
        = param_desc_step tw (dil + cil + other_len) sp nl st c) ∧
    (wrap_loop (param_desc_step 7 2 "  " true) "ab cd efghi".data
        { line := "", word := "", first_l := true, first_word := true, out := Cout.empty }
        = .next (pendingState "ab cd" "efghi") ∧
      takes_forced_split 7 2 (pendingState "ab cd" "efghi") ' ' ∧
      split_offset 7 2 (pendingState "ab cd" "efghi") = 18446744073709551615 ∧
      param_desc_step 7 2 "  " true (pendingState "ab cd" "efghi") ' '
        = .raised .std_out_of_range ⟨["  ab cd efghi"], ""⟩ ∧
      print_parameters (narrowRegistry "ab cd efghi") Cout.empty
        = .raised .std_out_of_range ⟨["--x", "  ab cd efghi"], ""⟩) ∧
    (print_choice (narrowChoiceRegistry "ab cd efghi") false ("a", "ab cd efghi ") Cout.empty
        = .raised .std_out_of_range ⟨["  \"a\": ab cd efghi"], ""⟩ ∧
      print_parameters (narrowChoiceRegistry "ab cd efghi") Cout.empty
        = .raised .std_out_of_range
            ⟨["--m <v>", "  d", "  \"a\":        ab cd efghi"], ""⟩) := by
  refine ⟨?_, ?_, ?_, ⟨by decide, by unfold takes_forced_split; decide, by decide, by decide,
    by decide⟩, ⟨by decide, by decide⟩⟩
  · intro tw dil di nl cs out st h0 h1 h2 h
    refine wrap_loop_bounded tw dil di nl h0 h1 h2 cs _ st ?_ h
    refine ⟨?_, ?_, fun _ => rfl⟩
    · simp only [String.length_empty]
      omega
    · simp only [String.length_empty]
      omega
  · intro tw dil di nl st c h0 h1 h2 hb hf
    have hw := (takes_forced_split_iff tw dil st c h0 h1 h2 hb).1 hf
    constructor
    · intro hs
      obtain ⟨o1, o2⟩ := split_offset_safe tw dil st h0 h1 h2 hb hw hs
      have hsub : substr_from st.word (split_offset tw dil st)
          = .ok (String.mk (st.word.data.drop (split_offset tw dil st))) := by
        unfold substr_from
        rw [if_neg (by omega)]
      refine ⟨o1, o2, _, hsub, ?_⟩
      rw [param_desc_step_forced _ _ _ _ _ _ hf, hsub]
    · rintro ⟨hl, hfull⟩
      have hoff := split_offset_wraps tw dil st hl hfull
      have hlt : st.word.length < split_offset tw dil st := by
        obtain ⟨_, b2, _⟩ := hb
        unfold INT_MAX at h2
        omega
      have hsub : substr_from st.word (split_offset tw dil st) = .error .std_out_of_range := by
        unfold substr_from
        rw [if_pos hlt]
      refine ⟨hoff, hlt, ?_⟩
      rw [param_desc_step_forced _ _ _ _ _ _ hf, hsub]
  · intro tw dil cil other_len sp nl st c
    exact choice_desc_step_eq tw dil cil other_len sp nl st c

/-- Witness of C28: at width 7 and indent 2 the word `"abcde"` next to an empty line
is split at the offset 5, and next to the line `"ab cd"` the word `"efghi"` is split at
an offset that wrapped around. -/
theorem split_offset_out_of_range_witness :
    ((split_offset 7 2 (pendingState "" "abcde") : Int) = 5 ∧
      split_offset 7 2 (pendingState "" "abcde") ≤ 5) ∧
    (pendingState "ab cd" "efghi").word.length
      < split_offset 7 2 (pendingState "ab cd" "efghi") :=
  have hb1 : (pendingState "" "abcde").bounded 7 2 := by
    unfold WrapState.bounded
    decide
  have hb2 : (pendingState "ab cd" "efghi").bounded 7 2 := by
    unfold WrapState.bounded
    decide
  have h1 := (split_offset_out_of_range.2.1 7 2 "  " true (pendingState "" "abcde") ' '
    (by decide) (by decide) (by decide) hb1 (by unfold takes_forced_split; decide)).1
    (Or.inl rfl)
  have h2 := (split_offset_out_of_range.2.1 7 2 "  " true (pendingState "ab cd" "efghi") ' '
    (by decide) (by decide) (by decide) hb2 (by unfold takes_forced_split; decide)).2
    ⟨by decide, by decide⟩
  ⟨⟨h1.1, h1.2.1⟩, h2.2.1⟩

/-! ## The claim on the layout of the choices -/

theorem choice_desc_step_fun (tw dil cil : Int) (other_len : Nat) (sp : String) (nl : Bool) :
    choice_desc_step tw dil cil other_len sp nl
      = param_desc_step tw (dil + cil + other_len) sp nl := by
  funext st c
  exact choice_desc_step_eq tw dil cil other_len sp nl st c

/-- C23: the choice loop of `print_parameters` is the description loop at the indent
`I = desc_indent_len + choice_indent_len + other_len`, run after the prefix
`desc_indent + choice_indent + "label" + separator` with a string of `I` spaces for the
continuation lines, but it is handed the flag `desc_on_new_line` of the parameter: the
first line of a choice description follows the prefix directly only when the use
string of the parameter fits before the description column. For `--compression-mode`,
whose use string is printed alone on its line, each choice line has `I = 30` spaces
between the prefix and the description. -/
theorem print_choice_pads_first_line {F : FloatLib} :
    (∀ (s : Parameters F) (desc_on_new_line : Bool) (p : String × String) (out : Cout),
      print_choice s desc_on_new_line p out
        = match s.lang with
          | .lang_fr =>
            print_param_description s.terminal_width
              (s.desc_indent_len + s.choice_indent_len + szAdd 5 p.1.length)
              (s.desc_indent ++ s.choice_indent
                ++ String.mk (List.replicate (szAdd 5 p.1.length) ' '))
              desc_on_new_line p.2
              (((((out.put s.desc_indent).put s.choice_indent).put "\"").put p.1).put "\" : ")
          | .lang_us =>
            print_param_description s.terminal_width
              (s.desc_indent_len + s.choice_indent_len + szAdd 4 p.1.length)
              (s.desc_indent ++ s.choice_indent
                ++ String.mk (List.replicate (szAdd 4 p.1.length) ' '))
              desc_on_new_line p.2
              (((((out.put s.desc_indent).put s.choice_indent).put "\"").put p.1).put "\": ")) ∧
    (∀ (s : Parameters F) (n : Nat), 0 ≤ s.desc_indent_len → 0 ≤ s.choice_indent_len →
      s.desc_indent = spaces s.desc_indent_len → s.choice_indent = spaces s.choice_indent_len →
      s.desc_indent ++ s.choice_indent ++ String.mk (List.replicate n ' ')
        = spaces (s.desc_indent_len + s.choice_indent_len + n)) ∧
    print_parameters (modeRegistry []) Cout.empty
      = .next ⟨["  --mode <m>        the mode", "                      \"fast\": go fast",
          "                      \"slow\": go slow", ""], ""⟩ ∧
    print_parameters longNameRegistry Cout.empty
      = .next ⟨["  --compression-mode <m>", "                    the mode",
          "                      \"fast\":                               go fast",
          "                      \"slow\":                               go slow", ""], ""⟩ ∧
    print_choice longNameRegistry true ("fast", "go fast ") Cout.empty
      = .next ⟨["                      \"fast\": " ++ spaces 30 ++ "go fast"], ""⟩ ∧
    print_choice longNameRegistry false ("fast", "go fast ") Cout.empty
      = .next ⟨["                      \"fast\": go fast"], ""⟩ := by
  refine ⟨?_, ?_, by decide, by decide, by decide, by decide⟩
  · intro s nl p out
    unfold print_choice print_param_description
    cases s.lang <;> simp only [choice_desc_step_fun]
  · intro s n h0 h1 hd hc
    rw [hd, hc]
    unfold spaces
    apply String.ext
    simp only [String.data_append, List.append_assoc]
    rw [← List.replicate_add, ← List.replicate_add]
    congr 1
    omega

/-- Witness of C23: the continuation lines of the choices of `--mode` in the layout
`cfg80` start with `20 + 2 + 8` spaces. -/
theorem print_choice_pads_first_line_witness :
    (modeRegistry []).desc_indent ++ (modeRegistry []).choice_indent
        ++ String.mk (List.replicate 8 ' ')
      = spaces 30 :=
  (@print_choice_pads_first_line FloatLib.integral).2.1 (modeRegistry []) 8 (by decide)
    (by decide) rfl rfl

/-! ## Lemmas on a text that fits on one line -/

theorem print_description_step_consumed (tw : Int) (h2 : tw ≤ INT_MAX) (st : DescState)
    (c : Char) (hinv : st.first_word = true → st.line = "")
    (hfit : (st.consumed.length : Int) + 1 ≤ tw) :
    (print_description_step tw st c).consumed = st.consumed ++ [c] ∧
    (print_description_step tw st c).out = st.out ∧
    ((print_description_step tw st c).first_word = true →
      (print_description_step tw st c).line = "") ∧
    (c = ' ' → (print_description_step tw st c).first_word = false ∧
      (print_description_step tw st c).word = "") := by
  unfold print_description_step
  by_cases hc : c ≠ ' '
  · rw [if_pos hc]
    refine ⟨?_, rfl, hinv, fun h => absurd h hc⟩
    unfold DescState.consumed
    cases hf : st.first_word <;> simp [String.push]
  · rw [if_neg hc]
    have hc' : c = ' ' := by simpa using hc
    subst hc'
    have hcond : szAdd (szAdd st.line.length st.word.length) 1 ≤ toSizeT tw := by
      unfold DescState.consumed at hfit
      unfold INT_MAX at h2
      unfold szAdd toSizeT
      cases hf : st.first_word
      · rw [hf] at hfit
        simp only [Bool.false_eq_true, if_false, List.length_append, List.length_cons] at hfit
        have e1 : st.line.data.length = st.line.length := rfl
        have e2 : st.word.data.length = st.word.length := rfl
        rw [e1, e2] at hfit
        omega
      · rw [hf] at hfit
        simp only [if_true] at hfit
        have e2 : st.word.data.length = st.word.length := rfl
        have e1 : st.line.length = 0 := by rw [hinv hf]; rfl
        rw [e2] at hfit
        omega
    rw [if_pos hcond]
    cases hf : st.first_word
    · simp [DescState.consumed, hf]
    · simp [DescState.consumed, hf]

theorem print_description_fold_consumed (tw : Int) (h2 : tw ≤ INT_MAX) :
    ∀ (cs : List Char) (st : DescState), (st.first_word = true → st.line = "") →
      (st.consumed.length : Int) + cs.length ≤ tw →
      (cs.foldl (print_description_step tw) st).consumed = st.consumed ++ cs ∧
      (cs.foldl (print_description_step tw) st).out = st.out ∧
      ((cs.foldl (print_description_step tw) st).first_word = true →
        (cs.foldl (print_description_step tw) st).line = "") := by
  intro cs
  induction cs with
  | nil =>
    intro st hinv _
    exact ⟨by simp, rfl, hinv⟩
  | cons c cs ih =>
    intro st hinv hfit
    simp only [List.length_cons] at hfit
    obtain ⟨a1, a2, a3, _⟩ := print_description_step_consumed tw h2 st c hinv (by push_cast at hfit; omega)
    have := ih (print_description_step tw st c) a3 (by
      rw [a1]
      simp only [List.length_append, List.length_singleton]
      push_cast at hfit ⊢
      omega)
    obtain ⟨b1, b2, b3⟩ := this
    simp only [List.foldl_cons]
    refine ⟨?_, ?_, b3⟩
    · rw [b1, a1]
      simp
    · rw [b2, a2]

theorem print_description_verbatim {F : FloatLib} (s : Parameters F) (d : String) (out : Cout)
    (hd : s.description = d ++ " ") (hfit : (d.length : Int) + 1 ≤ s.terminal_width)
    (h2 : s.terminal_width ≤ INT_MAX) :
    print_description s out = ((out.endl).put d).endl := by
  unfold print_description
  rw [hd]
  have hdata : (d ++ " ").data = d.data ++ [' '] := rfl
  rw [hdata, List.foldl_append]
  have hinit : ({ line := "", word := "", first_word := true, out := out.endl } : DescState).consumed
      = [] := rfl
  obtain ⟨b1, b2, b3⟩ := print_description_fold_consumed s.terminal_width h2 d.data
    { line := "", word := "", first_word := true, out := out.endl } (fun _ => rfl) (by
      rw [hinit]
      have : d.data.length = d.length := rfl
      simp only [List.length_nil, this]
      push_cast
      omega)
  rw [hinit, List.nil_append] at b1
  generalize (List.foldl (print_description_step s.terminal_width)
    { line := "", word := "", first_word := true, out := out.endl } d.data) = st1 at b1 b2 b3
  obtain ⟨a1, a2, a3, a4⟩ := print_description_step_consumed s.terminal_width h2 st1 ' ' b3 (by
    rw [b1]
    exact hfit)
  obtain ⟨a5, a6⟩ := a4 rfl
  simp only [List.foldl_cons, List.foldl_nil]
  have hline : (print_description_step s.terminal_width st1 ' ').line = d := by
    unfold DescState.consumed at a1
    rw [a5, a6] at a1
    simp only [Bool.false_eq_true, if_false] at a1
    rw [← DescState.consumed, b1] at a1
    have h3 : (print_description_step s.terminal_width st1 ' ').line.data = d.data :=
      List.append_cancel_right a1
    exact String.ext h3
  rw [hline, a2, b2]

theorem param_desc_step_consumed (tw dil : Int) (di : String) (nl : Bool) (h0 : 0 ≤ dil)
    (h2 : tw ≤ INT_MAX) (st : WrapState) (c : Char)
    (hinv : st.first_word = true → st.line = "")
    (hfit : dil + (st.consumed.length : Int) + 1 ≤ tw) :
    ∃ st', param_desc_step tw dil di nl st c = .next st' ∧
      st'.consumed = st.consumed ++ [c] ∧ st'.out = st.out ∧ st'.first_l = st.first_l ∧
      (st'.first_word = true → st'.line = "") ∧
      (c = ' ' → st'.first_word = false ∧ st'.word = "") := by
  have hlen : dil + (st.line.length : Int) + st.word.length + 1 ≤ tw := by
    unfold WrapState.consumed at hfit
    cases hf : st.first_word
    · rw [hf] at hfit
      simp only [Bool.false_eq_true, if_false, List.length_append, List.length_cons] at hfit
      have e1 : st.line.data.length = st.line.length := rfl
      have e2 : st.word.data.length = st.word.length := rfl
      rw [e1, e2] at hfit
      push_cast at hfit
      omega
    · rw [hf] at hfit
      simp only [if_true] at hfit
      have e2 : st.word.data.length = st.word.length := rfl
      have e1 : st.line.length = 0 := by rw [hinv hf]; rfl
      rw [e2] at hfit
      rw [e1]
      push_cast
      omega
  unfold param_desc_step
  by_cases hc : c ≠ ' '
  · have hcond : szAdd (toSizeT dil) st.word.length < toSizeT tw := by
      unfold INT_MAX at h2
      unfold szAdd toSizeT
      omega
    rw [if_pos ⟨hc, hcond⟩]
    refine ⟨_, rfl, ?_, rfl, rfl, hinv, fun h => absurd h hc⟩
    unfold WrapState.consumed
    cases hf : st.first_word <;> simp [String.push, hf]
  · rw [if_neg (fun h => hc h.1)]
    have hc' : c = ' ' := by simpa using hc
    subst hc'
    have hcond : szAdd (szAdd (szAdd (toSizeT dil) st.line.length) st.word.length) 1
        ≤ toSizeT tw := by
      unfold INT_MAX at h2
      unfold szAdd toSizeT
      omega
    rw [if_pos hcond]
    cases hf : st.first_word
    · exact ⟨_, rfl, by simp [WrapState.consumed, hf], rfl, rfl, by simp, fun _ => ⟨rfl, rfl⟩⟩
    · exact ⟨_, rfl, by simp [WrapState.consumed, hf], rfl, rfl, by simp, fun _ => ⟨rfl, rfl⟩⟩

theorem wrap_loop_consumed (tw dil : Int) (di : String) (nl : Bool) (h0 : 0 ≤ dil)
    (h2 : tw ≤ INT_MAX) :
    ∀ (cs : List Char) (st : WrapState), (st.first_word = true → st.line = "") →
      dil + (st.consumed.length : Int) + cs.length ≤ tw →
      ∃ st', wrap_loop (param_desc_step tw dil di nl) cs st = .next st' ∧
        st'.consumed = st.consumed ++ cs ∧ st'.out = st.out ∧ st'.first_l = st.first_l ∧
        (st'.first_word = true → st'.line = "") := by
  intro cs
  induction cs with
  | nil =>
    intro st hinv _
    exact ⟨st, rfl, by simp, rfl, rfl, hinv⟩
  | cons c cs ih =>
    intro st hinv hfit
    simp only [List.length_cons] at hfit
    obtain ⟨st1, a0, a1, a2, a3, a4, _⟩ := param_desc_step_consumed tw dil di nl h0 h2 st c hinv
      (by push_cast at hfit; omega)
    obtain ⟨st2, b0, b1, b2, b3, b4⟩ := ih st1 a4 (by
      rw [a1]
      simp only [List.length_append, List.length_singleton]
      push_cast at hfit ⊢
      omega)
    refine ⟨st2, ?_, ?_, ?_, ?_, b4⟩
    · simp only [wrap_loop, a0]
      exact b0
    · rw [b1, a1]
      simp
    · rw [b2, a2]
    · rw [b3, a3]

theorem wrap_loop_append (step : WrapState → Char → Printed WrapState) :
    ∀ (cs ds : List Char) (st : WrapState),
      wrap_loop step (cs ++ ds) st
        = match wrap_loop step cs st with
          | .next st' => wrap_loop step ds st'
          | .raised e out => .raised e out := by
  intro cs
  induction cs with
  | nil => intro ds st; rfl
  | cons c cs ih =>
    intro ds st
    simp only [List.cons_append, wrap_loop]
    cases step st c with
    | next st' => exact ih ds st'
    | raised e out => rfl

theorem print_param_description_verbatim (tw dil : Int) (di : String) (nl : Bool) (d : String)
    (out : Cout) (h0 : 0 ≤ dil) (hfit : dil + (d.length : Int) + 1 ≤ tw) (h2 : tw ≤ INT_MAX) :
    print_param_description tw dil di nl (d ++ " ") out
      = .next (((if nl then out.put di else out).put d).endl) := by
  unfold print_param_description
  have hdata : (d ++ " ").data = d.data ++ [' '] := rfl
  rw [hdata, wrap_loop_append]
  have hinit : ({ line := "", word := "", first_l := true, first_word := true, out := out } :
      WrapState).consumed = [] := rfl
  obtain ⟨st1, b0, b1, b2, b3, b4⟩ := wrap_loop_consumed tw dil di nl h0 h2 d.data
    { line := "", word := "", first_l := true, first_word := true, out := out } (fun _ => rfl) (by
      rw [hinit]
      have : d.data.length = d.length := rfl
      simp only [List.length_nil, this]
      push_cast
      omega)
  rw [hinit, List.nil_append] at b1
  obtain ⟨st2, a0, a1, a2, a3, _, a4⟩ := param_desc_step_consumed tw dil di nl h0 h2 st1 ' ' b4
    (by
      rw [b1]
      have : d.data.length = d.length := rfl
      rw [this]
      exact hfit)
  obtain ⟨a5, a6⟩ := a4 rfl
  have hline : st2.line = d := by
    unfold WrapState.consumed at a1
    rw [a5, a6] at a1
    simp only [Bool.false_eq_true, if_false] at a1
    rw [← WrapState.consumed, b1] at a1
    have h3 : st2.line.data = d.data := List.append_cancel_right a1
    exact String.ext h3
  have hfl : st2.first_l = true := by rw [a3, b3]
  have hout : st2.out = out := by rw [a2, b2]
  simp only [b0, wrap_loop, a0, hline, hfl, hout, Bool.not_true, Bool.false_or]

/-! ## Lemmas on the two wrap loops side by side -/

theorem runs_below_cur (n : Nat) : ∀ (cs : List Char) (cur : Nat), runs_below n cs cur → cur < n := by
  intro cs
  induction cs with
  | nil => intro cur h; exact h
  | cons c cs ih =>
    intro cur h
    simp only [runs_below] at h
    split at h
    · exact h.1
    · have := ih _ h
      omega

theorem splitOnP_go_runs (n : Nat) :
    ∀ (cs acc : List Char),
      (∀ w ∈ List.splitOnP.go (fun x => x == ' ') cs acc, w.length < n)
        ↔ runs_below n cs acc.length := by
  intro cs
  induction cs with
  | nil =>
    intro acc
    simp [List.splitOnP.go, runs_below]
  | cons c cs ih =>
    intro acc
    simp only [List.splitOnP.go, runs_below]
    by_cases hc : c = ' '
    · subst hc
      simp only [beq_self_eq_true, if_true, List.mem_cons, forall_eq_or_imp, List.length_reverse]
      rw [ih []]
      rfl
    · have hb : (c == ' ') = false := by simpa using hc
      simp only [hb, Bool.false_eq_true, if_false, if_neg hc]
      rw [ih (c :: acc)]
      rfl

theorem words_runs (s : String) (n : Nat) (hn : 0 < n) :
    (∀ w ∈ words s, w.length < n) ↔ runs_below n s.data 0 := by
  rw [← List.length_nil, ← splitOnP_go_runs n s.data []]
  unfold words List.splitOn List.splitOnP
  constructor
  · intro h w hw
    by_cases he : w = []
    · subst he
      exact hn
    · have := h (String.mk w) (List.mem_map_of_mem _ (List.mem_filter.mpr ⟨hw, by simpa using he⟩))
      exact this
  · intro h w hw
    obtain ⟨l, hl, rfl⟩ := List.mem_map.mp hw
    exact h l (List.mem_filter.mp hl).1

theorem Cout.put_empty (o : Cout) : o.put "" = o := by
  unfold Cout.put
  simp

theorem param_desc_step_toWrap (tw : Int) (h1 : 0 < tw) (h2 : tw ≤ INT_MAX) (ds : DescState)
    (fl : Bool) (c : Char) (hw : (ds.word.length : Int) < tw) :
    ∃ fl', param_desc_step tw 0 "" true (ds.toWrap fl) c
      = .next ((print_description_step tw ds c).toWrap fl') := by
  have hguard : szAdd (toSizeT 0) ds.word.length < toSizeT tw := by
    unfold INT_MAX at h2
    unfold szAdd toSizeT
    omega
  have hsame : szAdd (szAdd (szAdd (toSizeT 0) ds.line.length) ds.word.length) 1
      = szAdd (szAdd ds.line.length ds.word.length) 1 := by
    unfold szAdd toSizeT
    omega
  unfold param_desc_step print_description_step
  simp only [DescState.toWrap, hsame]
  by_cases hc : c ≠ ' '
  · rw [if_pos ⟨hc, hguard⟩, if_pos hc]
    exact ⟨fl, rfl⟩
  · rw [if_neg (fun h => hc h.1), if_neg hc]
    by_cases hfit : szAdd (szAdd ds.line.length ds.word.length) 1 ≤ toSizeT tw
    · rw [if_pos hfit, if_pos hfit]
      cases hf : ds.first_word
      · exact ⟨fl, rfl⟩
      · exact ⟨fl, rfl⟩
    · rw [if_neg hfit, if_neg hfit]
      simp only [if_pos hguard, Bool.or_true, if_true, Cout.put_empty]
      exact ⟨false, rfl⟩

theorem print_description_step_word (tw : Int) (ds : DescState) (c : Char) :
    (c = ' ' → (print_description_step tw ds c).word = "") ∧
    (c ≠ ' ' → (print_description_step tw ds c).word = ds.word.push c) := by
  unfold print_description_step
  constructor
  · intro hc
    rw [if_neg (fun h => h hc)]
    split
    · split <;> rfl
    · rfl
  · intro hc
    rw [if_pos hc]

theorem wrap_loop_toWrap (tw : Int) (h1 : 0 < tw) (h2 : tw ≤ INT_MAX) :
    ∀ (cs : List Char) (ds : DescState) (fl : Bool),
      runs_below tw.toNat cs ds.word.length →
      ∃ fl', wrap_loop (param_desc_step tw 0 "" true) cs (ds.toWrap fl)
        = .next ((cs.foldl (print_description_step tw) ds).toWrap fl') := by
  intro cs
  induction cs with
  | nil =>
    intro ds fl _
    exact ⟨fl, rfl⟩
  | cons c cs ih =>
    intro ds fl hr
    have hcur := runs_below_cur _ _ _ hr
    obtain ⟨fl1, hstep⟩ := param_desc_step_toWrap tw h1 h2 ds fl c (by omega)
    obtain ⟨w1, w2⟩ := print_description_step_word tw ds c
    have hr' : runs_below tw.toNat cs (print_description_step tw ds c).word.length := by
      simp only [runs_below] at hr
      by_cases hc : c = ' '
      · rw [if_pos hc] at hr
        rw [w1 hc]
        exact hr.2
      · rw [if_neg hc] at hr
        rw [w2 hc, String.length_push]
        exact hr
    obtain ⟨fl2, hloop⟩ := ih (print_description_step tw ds c) fl1 hr'
    refine ⟨fl2, ?_⟩
    simp only [wrap_loop, hstep, List.foldl_cons]
    exact hloop

theorem splitOnP_go_mem (P : Char → Bool) :
    ∀ (cs acc : List Char), ∀ w ∈ List.splitOnP.go P cs acc, ∀ c ∈ w, c ∈ acc ∨ c ∈ cs := by
  intro cs
  induction cs with
  | nil =>
    intro acc w hw c hc
    simp only [List.splitOnP.go, List.mem_singleton] at hw
    subst hw
    exact Or.inl (List.mem_reverse.mp hc)
  | cons a t ih =>
    intro acc w hw c hc
    simp only [List.splitOnP.go] at hw
    by_cases hp : P a = true
    · rw [if_pos hp] at hw
      rcases List.mem_cons.mp hw with hw | hw
      · subst hw
        exact Or.inl (List.mem_reverse.mp hc)
      · rcases ih [] w hw c hc with h | h
        · simp at h
        · exact Or.inr (List.mem_cons_of_mem _ h)
    · rw [if_neg hp] at hw
      rcases ih (a :: acc) w hw c hc with h | h
      · rcases List.mem_cons.mp h with h | h
        · exact Or.inr (by rw [h]; exact List.mem_cons_self _ _)
        · exact Or.inl h
      · exact Or.inr (List.mem_cons_of_mem _ h)

/-- The words of an ASCII text are ASCII texts. -/
theorem words_ascii (s : String) (h : ascii s) : ∀ w ∈ words s, ascii w := by
  intro w hw c hc
  unfold words List.splitOn List.splitOnP at hw
  obtain ⟨l, hl, rfl⟩ := List.mem_map.mp hw
  rcases splitOnP_go_mem _ s.data [] l (List.mem_filter.mp hl).1 c hc with h1 | h1
  · simp at h1
  · exact h c h1

/-! ## The claim on the program description and the parameter description -/

/-- Counterexample to C22: at width 5 `print_description` emits for `"ab cd"` an empty
line before the line `"ab cd"`, which the description loop at indent 0 does not, and
for `"abcdefgh"` it emits the word whole on one line where the description loop emits
`"abcde"` and `"fgh"`; for the word `"abcde"`, as long as the width, the lines differ
too. -/
theorem print_description_differs_from_param_wrap :
    print_description (describedProgram "ab cd") Cout.empty = ⟨["", "ab cd"], ""⟩ ∧
    print_param_description 5 0 "" true "ab cd " Cout.empty = .next ⟨["ab cd"], ""⟩ ∧
    print_description (describedProgram "abcdefgh") Cout.empty
      = ⟨["", "", "abcdefgh"], ""⟩ ∧
    print_param_description 5 0 "" true "abcdefgh " Cout.empty
      = .next ⟨["abcde", "fgh"], ""⟩ ∧
    print_description (describedProgram "abcde") Cout.empty = ⟨["", "", "abcde"], ""⟩ ∧
    print_param_description 5 0 "" true "abcde " Cout.empty
      = .next ⟨["abcde", ""], ""⟩ := by
  decide

/-- C22, amended: for every ASCII text whose words are all strictly shorter than
`terminal_width` (lengths in bytes), with `0 < terminal_width`, `print_description`
emits an empty line and then exactly what the description loop of `print_parameters`
emits for the same text with `desc_indent_len = 0` and an empty `desc_indent`, started
on a new line. -/
theorem print_description_eq_param_wrap {F : FloatLib} (s : Parameters F) (out : Cout)
    (ha : ascii s.description) (h1 : 0 < s.terminal_width) (h2 : s.terminal_width ≤ INT_MAX)
    (hw : ∀ w ∈ words s.description, (w.utf8ByteSize : Int) < s.terminal_width) :
    print_param_description s.terminal_width 0 "" true s.description out.endl
      = .next (print_description s out) := by
  have hr : runs_below s.terminal_width.toNat s.description.data 0 := by
    rw [← words_runs _ _ (by omega)]
    intro w hin
    have := hw w hin
    rw [ascii_utf8ByteSize w (words_ascii _ ha w hin)] at this
    omega
  obtain ⟨fl, hloop⟩ := wrap_loop_toWrap s.terminal_width h1 h2 s.description.data
    { line := "", word := "", first_word := true, out := out.endl } true hr
  unfold print_param_description print_description
  have hinit : ({ line := "", word := "", first_l := true, first_word := true, out := out.endl } :
      WrapState)
      = ({ line := "", word := "", first_word := true, out := out.endl } : DescState).toWrap true :=
    rfl
  rw [hinit, hloop]
  simp only [DescState.toWrap, Bool.or_true, if_true, Cout.put_empty]

/-- Witness of C22, amended: the text `"ab cd efg"` at width 5. -/
theorem print_description_eq_param_wrap_witness :
    print_param_description 5 0 "" true "ab cd efg " Cout.empty.endl
      = .next (print_description (describedProgram "ab cd efg") Cout.empty) ∧
    print_description (describedProgram "ab cd efg") Cout.empty
      = ⟨["", "ab cd", "efg"], ""⟩ :=
  ⟨print_description_eq_param_wrap (describedProgram "ab cd efg") Cout.empty (by decide)
      (by decide) (by decide) (by decide),
    by decide⟩

/-! ## Lemmas on the indentation of the lines of a description -/

theorem indent_lines_concat (di : String) (nl : Bool) (l0 : String) (ls : List String)
    (x : String) :
    indent_lines di nl ((l0 :: ls) ++ [x]) = indent_lines di nl (l0 :: ls) ++ [di ++ x] := by
  simp [indent_lines]

theorem flush_out_indent (di : String) (nl : Bool) (b0 : Cout) (fl : Bool) (text : String)
    (hcur : b0.cur = "") (hfl : fl = true ↔ b0.lines = []) :
    ((if !fl || nl then (b0.indent di nl).put di else b0.indent di nl).put text).endl
      = (((if !fl || true then b0.put "" else b0).put text).endl).indent di nl := by
  obtain ⟨ls, cur⟩ := b0
  simp only at hcur hfl
  subst hcur
  cases ls with
  | nil =>
    have hfl' : fl = true := hfl.2 rfl
    subst hfl'
    cases nl <;> simp [Cout.indent, indent_lines, Cout.put, Cout.endl]
  | cons l0 ls =>
    have hfl' : fl = false := by
      cases fl
      · rfl
      · have := hfl.1 rfl
        simp at this
    subst hfl'
    cases nl <;> simp [Cout.indent, indent_lines, Cout.put, Cout.endl]

theorem forced_split_out_indent (tw dil : Int) (di : String) (nl : Bool) (st0 : WrapState)
    (h : st0.fresh) :
    forced_split_out tw dil di nl (st0.indent di nl)
      = (forced_split_out tw dil "" true st0).indent di nl := by
  obtain ⟨line, word, fl, fw, b0⟩ := st0
  obtain ⟨hcur, hfl⟩ := h
  simp only at hcur hfl
  have hoff : split_offset tw dil (WrapState.indent di nl ⟨line, word, fl, fw, b0⟩)
      = split_offset tw dil ⟨line, word, fl, fw, b0⟩ := rfl
  unfold forced_split_out
  rw [hoff]
  simp only [WrapState.indent]
  by_cases hl : line = ""
  · simp only [hl, ne_eq, not_true_eq_false, if_false]
    exact flush_out_indent di nl b0 fl _ hcur hfl
  · simp only [ne_eq, hl, not_false_eq_true, if_true]
    have := flush_out_indent di nl b0 fl
      (line ++ " " ++ substr_to word (split_offset tw dil ⟨line, word, fl, fw, b0⟩)) hcur hfl
    simp only [Cout.put, Cout.endl, String.append_assoc] at this ⊢
    exact this

theorem param_desc_step_indent (tw dil : Int) (di : String) (nl : Bool) (st0 : WrapState)
    (c : Char) (h : st0.fresh) :
    param_desc_step tw dil di nl (st0.indent di nl) c
      = (param_desc_step tw dil "" true st0 c).indent_state di nl ∧
    (∀ st1, param_desc_step tw dil "" true st0 c = .next st1 → st1.fresh) := by
  by_cases hf : takes_forced_split tw dil st0 c
  · have hf' : takes_forced_split tw dil (st0.indent di nl) c := hf
    rw [param_desc_step_forced _ _ _ _ _ _ hf, param_desc_step_forced _ _ _ _ _ _ hf',
      forced_split_out_indent tw dil di nl st0 h]
    have hoff : split_offset tw dil (st0.indent di nl) = split_offset tw dil st0 := rfl
    have hword : (st0.indent di nl).word = st0.word := rfl
    rw [hoff, hword]
    cases substr_from st0.word (split_offset tw dil st0) with
    | error e => exact ⟨rfl, fun st1 h1 => by cases h1⟩
    | ok rest =>
      refine ⟨rfl, fun st1 h1 => ?_⟩
      simp only [Printed.next.injEq] at h1
      subst h1
      unfold forced_split_out
      simp [WrapState.fresh, Cout.put, Cout.endl]
  · obtain ⟨hcur, hfl⟩ := h
    unfold takes_forced_split at hf
    unfold param_desc_step
    simp only [WrapState.indent]
    by_cases c1 : c ≠ ' ' ∧ szAdd (toSizeT dil) st0.word.length < toSizeT tw
    · rw [if_pos c1, if_pos c1]
      refine ⟨rfl, fun st1 h1 => ?_⟩
      simp only [Printed.next.injEq] at h1
      subst h1
      exact ⟨hcur, hfl⟩
    · rw [if_neg c1, if_neg c1]
      by_cases c2 : szAdd (szAdd (szAdd (toSizeT dil) st0.line.length) st0.word.length) 1
          ≤ toSizeT tw
      · rw [if_pos c2, if_pos c2]
        cases hfw : st0.first_word
        · refine ⟨rfl, fun st1 h1 => ?_⟩
          simp only [Bool.false_eq_true, if_false, Printed.next.injEq] at h1
          subst h1
          exact ⟨hcur, hfl⟩
        · refine ⟨rfl, fun st1 h1 => ?_⟩
          simp only [if_true, Printed.next.injEq] at h1
          subst h1
          exact ⟨hcur, hfl⟩
      · rw [if_neg c2, if_neg c2]
        have c3 : szAdd (toSizeT dil) st0.word.length < toSizeT tw := by
          by_contra hcon
          exact hf ⟨c1, c2, hcon⟩
        simp only [if_pos c3]
        rw [flush_out_indent di nl st0.out st0.first_l st0.line hcur hfl]
        refine ⟨rfl, fun st1 h1 => ?_⟩
        simp only [Printed.next.injEq] at h1
        subst h1
        simp [WrapState.fresh, Cout.put, Cout.endl]

theorem wrap_loop_indent (tw dil : Int) (di : String) (nl : Bool) :
    ∀ (cs : List Char) (st0 : WrapState), st0.fresh →
      wrap_loop (param_desc_step tw dil di nl) cs (st0.indent di nl)
        = (wrap_loop (param_desc_step tw dil "" true) cs st0).indent_state di nl ∧
      (∀ st1, wrap_loop (param_desc_step tw dil "" true) cs st0 = .next st1 → st1.fresh) := by
  intro cs
  induction cs with
  | nil =>
    intro st0 h
    refine ⟨rfl, fun st1 h1 => ?_⟩
    simp only [wrap_loop, Printed.next.injEq] at h1
    subst h1
    exact h
  | cons c cs ih =>
    intro st0 h
    obtain ⟨e1, e2⟩ := param_desc_step_indent tw dil di nl st0 c h
    simp only [wrap_loop, e1]
    cases hstep : param_desc_step tw dil "" true st0 c with
    | raised e b => exact ⟨rfl, fun st1 h1 => by cases h1⟩
    | next st1 => exact ih st1 (e2 st1 hstep)

/-- The description loop started on the empty stream prints the lines of the loop run
without indentation, indented. -/
theorem print_param_description_indent (tw dil : Int) (di : String) (nl : Bool)
    (description : String) :
    print_param_description tw dil di nl description Cout.empty
      = (print_param_description tw dil "" true description Cout.empty).indent di nl := by
  unfold print_param_description
  have hinit : WrapState.fresh
      { line := "", word := "", first_l := true, first_word := true, out := Cout.empty } :=
    ⟨rfl, by simp [Cout.empty]⟩
  obtain ⟨e1, e2⟩ := wrap_loop_indent tw dil di nl description.data _ hinit
  have e1' : wrap_loop (param_desc_step tw dil di nl) description.data
      { line := "", word := "", first_l := true, first_word := true, out := Cout.empty }
      = (wrap_loop (param_desc_step tw dil "" true) description.data
          { line := "", word := "", first_l := true, first_word := true,
            out := Cout.empty }).indent_state di nl := e1
  rw [e1']
  cases hloop : wrap_loop (param_desc_step tw dil "" true) description.data
      { line := "", word := "", first_l := true, first_word := true, out := Cout.empty } with
  | raised e b => rfl
  | next st1 =>
    obtain ⟨hcur, hfl⟩ := e2 st1 hloop
    simp only [Printed.indent_state, WrapState.indent, Printed.indent]
    rw [flush_out_indent di nl st1.out st1.first_l st1.line hcur hfl]

theorem Cout.put_put (o : Cout) (a b : String) : (o.put a).put b = o.put (a ++ b) := by
  simp [Cout.put, String.append_assoc]

theorem print_param_block_rest {F : FloatLib} (s : Parameters F) (p : ParamHolder F)
    (out : Cout)
    (h : ¬ (!decide (szAdd (use_string s p).length (toSizeT s.param_to_desc_len)
        > toSizeT s.desc_indent_len) ∧
      szSub (toSizeT s.desc_indent_len) (use_string s p).length > INT_MAX.toNat)) :
    print_param_block s p out
      = print_block_rest s p
          (decide (szAdd (use_string s p).length (toSizeT s.param_to_desc_len)
            > toSizeT s.desc_indent_len))
          (print_param_description s.terminal_width s.desc_indent_len s.desc_indent
            (decide (szAdd (use_string s p).length (toSizeT s.param_to_desc_len)
              > toSizeT s.desc_indent_len))
            p.description
            (if decide (szAdd (use_string s p).length (toSizeT s.param_to_desc_len)
                > toSizeT s.desc_indent_len) then (out.put (use_string s p)).endl
              else (out.put (use_string s p)).put
                (String.mk (List.replicate
                  (szSub (toSizeT s.desc_indent_len) (use_string s p).length) ' ')))) := by
  unfold print_param_block
  simp only
  rw [if_neg h]
  cases print_param_description s.terminal_width s.desc_indent_len s.desc_indent
      (decide (szAdd (use_string s p).length (toSizeT s.param_to_desc_len)
        > toSizeT s.desc_indent_len))
      p.description
      (if decide (szAdd (use_string s p).length (toSizeT s.param_to_desc_len)
          > toSizeT s.desc_indent_len) then (out.put (use_string s p)).endl
        else (out.put (use_string s p)).put
          (String.mk (List.replicate
            (szSub (toSizeT s.desc_indent_len) (use_string s p).length) ' '))) with
  | raised e o => rfl
  | next o => rfl

theorem spaces_length (n : Int) : (spaces n).length = n.toNat ∧ ∀ c ∈ (spaces n).data, c = ' ' := by
  unfold spaces
  constructor
  · simp [String.length]
  · intro c hc
    exact List.eq_of_mem_replicate hc

/-- The description loop run after the stream `out` writes after `out` the lines of
the loop run without indentation, indented. -/
theorem print_param_description_layout (tw dil : Int) (di : String) (nl : Bool)
    (description : String) (out : Cout) :
    print_param_description tw dil di nl description out
      = ((print_param_description tw dil "" true description Cout.empty).indent di nl).after
          out := by
  have h := print_param_description_after tw dil di nl description out Cout.empty
  rw [Cout.append_empty] at h
  rw [h, print_param_description_indent]

/-! ## The claim on the column of the description lines -/

/-- In a layout with non-negative widths whose `desc_indent` is the string of
`desc_indent_len` spaces, the block of a parameter is its use string, padded to
`desc_indent_len` characters when it leaves room for `param_to_desc_len` more and alone
on its line otherwise, followed by the lines of the description loop run without
indentation, each after `desc_indent` except the first one next to a padded use
string. -/
theorem print_param_block_layout {F : FloatLib} (s : Parameters F)
    (p : ParamHolder F) (out : Cout) (h0 : 0 ≤ s.desc_indent_len)
    (h1 : s.desc_indent_len ≤ INT_MAX) (h2 : 0 ≤ s.param_to_desc_len)
    (h3 : s.param_to_desc_len ≤ INT_MAX)
    (h4 : (use_string s p).length < 9223372036854775808)
    (hdi : s.desc_indent = spaces s.desc_indent_len) :
    (s.desc_indent.length = s.desc_indent_len.toNat ∧ ∀ c ∈ s.desc_indent.data, c = ' ') ∧
    (((use_string s p).length : Int) + s.param_to_desc_len ≤ s.desc_indent_len →
      (use_string s p ++ spaces (s.desc_indent_len - (use_string s p).length)).length
        = s.desc_indent_len.toNat ∧
      print_param_block s p out
        = print_block_rest s p false
            (((print_param_description s.terminal_width s.desc_indent_len "" true
                p.description Cout.empty).indent s.desc_indent false).after
              (out.put (use_string s p
                ++ spaces (s.desc_indent_len - (use_string s p).length))))) ∧
    (s.desc_indent_len < ((use_string s p).length : Int) + s.param_to_desc_len →
      print_param_block s p out
        = print_block_rest s p true
            (((print_param_description s.terminal_width s.desc_indent_len "" true
                p.description Cout.empty).indent s.desc_indent true).after
              ((out.put (use_string s p)).endl))) := by
  have hsum : (szAdd (use_string s p).length (toSizeT s.param_to_desc_len) : Int)
      = (use_string s p).length + s.param_to_desc_len := by
    unfold INT_MAX at h3
    unfold szAdd toSizeT
    omega
  have hdil : (toSizeT s.desc_indent_len : Int) = s.desc_indent_len := by
    unfold INT_MAX at h1
    unfold toSizeT
    omega
  have hcond : szAdd (use_string s p).length (toSizeT s.param_to_desc_len)
      > toSizeT s.desc_indent_len
      ↔ s.desc_indent_len < ((use_string s p).length : Int) + s.param_to_desc_len := by
    constructor
    · intro h
      have : (toSizeT s.desc_indent_len : Int)
          < (szAdd (use_string s p).length (toSizeT s.param_to_desc_len) : Int) := by
        exact_mod_cast h
      rw [hsum, hdil] at this
      exact this
    · intro h
      rw [← hsum, ← hdil] at h
      exact_mod_cast h
  refine ⟨by rw [hdi]; exact spaces_length _, ?_, ?_⟩
  · intro hle
    have hD : decide (szAdd (use_string s p).length (toSizeT s.param_to_desc_len)
        > toSizeT s.desc_indent_len) = false := by
      rw [decide_eq_false_iff_not, hcond]
      omega
    have hpad : szSub (toSizeT s.desc_indent_len) (use_string s p).length
        = (s.desc_indent_len - (use_string s p).length).toNat := by
      unfold INT_MAX at h1
      unfold szSub toSizeT
      omega
    have hblock := print_param_block_rest s p out (by
      rintro ⟨_, hgt⟩
      rw [hpad] at hgt
      unfold INT_MAX at h1 hgt
      omega)
    rw [hD, hpad] at hblock
    simp only [Bool.false_eq_true, if_false] at hblock
    rw [Cout.put_put, print_param_description_layout] at hblock
    refine ⟨?_, hblock⟩
    rw [String.length_append, (spaces_length _).1]
    omega
  · intro hgt
    have hD : decide (szAdd (use_string s p).length (toSizeT s.param_to_desc_len)
        > toSizeT s.desc_indent_len) = true := by
      rw [decide_eq_true_iff, hcond]
      exact hgt
    have hblock := print_param_block_rest s p out (by
      rintro ⟨hn, _⟩
      rw [hD] at hn
      simp at hn)
    rw [hD] at hblock
    simp only [if_true] at hblock
    rw [print_param_description_layout] at hblock
    exact hblock

/-- C24: in the layout of 7 columns with `desc_indent_len = 2` the description
`"abcde fg"`, whose words fit in the 5 columns left, is printed as `"  abcde"` and
`"   fg"`: the second line has three spaces before its text. The word `abcde` fills the
room, so the space after it takes the forced-split branch, which ends with
`word.push_back(c)`: the space becomes the first character of the next word. The same
happens next to a padded use string in 80 columns. What holds in general, for ASCII
texts and non-negative widths: the block is the use string, padded to `desc_indent_len`
characters or alone on its line as claimed, followed by the lines of the description
loop run without indentation, each printed after exactly `desc_indent`; the extra
space belongs to the line itself. -/
theorem description_line_starts_after_desc_indent {F : FloatLib} :
    (∀ (s : Parameters F) (p : ParamHolder F) (out : Cout),
      ascii (use_string s p) → ascii p.description →
      0 ≤ s.desc_indent_len → s.desc_indent_len ≤ INT_MAX →
      0 ≤ s.param_to_desc_len → s.param_to_desc_len ≤ INT_MAX →
      (use_string s p).utf8ByteSize < 9223372036854775808 →
      s.desc_indent = spaces s.desc_indent_len →
      ((use_string s p).utf8ByteSize = (use_string s p).length ∧
        p.description.utf8ByteSize = p.description.length) ∧
      (s.desc_indent.length = s.desc_indent_len.toNat ∧ ∀ c ∈ s.desc_indent.data, c = ' ') ∧
      (((use_string s p).length : Int) + s.param_to_desc_len ≤ s.desc_indent_len →
        (use_string s p ++ spaces (s.desc_indent_len - (use_string s p).length)).length
          = s.desc_indent_len.toNat ∧
        print_param_block s p out
          = print_block_rest s p false
              (((print_param_description s.terminal_width s.desc_indent_len "" true
                  p.description Cout.empty).indent s.desc_indent false).after
                (out.put (use_string s p
                  ++ spaces (s.desc_indent_len - (use_string s p).length))))) ∧
      (s.desc_indent_len < ((use_string s p).length : Int) + s.param_to_desc_len →
        print_param_block s p out
          = print_block_rest s p true
              (((print_param_description s.terminal_width s.desc_indent_len "" true
                  p.description Cout.empty).indent s.desc_indent true).after
                ((out.put (use_string s p)).endl)))) ∧
    ((0 ≤ cfg7.desc_indent_len ∧ 0 ≤ cfg7.param_to_desc_len ∧ 0 ≤ cfg7.terminal_width) ∧
      (∀ w ∈ words "abcde fg",
        (w.length : Int) ≤ cfg7.terminal_width - cfg7.desc_indent_len) ∧
      print_parameters (narrowRegistry "abcde fg") Cout.empty
        = .next ⟨["--x", "  abcde", "   fg", ""], ""⟩ ∧
      print_param_description 7 2 "" true "abcde fg " Cout.empty
        = .next ⟨["abcde", " fg"], ""⟩) ∧
    print_parameters (wideRegistry "aaaaaaaaaaaaaaaaaaaaaaaaaaaaaaaaaaaaaaaaaaaaaaaaaaaaaaaaaaaa b") Cout.empty
      = .next ⟨["  --x               aaaaaaaaaaaaaaaaaaaaaaaaaaaaaaaaaaaaaaaaaaaaaaaaaaaaaaaaaaaa",
          "                     b", ""], ""⟩ := by
  refine ⟨?_, ⟨by decide, by decide, by decide, by decide⟩, by decide⟩
  intro s p out hau had h0 h1 h2 h3 h4 hdi
  have hb1 := ascii_utf8ByteSize _ hau
  have hb2 := ascii_utf8ByteSize _ had
  rw [hb1] at h4
  exact ⟨⟨hb1, hb2⟩, print_param_block_layout s p out h0 h1 h2 h3 h4 hdi⟩

/-- Witness of C24: a flag of `cfg80` whose description takes two lines, printed next
to its use string, and a flag of `cfg7` whose use string ends its line; without
indentation the lines of the second description are `"abc"` and `"de"`. -/
theorem description_line_starts_after_desc_indent_witness :
    print_param_block
        (wideRegistry "print the help menu of the program and stop without doing anything else")
        (Param.flag "--x"
          "print the help menu of the program and stop without doing anything else")
        Cout.empty
      = .next ⟨["  --x               print the help menu of the program and stop without doing",
          "                    anything else", ""], ""⟩ ∧
    print_param_block (narrowRegistry "abc de") (Param.flag "--x" "abc de") Cout.empty
      = .next ⟨["--x", "  abc", "  de", ""], ""⟩ ∧
    print_param_description 7 2 "" true "abc de " Cout.empty = .next ⟨["abc", "de"], ""⟩ :=
  ⟨(((@description_line_starts_after_desc_indent FloatLib.integral).1
        (wideRegistry "print the help menu of the program and stop without doing anything else")
        (Param.flag "--x"
          "print the help menu of the program and stop without doing anything else")
        Cout.empty (by decide) (by decide) (by decide) (by decide) (by decide) (by decide)
        (by decide) rfl).2.2.1
      (by decide)).2.trans (by decide),
    (((@description_line_starts_after_desc_indent FloatLib.integral).1
        (narrowRegistry "abc de") (Param.flag "--x" "abc de") Cout.empty (by decide)
        (by decide) (by decide) (by decide) (by decide) (by decide) (by decide) rfl).2.2.2
      (by decide)).trans (by decide),
    by decide⟩

/-! ## Lemmas on the pieces of a text a wrap loop emits -/

theorem held_word (fw : Bool) (line word : String) (t : List Char) (h : held fw line word t) :
    word.data <:+ t := by
  rcases h with ⟨_, _, h⟩ | ⟨pre, h⟩
  · exact h
  · exact ⟨pre ++ line.data ++ [' '], by rw [h]; simp⟩

theorem held_line (fw : Bool) (line word : String) (t : List Char) (h : held fw line word t) :
    line.data <:+: t := by
  rcases h with ⟨_, h, _⟩ | ⟨pre, h⟩
  · rw [h]
    exact ⟨[], t, by simp⟩
  · exact ⟨pre, ' ' :: word.data, by rw [h]⟩

theorem held_push (fw : Bool) (line word : String) (t : List Char) (c : Char)
    (h : held fw line word t) : held fw line (word.push c) (t ++ [c]) := by
  rcases h with ⟨h1, h2, ⟨pre, h3⟩⟩ | ⟨pre, h⟩
  · exact Or.inl ⟨h1, h2, ⟨pre, by rw [← h3]; simp [String.push]⟩⟩
  · exact Or.inr ⟨pre, by rw [h]; simp [String.push]⟩

theorem held_restart (fw fw' : Bool) (line word : String) (t : List Char)
    (h : held fw line word t) : held fw' word "" (t ++ [' ']) := by
  obtain ⟨pre, hpre⟩ := held_word fw line word t h
  exact Or.inr ⟨pre, by rw [← hpre]⟩

theorem held_commit (line word : String) (t : List Char) (h : held false line word t) :
    held false (line ++ (" " ++ word)) "" (t ++ [' ']) := by
  rcases h with ⟨h1, _, _⟩ | ⟨pre, h⟩
  · cases h1
  · exact Or.inr ⟨pre, by rw [h]; simp⟩

theorem held_split (fw : Bool) (line word rest : String) (t : List Char) (n : Nat) (c : Char)
    (h : held fw line word t) (hrest : rest.data = word.data.drop n) :
    ((if line ≠ "" then line ++ " " else "") ++ substr_to word n).data <:+: t ∧
    held true "" (rest.push c) (t ++ [c]) := by
  obtain ⟨pre, hpre⟩ := held_word fw line word t h
  constructor
  · by_cases hl : line = ""
    · simp only [hl, ne_eq, not_true_eq_false, if_false, substr_to, String.data_append]
      refine ⟨pre, word.data.drop n, ?_⟩
      rw [← hpre]
      simp
    · rcases h with ⟨_, h2, _⟩ | ⟨pre2, h⟩
      · exact absurd h2 hl
      · simp only [ne_eq, hl, not_false_eq_true, if_true, substr_to, String.data_append]
        refine ⟨pre2, word.data.drop n, ?_⟩
        rw [h]
        have hsp : (" " : String).data = [' '] := rfl
        have hw := List.take_append_drop n word.data
        conv_rhs => rw [← hw]
        simp [hsp]
  · refine Or.inl ⟨rfl, rfl, ⟨pre ++ word.data.take n, ?_⟩⟩
    rw [← hpre]
    simp only [String.push, hrest, List.append_assoc]
    rw [← List.append_assoc (word.data.take n), List.take_append_drop]

theorem pieces_mono (out : Cout) (t : List Char) (c : Char) (h : pieces out t) :
    pieces out (t ++ [c]) := by
  obtain ⟨h1, h2⟩ := h
  refine ⟨h1, fun l hl => ?_⟩
  obtain ⟨a, b, hab⟩ := h2 l hl
  exact ⟨a, b ++ [c], by rw [← hab]; simp⟩

theorem pieces_emit (out : Cout) (t : List Char) (c : Char) (text : String)
    (h : pieces out t) (htext : text.data <:+: t) :
    pieces ((out.put text).endl) (t ++ [c]) := by
  obtain ⟨h1, h2⟩ := h
  refine ⟨rfl, fun l hl => ?_⟩
  simp only [Cout.put, Cout.endl, List.mem_append, List.mem_singleton] at hl
  rcases hl with hl | hl
  · exact (pieces_mono out t c ⟨h1, h2⟩).2 l hl
  · rw [hl, h1]
    obtain ⟨a, b, hab⟩ := htext
    exact ⟨a, b ++ [c], by rw [← hab]; simp⟩

theorem print_description_step_held (tw : Int) (st : DescState) (t : List Char) (c : Char)
    (h1 : pieces st.out t) (h2 : held st.first_word st.line st.word t) :
    pieces (print_description_step tw st c).out (t ++ [c]) ∧
    held (print_description_step tw st c).first_word (print_description_step tw st c).line
      (print_description_step tw st c).word (t ++ [c]) := by
  unfold print_description_step
  by_cases hc : c ≠ ' '
  · rw [if_pos hc]
    exact ⟨pieces_mono _ _ _ h1, held_push _ _ _ _ _ h2⟩
  · rw [if_neg hc]
    have hc' : c = ' ' := by simpa using hc
    subst hc'
    split
    · cases hf : st.first_word
      · rw [hf] at h2
        exact ⟨pieces_mono _ _ _ h1, held_commit _ _ _ h2⟩
      · exact ⟨pieces_mono _ _ _ h1, held_restart _ _ _ _ _ h2⟩
    · exact ⟨pieces_emit _ _ _ _ h1 (held_line _ _ _ _ h2), held_restart _ _ _ _ _ h2⟩

theorem print_description_fold_held (tw : Int) :
    ∀ (cs : List Char) (st : DescState) (t : List Char), pieces st.out t →
      held st.first_word st.line st.word t →
      pieces (cs.foldl (print_description_step tw) st).out (t ++ cs) ∧
      held (cs.foldl (print_description_step tw) st).first_word
        (cs.foldl (print_description_step tw) st).line
        (cs.foldl (print_description_step tw) st).word (t ++ cs) := by
  intro cs
  induction cs with
  | nil =>
    intro st t h1 h2
    simp only [List.foldl_nil, List.append_nil]
    exact ⟨h1, h2⟩
  | cons c cs ih =>
    intro st t h1 h2
    obtain ⟨a1, a2⟩ := print_description_step_held tw st t c h1 h2
    have := ih (print_description_step tw st c) (t ++ [c]) a1 a2
    simp only [List.append_assoc, List.singleton_append] at this
    exact this

/-- Every line `print_description` writes on the empty stream is a piece of the
description. -/
theorem print_description_pieces {F : FloatLib} (s : Parameters F) :
    ∀ l ∈ (print_description s Cout.empty).lines, l.data <:+: s.description.data := by
  have hinit1 : pieces (Cout.empty.endl) [] := by
    refine ⟨rfl, fun l hl => ?_⟩
    simp only [Cout.endl, Cout.empty, List.nil_append, List.mem_singleton] at hl
    subst hl
    exact ⟨[], [], rfl⟩
  have hinit2 : held true "" "" [] := Or.inl ⟨rfl, rfl, ⟨[], rfl⟩⟩
  obtain ⟨⟨b1, b2⟩, b3⟩ := print_description_fold_held s.terminal_width s.description.data
    { line := "", word := "", first_word := true, out := Cout.empty.endl } [] hinit1 hinit2
  simp only [List.nil_append] at b2 b3
  intro l hl
  have hpd : print_description s Cout.empty
      = (((s.description.data.foldl (print_description_step s.terminal_width)
          { line := "", word := "", first_word := true, out := Cout.empty.endl }).out.put
          (s.description.data.foldl (print_description_step s.terminal_width)
            { line := "", word := "", first_word := true, out := Cout.empty.endl }).line).endl) :=
    rfl
  rw [hpd] at hl
  generalize List.foldl (print_description_step s.terminal_width)
    { line := "", word := "", first_word := true, out := Cout.empty.endl } s.description.data
    = st at b1 b2 b3 hl
  simp only [Cout.put, Cout.endl, List.mem_append, List.mem_singleton] at hl
  rcases hl with hl | hl
  · exact b2 l hl
  · rw [hl, b1]
    have := held_line _ _ _ _ b3
    simpa using this

theorem forced_split_out_bare (tw dil : Int) (st : WrapState) :
    forced_split_out tw dil "" true st
      = (st.out.put ((if st.line ≠ "" then st.line ++ " " else "")
          ++ substr_to st.word (split_offset tw dil st))).endl := by
  unfold forced_split_out
  simp only [Bool.or_true, if_true, Cout.put_empty]
  by_cases hl : st.line = ""
  · simp [hl, Cout.put]
  · simp only [ne_eq, hl, not_false_eq_true, if_true, Cout.put_put]

theorem param_desc_step_held (tw dil : Int) (st : WrapState) (t : List Char) (c : Char)
    (h0 : 0 ≤ dil) (hlt : dil < tw) (hmax : tw ≤ INT_MAX) (hb : st.bounded tw dil)
    (h1 : pieces st.out t) (h2 : held st.first_word st.line st.word t) :
    match param_desc_step tw dil "" true st c with
    | .next st' => pieces st'.out (t ++ [c]) ∧ held st'.first_word st'.line st'.word (t ++ [c])
    | .raised _ out => pieces out (t ++ [c]) := by
  by_cases hf : takes_forced_split tw dil st c
  · rw [param_desc_step_forced _ _ _ _ _ _ hf, forced_split_out_bare]
    have hsp := held_split st.first_word st.line st.word
      (String.mk (st.word.data.drop (split_offset tw dil st))) t (split_offset tw dil st) c h2 rfl
    by_cases hn : split_offset tw dil st > st.word.length
    · simp only [substr_from, if_pos hn]
      exact pieces_emit _ _ _ _ h1 hsp.1
    · simp only [substr_from, if_neg hn]
      exact ⟨pieces_emit _ _ _ _ h1 hsp.1, hsp.2⟩
  · unfold takes_forced_split at hf
    unfold param_desc_step
    by_cases c1 : c ≠ ' ' ∧ szAdd (toSizeT dil) st.word.length < toSizeT tw
    · rw [if_pos c1]
      exact ⟨pieces_mono _ _ _ h1, held_push _ _ _ _ _ h2⟩
    · rw [if_neg c1]
      by_cases c2 : szAdd (szAdd (szAdd (toSizeT dil) st.line.length) st.word.length) 1
          ≤ toSizeT tw
      · rw [if_pos c2]
        have hc : c = ' ' := by
          by_contra hne
          have c3 : ¬ szAdd (toSizeT dil) st.word.length < toSizeT tw := fun h => c1 ⟨hne, h⟩
          obtain ⟨s1, s2, s3⟩ := wrap_sizes tw dil st h0 hlt hmax hb
          have c2' : (szAdd (szAdd (szAdd (toSizeT dil) st.line.length) st.word.length) 1 : Int)
              ≤ (toSizeT tw : Int) := by exact_mod_cast c2
          have c3' : ¬ ((szAdd (toSizeT dil) st.word.length : Int) < (toSizeT tw : Int)) :=
            fun h => c3 (by exact_mod_cast h)
          rw [s1, s3] at c2'
          rw [s1, s2] at c3'
          omega
        subst hc
        cases hfw : st.first_word
        · rw [hfw] at h2
          exact ⟨pieces_mono _ _ _ h1, held_commit _ _ _ h2⟩
        · exact ⟨pieces_mono _ _ _ h1, held_restart _ _ _ _ _ h2⟩
      · rw [if_neg c2]
        have c3 : szAdd (toSizeT dil) st.word.length < toSizeT tw := by
          by_contra hcon
          exact hf ⟨c1, c2, hcon⟩
        have hc : c = ' ' := by
          by_contra hne
          exact c1 ⟨hne, c3⟩
        subst hc
        simp only [if_pos c3, Bool.or_true, if_true, Cout.put_empty]
        exact ⟨pieces_emit _ _ _ _ h1 (held_line _ _ _ _ h2), held_restart _ _ _ _ _ h2⟩

theorem wrap_loop_held (tw dil : Int) (h0 : 0 ≤ dil) (hlt : dil < tw) (hmax : tw ≤ INT_MAX) :
    ∀ (cs : List Char) (st : WrapState) (t : List Char), st.bounded tw dil →
      pieces st.out t → held st.first_word st.line st.word t →
      match wrap_loop (param_desc_step tw dil "" true) cs st with
      | .next st' => pieces st'.out (t ++ cs) ∧ held st'.first_word st'.line st'.word (t ++ cs)
      | .raised _ out => ∃ pre suf, t ++ cs = pre ++ suf ∧ pieces out pre := by
  intro cs
  induction cs with
  | nil =>
    intro st t _ h1 h2
    simp only [wrap_loop, List.append_nil]
    exact ⟨h1, h2⟩
  | cons c cs ih =>
    intro st t hb h1 h2
    have hstep := param_desc_step_held tw dil st t c h0 hlt hmax hb h1 h2
    simp only [wrap_loop]
    cases hs : param_desc_step tw dil "" true st c with
    | raised e o =>
      rw [hs] at hstep
      exact ⟨t ++ [c], cs, by simp, hstep⟩
    | next st1 =>
      rw [hs] at hstep
      have hb1 := param_desc_step_bounded tw dil "" true st st1 c h0 hlt hmax hb hs
      have := ih st1 (t ++ [c]) hb1 hstep.1 hstep.2
      simp only [List.append_assoc, List.singleton_append] at this
      exact this

/-- Every line the description loop of `print_parameters` writes on the empty stream,
run without indentation, is a piece of the description. -/
theorem print_param_description_pieces (tw dil : Int) (description : String) (h0 : 0 ≤ dil)
    (hlt : dil < tw) (hmax : tw ≤ INT_MAX) :
    ∀ l ∈ (print_param_description tw dil "" true description Cout.empty).lines,
      l.data <:+: description.data := by
  have hb : WrapState.bounded tw dil
      { line := "", word := "", first_l := true, first_word := true, out := Cout.empty } := by
    refine ⟨?_, ?_, fun _ => rfl⟩
    · simp only [String.length_empty]
      omega
    · simp only [String.length_empty]
      omega
  have hloop := wrap_loop_held tw dil h0 hlt hmax description.data
    { line := "", word := "", first_l := true, first_word := true, out := Cout.empty } [] hb
    ⟨rfl, fun l hl => by simp [Cout.empty] at hl⟩ (Or.inl ⟨rfl, rfl, ⟨[], rfl⟩⟩)
  intro l hl
  unfold print_param_description at hl
  cases hw : wrap_loop (param_desc_step tw dil "" true) description.data
      { line := "", word := "", first_l := true, first_word := true, out := Cout.empty } with
  | raised e o =>
    rw [hw] at hl hloop
    obtain ⟨pre, suf, hps, _, hp⟩ := hloop
    obtain ⟨a, b, hab⟩ := hp l hl
    simp only [List.nil_append] at hps
    exact ⟨a, b ++ suf, by rw [hps, ← hab]; simp⟩
  | next st1 =>
    rw [hw] at hl hloop
    obtain ⟨⟨b1, b2⟩, b3⟩ := hloop
    simp only [List.nil_append] at b2 b3
    simp only [Bool.or_true, if_true, Cout.put_empty, Printed.lines, Cout.put, Cout.endl,
      List.mem_append, List.mem_singleton] at hl
    rcases hl with hl | hl
    · exact b2 l hl
    · rw [hl, b1]
      have := held_line _ _ _ _ b3
      simpa using this

/-! ## The claim on runs of spaces -/

/-- Counterexample to C21: in 80 columns the description `"a  b"`, with two spaces
between its words, is emitted as `"a  b"` by `print_description` and by the description
loop of `print_parameters`, while `"a b"` is emitted as `"a b"`; the space that starts
`" a"` is emitted too. In texts that wrap the lines differ as well: at width 5
`"ab  cd"` gives `"ab "` and `"cd"` where `"ab cd"` gives `"ab cd"`, and in the layout of
7 columns the description `"ab  cd"` gives `"  ab "` and `"  cd"` where `"ab cd"` gives
`"  ab cd"`. -/
theorem wrap_does_not_collapse_spaces :
    print_description (wideProgram "a  b") Cout.empty = ⟨["", "a  b"], ""⟩ ∧
    print_description (wideProgram "a b") Cout.empty = ⟨["", "a b"], ""⟩ ∧
    print_description (wideProgram " a") Cout.empty = ⟨["", " a"], ""⟩ ∧
    print_parameters (wideRegistry "a  b") Cout.empty
      = .next ⟨["  --x               a  b", ""], ""⟩ ∧
    print_parameters (wideRegistry "a b") Cout.empty
      = .next ⟨["  --x               a b", ""], ""⟩ ∧
    print_description (describedProgram "ab  cd") Cout.empty = ⟨["", "ab ", "cd"], ""⟩ ∧
    print_description (describedProgram "ab cd") Cout.empty = ⟨["", "ab cd"], ""⟩ ∧
    print_parameters (narrowRegistry "ab  cd") Cout.empty
      = .next ⟨["--x", "  ab ", "  cd", ""], ""⟩ ∧
    print_parameters (narrowRegistry "ab cd") Cout.empty
      = .next ⟨["--x", "  ab cd", ""], ""⟩ := by
  decide

/-- C21, amended: the wrap loops keep the spaces of an ASCII text. Every line
`print_description` emits is a piece of the description, a run of consecutive
characters of it, and in a layout `0 <= desc_indent_len < terminal_width` so is every
line the description loop of `print_parameters` emits, before its indentation and until
it is interrupted: no space is dropped inside a line and none is added, so a run of
spaces of the text is emitted as it is and a line can begin or end with a space of the
text. A text `d` that fits on one line with the space the setter appends
(`length d + 1 <= terminal_width` for `print_description`,
`desc_indent_len + length d + 1 <= terminal_width` for the description loop, lengths
in bytes) is emitted as the one line `d`. -/
theorem wrap_keeps_spaces {F : FloatLib} :
    (∀ (s : Parameters F), ascii s.description →
      ∀ l ∈ (print_description s Cout.empty).lines, l.data <:+: s.description.data) ∧
    (∀ (tw dil : Int) (description : String), ascii description → 0 ≤ dil → dil < tw →
      tw ≤ INT_MAX →
      ∀ l ∈ (print_param_description tw dil "" true description Cout.empty).lines,
        l.data <:+: description.data) ∧
    (∀ (s : Parameters F) (d : String) (out : Cout), ascii d → s.description = d ++ " " →
      (d.utf8ByteSize : Int) + 1 ≤ s.terminal_width → s.terminal_width ≤ INT_MAX →
      print_description s out = ((out.endl).put d).endl) ∧
    (∀ (tw dil : Int) (di : String) (nl : Bool) (d : String) (out : Cout), ascii d →
      0 ≤ dil → dil + (d.utf8ByteSize : Int) + 1 ≤ tw → tw ≤ INT_MAX →
      print_param_description tw dil di nl (d ++ " ") out
        = .next (((if nl then out.put di else out).put d).endl)) := by
  refine ⟨fun s _ => print_description_pieces s,
    fun tw dil description _ h0 hlt hmax =>
      print_param_description_pieces tw dil description h0 hlt hmax, ?_, ?_⟩
  · intro s d out ha hd hfit h2
    rw [ascii_utf8ByteSize d ha] at hfit
    exact print_description_verbatim s d out hd hfit h2
  · intro tw dil di nl d out ha h0 hfit h2
    rw [ascii_utf8ByteSize d ha] at hfit
    exact print_param_description_verbatim tw dil di nl d out h0 hfit h2

/-- Witness of C21, amended: the text `"a  b"` in 80 columns, as a program description
and as the description of a parameter at column 20, and the lines of `"ab  cd"` at
width 5. -/
theorem wrap_keeps_spaces_witness :
    print_description (wideProgram "a  b") Cout.empty = ((Cout.empty.endl).put "a  b").endl ∧
    print_param_description 80 20 (spaces 20) false ("a  b" ++ " ") Cout.empty
      = .next ((Cout.empty.put "a  b").endl) ∧
    (∀ l ∈ (print_description (describedProgram "ab  cd") Cout.empty).lines,
      l.data <:+: "ab  cd ".data) ∧
    (∀ l ∈ (print_param_description 7 2 "" true "ab  cd " Cout.empty).lines,
      l.data <:+: "ab  cd ".data) :=
  ⟨(@wrap_keeps_spaces FloatLib.integral).2.2.1 (wideProgram "a  b") "a  b" Cout.empty
      (by decide) rfl (by decide) (by decide),
    (@wrap_keeps_spaces FloatLib.integral).2.2.2 80 20 (spaces 20) false "a  b"
      Cout.empty (by decide) (by decide) (by decide) (by decide),
    (@wrap_keeps_spaces FloatLib.integral).1 (describedProgram "ab  cd") (by decide),
    (@wrap_keeps_spaces FloatLib.integral).2.1 7 2 "ab  cd " (by decide) (by decide)
      (by decide) (by decide)⟩

end Help80
